import Mathlib

/-!
# Verification of the brainfuck-assembly compiler

A shallow embedding of the `bfas` assembler (registers.py, assembler.py,
bfas.py) together with a model of the target tape machine (the conformance
oracle of bfc.py), and proofs about the code the assembler emits.

Python behaviours are modelled as follows: functions that can `raise` or
`print(...); exit(1)` return `Except PyErr _`; string building mirrors the
source concatenations character for character; Python `%` on a nonnegative
left operand is `Nat.mod`.
-/

set_option maxHeartbeats 1000000

/-- Failure modes of the Python source: a clean `print` + `exit(1)`, a raised
`ValueError`, and an uncaught `IndexError` from an out-of-range list access. -/
inductive PyErr where
  | exitOne (msg : String)
  | valueError (msg : String)
  | indexError
  deriving DecidableEq, Repr

/-- Python `s * n` for a string `s` and a nonnegative count. -/
def pyRepeat (s : String) : Nat → String
  | 0 => ""
  | n + 1 => s ++ pyRepeat s n

/-- Python `s.endswith(t)`, on the underlying character lists. -/
def pyEndsWith (s t : String) : Bool := t.data.isSuffixOf s.data

/-- Python `s[:-1]`: drop the last character. -/
def pyDropLast (s : String) : String := ⟨s.data.dropLast⟩

/-- Python `int(s)` restricted to the operand shapes the front end can
produce: it accepts a nonempty all-digit decimal literal and rejects
everything else (in particular a 0x-prefixed literal raises ValueError,
since Python int() defaults to base 10). -/
def pyInt (s : String) : Except PyErr Nat :=
  if s ≠ "" ∧ s.data.all Char.isDigit then
    .ok (s.data.foldl (fun a c => a * 10 + (c.toNat - 48)) 0)
  else
    .error (.valueError ("invalid literal for int with base 10: " ++ s))

/-! ## registers.py -/

/-- Internal (compiler-reserved) registers, in tape order. -/
def IRegisters : List String := ["BJR", "FJR", "IC", "TR1", "TR2", "TR3", "TR4", "TR5"]

/-- User-visible registers, in tape order. -/
def URegisters : List String := ["CRR", "PC", "R1", "R2", "R3", "R4", "R5"]

/-- All registers: internal first, then user. -/
def Registers : List String := IRegisters ++ URegisters

/-- `check_reg`: raises ValueError when the name is not a register. -/
def check_reg (reg : String) : Except PyErr Unit :=
  if reg ∈ Registers then .ok () else .error (.valueError ("Undefined register " ++ reg))

/-- `check_ureg`: raises ValueError when the name is not a user register. -/
def check_ureg (reg : String) : Except PyErr Unit :=
  if reg ∈ URegisters then .ok () else .error (.valueError ("Undefined register " ++ reg))

/-- `address_of`: `check_reg` then `Registers.index`. -/
def address_of (reg : String) : Except PyErr Nat := do
  let _ ← check_reg reg
  pure (Registers.indexOf reg)

/-! ## assembler.py: data model -/

inductive OperandType where
  | REFERENCE
  | ADDRESS
  | CONSTANT
  deriving DecidableEq, Repr

structure Operand where
  val : String
  type : OperandType
  deriving DecidableEq, Repr

structure Instruction where
  name : String
  operands : List Operand
  deriving DecidableEq, Repr

structure Label where
  name : String
  ip : Nat
  deriving DecidableEq, Repr

/-- The Python label dict, modelled as an association list in insertion
order; only lookup, membership and key-overwriting assignment are used. -/
def LabelMap := List (String × Label)

instance : DecidableEq LabelMap := by unfold LabelMap; infer_instance

/-- Dict lookup `labels[k]`. -/
def dictGet (m : LabelMap) (k : String) : Option Label :=
  match m with
  | [] => none
  | (k', v) :: rest => if k' = k then some v else dictGet rest k

/-- Dict membership `k in labels`. -/
def dictMem (m : LabelMap) (k : String) : Bool :=
  match m with
  | [] => false
  | (k', _) :: rest => k' = k || dictMem rest k

/-- Dict assignment `labels[k] = v` (overwrites in place, else appends). -/
def dictSet (m : LabelMap) (k : String) (v : Label) : LabelMap :=
  match m with
  | [] => [(k, v)]
  | (k', v') :: rest => if k' = k then (k', v) :: rest else (k', v') :: dictSet rest k v

/-! ## assembler.py: BFGen, the code-generation primitives -/

namespace BFGen

/-- `BFGen.ptr`: emit the pointer movement from the cell of `src` to the
cell of `dst`. -/
def ptr (src dst : String) : Except PyErr String := do
  let s ← address_of src
  let d ← address_of dst
  if d > s then
    pure (pyRepeat ">" (d - s))
  else
    pure (pyRepeat "<" (s - d))

/-- `BFGen.inc`: `"+" * val`. -/
def inc (val : Nat) : String := pyRepeat "+" val

/-- `BFGen.clr`. -/
def clr : String := "[-]"

/-- `BFGen.set`. -/
def set (val : Nat) : String := "[-]" ++ pyRepeat "+" val

/-- `BFGen.mv`: destructive move, assumes the pointer on `src`. -/
def mv (src dst : String) : Except PyErr String := do
  let p1 ← ptr src dst
  let p2 ← ptr dst src
  pure ("[-" ++ p1 ++ "+" ++ p2 ++ "]")

/-- `BFGen.cp`: non-destructive copy through `tmp`, assumes the pointer on
`src`. -/
def cp (src dst tmp : String) : Except PyErr String := do
  let sd ← ptr src dst
  let dt ← ptr dst tmp
  let ts ← ptr tmp src
  let st ← ptr src tmp
  let m ← mv tmp src
  let ts2 ← ptr tmp src
  pure ("[-" ++ sd ++ "+" ++ dt ++ "+" ++ ts ++ "]" ++ st ++ m ++ ts2)

/-- `BFGen.set_pc`: assumes the block pointer on FJR. -/
def set_pc (pc : Nat) : Except PyErr String := do
  let a ← ptr "FJR" "PC"
  let b ← ptr "PC" "FJR"
  pure (a ++ clr ++ inc pc ++ b ++ "\n")

/-- `BFGen.fjump_wrap`: the dispatch gate around one instruction body. -/
def fjump_wrap (inst : String) : String :=
  ">+<" ++ "[>-]" ++ ">[>]<\n" ++ "[-\n    " ++ inst ++ "\n]\n" ++
    "+<[>-]>[>]<<->[-<+>]<\n"

/-- `BFGen.bjump_post`. -/
def bjump_post : String := "<]>\n"

/-- `BFGen.wrap`: the full per-instruction envelope. -/
def wrap (inst : String) (pc : Nat) : Except PyErr String := do
  let sp ← set_pc pc
  pure (sp ++ fjump_wrap inst ++ bjump_post)

/-- `BFGen.bjump_pre`: the one-time prologue for `ni` instructions. -/
def bjump_pre (ni : Nat) : String :=
  inc ni ++ "\n" ++ pyRepeat "[-" ni ++ "\n>\n"

/-- `BFGen.gt_setup`: copy `rega` to TR5 and TR1 and `regb` to TR3; assumes
the pointer on `rega`, leaves it on TR5. -/
def gt_setup (rega regb : String) : Except PyErr String := do
  let cpa5 ← cp rega "TR5" "TR4"
  let cpb3 ← cp regb "TR3" "TR4"
  let cpa1 ← cp "TR5" "TR1" "TR2"
  let ab ← ptr rega regb
  let b5 ← ptr regb "TR5"
  pure (cpa5 ++ ab ++ cpb3 ++ b5 ++ cpa1)

/-- `BFGen.clear_cond`. -/
def clear_cond (curr_ptr : String) : Except PyErr String := do
  let a ← ptr curr_ptr "CRR"
  let b ← ptr "CRR" curr_ptr
  pure (a ++ "[-]" ++ b)

/-- `BFGen.gt`: assumes the pointer on TR5 with TR1 = a, TR3 = b, TR5 = a;
leaves TR1 = (a > b) and the pointer on TR1. -/
def gt : String := "[-<<[<<->]>[>]<->>]<<[+]<<"

/-- `BFGen.inot`: logical not of `a` into `dst`; assumes the pointer on `a`. -/
def inot (a dst : String) : Except PyErr String := do
  let ad ← ptr a dst
  let da ← ptr dst a
  pure (ad ++ "+" ++ da ++ "[[-]" ++ ad ++ "-" ++ da ++ "]")

/-- `BFGen.cond`: the conditional-execution gate around a body. -/
def cond (inst : String) : Except PyErr String := do
  let a ← ptr "IC" "CRR"
  let c ← cp "CRR" "IC" "TR1"
  let b ← ptr "CRR" "IC"
  pure (a ++ c ++ b ++ "[-" ++ inst ++ "]")

end BFGen

/-! ## assembler.py: BFI, the per-opcode instruction compilers -/

namespace BFI

/-- `BFI.add`. -/
def add (i : Instruction) (_labels : LabelMap) (_pc : Nat) : Except PyErr String :=
  match i.operands with
  | [o1, o2] => do
    let _ ← check_ureg o1.val
    match o2.type with
    | .REFERENCE => do
      let _ ← check_ureg o2.val
      let t2s ← BFGen.ptr "TR1" o2.val
      let s2d ← BFGen.ptr o2.val o1.val
      let d2t ← BFGen.ptr o1.val "TR1"
      let p1 ← BFGen.ptr "IC" o2.val
      let m ← BFGen.mv o2.val "TR1"
      let p2 ← BFGen.ptr o2.val "TR1"
      let p3 ← BFGen.ptr "TR1" "IC"
      pure (p1 ++ m ++ p2 ++ ("[-" ++ t2s ++ "+" ++ s2d ++ "+" ++ d2t ++ "]") ++ p3)
    | .CONSTANT => do
      let p1 ← BFGen.ptr "IC" o1.val
      let v ← pyInt o2.val
      let p2 ← BFGen.ptr o1.val "IC"
      pure (p1 ++ pyRepeat "+" v ++ p2)
    | _ => .error (.exitOne "Unexpected operand type in ADD")
  | _ => .error (.exitOne "Not enough operands in ADD")

/-- `BFI.mov`. -/
def mov (i : Instruction) (_labels : LabelMap) (_pc : Nat) : Except PyErr String :=
  match i.operands with
  | [o1, o2] => do
    let _ ← check_ureg o1.val
    if o2.type ≠ .CONSTANT then
      .error (.exitOne "Unexpected operand type in MOV")
    else do
      let p1 ← BFGen.ptr "IC" o1.val
      let v ← pyInt o2.val
      let p2 ← BFGen.ptr o1.val "IC"
      pure (p1 ++ BFGen.clr ++ pyRepeat "+" v ++ p2)
  | _ => .error (.exitOne "Not enough operands in MOV")

/-- `BFI.out`. -/
def out (i : Instruction) (_labels : LabelMap) (_pc : Nat) : Except PyErr String :=
  match i.operands with
  | [o1] => do
    let _ ← check_ureg o1.val
    let p1 ← BFGen.ptr "IC" o1.val
    let p2 ← BFGen.ptr o1.val "IC"
    pure (p1 ++ "." ++ p2)
  | _ => .error (.exitOne "Not enough operands in OUT")

/-- `BFI.branch`. -/
def branch (i : Instruction) (labels : LabelMap) (pc : Nat) : Except PyErr String :=
  match i.operands with
  | [o1] => do
    if o1.val ∈ URegisters then do
      let c1 ← BFGen.ptr "IC" "PC"
      let c2 ← BFGen.gt_setup "PC" o1.val
      let c3 ← BFGen.cp "TR1" "TR3" "TR4"
      let c4 ← BFGen.ptr "TR1" "TR3"
      let c5 ← BFGen.inot "TR3" "TR2"
      let c6 ← BFGen.ptr "TR3" "TR1"
      -- Jump back: PC - DST + 1
      let s1 ← BFGen.ptr "TR1" "PC"
      let s2 ← BFGen.cp "PC" "TR3" "TR5"
      let s3 ← BFGen.ptr "PC" o1.val
      let s4 ← BFGen.cp o1.val "TR4" "TR5"
      let s5 ← BFGen.ptr o1.val "TR4"
      let subB := s1 ++ s2 ++ s3 ++ s4 ++ s5 ++ "[-<->]<"
      let m1 ← BFGen.mv "TR3" "BJR"
      let c7 ← BFGen.ptr "TR3" "TR1"
      -- Jump fwd: DST - PC
      let f1 ← BFGen.ptr "TR2" "PC"
      let f2 ← BFGen.cp "PC" "TR4" "TR5"
      let f3 ← BFGen.ptr "PC" o1.val
      let f4 ← BFGen.cp o1.val "TR3" "TR5"
      let f5 ← BFGen.ptr o1.val "TR4"
      let subF := f1 ++ f2 ++ f3 ++ f4 ++ f5 ++ "[-<->]<"
      let m2 ← BFGen.mv "TR3" "FJR"
      let c8 ← BFGen.ptr "TR3" "TR2"
      let c9 ← BFGen.ptr "TR2" "IC"
      pure (c1 ++ c2 ++ BFGen.gt ++ "\n" ++ c3 ++ c4 ++ c5 ++ c6 ++ "\n" ++
        ("[" ++ subB ++ "\n+" ++ m1 ++ c7 ++ "-]\n") ++
        (">[" ++ subF ++ m2 ++ c8 ++ "-]") ++ c9)
    else
      match dictGet labels o1.val with
      | none => .error (.exitOne "Undefined label")
      | some lbl =>
        if lbl.ip > pc then do
          let p1 ← BFGen.ptr "IC" "FJR"
          let p2 ← BFGen.ptr "FJR" "IC"
          pure (p1 ++ BFGen.inc (lbl.ip - pc) ++ p2)
        else do
          let p1 ← BFGen.ptr "IC" "BJR"
          let p2 ← BFGen.ptr "BJR" "IC"
          pure (p1 ++ BFGen.inc (pc - lbl.ip + 1) ++ p2)
  | _ => .error (.exitOne "Not enough operands in B")

/-- `BFI.gt`: no operand validation at all; the two accesses
`i.operands[0]` and `i.operands[1]` raise IndexError when missing. -/
def gt (i : Instruction) (_labels : LabelMap) (_pc : Nat) : Except PyErr String :=
  match i.operands with
  | a :: b :: _ => do
    let cc ← BFGen.clear_cond "IC"
    let p1 ← BFGen.ptr "IC" a.val
    let su ← BFGen.gt_setup a.val b.val
    let m ← BFGen.mv "TR1" "CRR"
    let p2 ← BFGen.ptr "TR1" "IC"
    pure (cc ++ p1 ++ "\n" ++ su ++ "\n" ++ BFGen.gt ++ "\n" ++ m ++ "\n" ++ p2)
  | _ => .error .indexError

end BFI

/-- The `IPtr` opcode-dispatch table. -/
def IPtr (name : String) :
    Option (Instruction → LabelMap → Nat → Except PyErr String) :=
  if name = "ADD" then some BFI.add
  else if name = "MOV" then some BFI.mov
  else if name = "OUT" then some BFI.out
  else if name = "GT" then some BFI.gt
  else if name = "B" then some BFI.branch
  else none

/-- One iteration of the `assemble` loop: dispatch on the opcode name, with
the conditional suffix handled by wrapping the body in the conditional
gate, and wrap the result in the dispatch envelope. -/
def assembleBlock (labels : LabelMap) (i : Instruction) (pc : Nat) :
    Except PyErr String :=
  if pyEndsWith i.name "C" ∧ (IPtr (pyDropLast i.name)).isSome then
    match IPtr (pyDropLast i.name) with
    | some f => do
      let istr ← f i labels pc
      let c ← BFGen.cond istr
      BFGen.wrap c pc
    | none => .error (.exitOne ("Unrecognized instruction: " ++ i.name))
  else
    match IPtr i.name with
    | some f => do
      let istr ← f i labels pc
      BFGen.wrap istr pc
    | none => .error (.exitOne ("Unrecognized instruction: " ++ i.name))

/-- The loop of `assemble`: compile each instruction at its index and
concatenate the wrapped blocks. -/
def assembleBlocks (labels : LabelMap) : List Instruction → Nat → Except PyErr String
  | [], _ => pure ""
  | i :: rest, pc => do
    let block ← assembleBlock labels i pc
    let more ← assembleBlocks labels rest (pc + 1)
    pure (block ++ more)

/-- `assemble`: prologue plus the concatenated per-instruction blocks. -/
def assemble (instructions : List Instruction) (labels : LabelMap) :
    Except PyErr String := do
  let bf ← assembleBlocks labels instructions 0
  pure (BFGen.bjump_pre instructions.length ++ bf)

/-! ## bfas.py: the token-level parser front end

Tokens are modelled by value and kind; source positions are dropped (they
feed only diagnostics). -/

inductive TokenType where
  | NEWLINE
  | LABEL
  | COMMA
  | WORD
  | CONSTANT
  | ADDRESS
  | COMMENT
  deriving DecidableEq, Repr

structure Token where
  value : String
  type : TokenType
  deriving DecidableEq, Repr

inductive ParserState where
  | STATEMENT
  | OPERAND_1
  | OPERAND_CONT
  | OPERAND_2
  deriving DecidableEq, Repr

structure ParseCtx where
  state : ParserState
  instructions : List Instruction
  labels : LabelMap
  ic : Nat
  curr : Instruction

/-- Models the duplicate-label test of the source, which is written
`t.value is labels`: a Python identity comparison between a `str` and a
`dict`. Two objects of different types are never identical, so the test is
always false and the duplicate branch is dead code. -/
def pyIsStrDict (_v : String) (_labels : LabelMap) : Bool := false

/-- `complete_instruction`. -/
def completeInstruction (ctx : ParseCtx) : ParseCtx :=
  { ctx with ic := ctx.ic + 1, instructions := ctx.instructions ++ [ctx.curr] }

/-- One step of the parser state machine, per token. -/
def parserStep (ctx : ParseCtx) (t : Token) : Except PyErr ParseCtx :=
  if t.type = .COMMENT then .ok ctx
  else
    match ctx.state with
    | .STATEMENT =>
      match t.type with
      | .LABEL =>
        if pyIsStrDict t.value ctx.labels then
          .error (.exitOne "Duplicate label")
        else
          .ok { ctx with labels := dictSet ctx.labels t.value ⟨t.value, ctx.ic⟩ }
      | .WORD =>
        .ok { ctx with curr := { ctx.curr with name := t.value },
                       state := .OPERAND_1 }
      | .NEWLINE => .ok ctx
      | _ => .error (.exitOne "Unexpected token")
    | .OPERAND_1 =>
      match t.type with
      | .WORD =>
        .ok { ctx with curr := { ctx.curr with operands := [⟨t.value, .REFERENCE⟩] },
                       state := .OPERAND_CONT }
      | .NEWLINE =>
        .ok { completeInstruction ctx with state := .STATEMENT }
      | _ => .error (.exitOne "Unexpected token")
    | .OPERAND_CONT =>
      match t.type with
      | .COMMA => .ok { ctx with state := .OPERAND_2 }
      | .NEWLINE =>
        .ok { completeInstruction ctx with state := .STATEMENT }
      | _ => .error (.exitOne "Unexpected token")
    | .OPERAND_2 =>
      match t.type with
      | .WORD =>
        let c := { ctx.curr with operands := ctx.curr.operands ++ [⟨t.value, .REFERENCE⟩] }
        .ok { ctx with curr := c, state := .OPERAND_CONT }
      | .ADDRESS =>
        let c := { ctx.curr with operands := ctx.curr.operands ++ [⟨t.value, .ADDRESS⟩] }
        .ok { ctx with curr := c, state := .OPERAND_CONT }
      | .CONSTANT =>
        let c := { ctx.curr with operands := ctx.curr.operands ++ [⟨t.value, .CONSTANT⟩] }
        .ok { ctx with curr := c, state := .OPERAND_CONT }
      | _ => .error (.exitOne "Unexpected token")

/-- The `parser` function of bfas.py: fold the state machine over the token
stream and return the instruction list plus the label table. -/
def parserRun (tokens : List Token) :
    Except PyErr (List Instruction × LabelMap) := do
  let ctx ← tokens.foldlM parserStep ⟨.STATEMENT, [], [], 0, ⟨"", []⟩⟩
  pure (ctx.instructions, ctx.labels)

/-! ## The target tape language (the conformance oracle of bfc.py)

The oracle compiles the seven meaningful characters to a flat program and
runs a fetch-decode-execute loop; every other character is skipped, `!` is
a debug print with no machine effect, and loops are the bracket pairs.  We
model the same language structurally: a program is a list of operations in
which each bracket pair has become a `loop` node, and the machine state is
an unbounded integer-indexed tape of cells reduced modulo `base`
(`data_size` in bfc.py), a pointer, and the list of values printed so far. -/

inductive BfOp where
  | plus
  | minus
  | mvR
  | mvL
  | dot
  | loop (body : List BfOp)

/-- Scanner state: the current (reversed) operation accumulator and the
stack of accumulators of enclosing unclosed brackets. -/
abbrev ScanSt := List BfOp × List (List BfOp)

/-- Scan one character, mirroring the per-character cases of bfc.py
`compile` (the debug character and unknown characters have no machine
effect and are skipped). -/
def scanC (st : ScanSt) (c : Char) : Option ScanSt :=
  if c = '+' then some (.plus :: st.1, st.2)
  else if c = '-' then some (.minus :: st.1, st.2)
  else if c = '>' then some (.mvR :: st.1, st.2)
  else if c = '<' then some (.mvL :: st.1, st.2)
  else if c = '.' then some (.dot :: st.1, st.2)
  else if c = '[' then some ([], st.1 :: st.2)
  else if c = ']' then
    match st.2 with
    | [] => none
    | acc :: stk => some (.loop st.1.reverse :: acc, stk)
  else some st

/-- Scan a character list left to right. -/
def scanL (cs : List Char) (st : ScanSt) : Option ScanSt :=
  match cs with
  | [] => some st
  | c :: rest => (scanC st c).bind (scanL rest)

/-- Parse a generated text into a structured program; fails on unmatched
brackets. -/
def parseBF (s : String) : Option (List BfOp) :=
  (scanL s.data ([], [])).bind fun st =>
    match st.2 with
    | [] => some st.1.reverse
    | _ => none

/-- Machine state: unbounded tape, pointer, output so far. -/
structure BfState where
  tape : Int → Nat
  ptr : Int
  out : List Nat

/-- The cell under the pointer. -/
def BfState.cur (s : BfState) : Nat := s.tape s.ptr

/-- Write the cell under the pointer. -/
def BfState.wr (s : BfState) (v : Nat) : BfState :=
  ⟨fun j => if j = s.ptr then v else s.tape j, s.ptr, s.out⟩

/-- Move the pointer. -/
def BfState.mv (s : BfState) (d : Int) : BfState :=
  ⟨s.tape, s.ptr + d, s.out⟩

/-- Big-step execution of a program, relative to the cell base
(`data_size`).  `+` and `-` are `(v ± 1) % base` exactly as in the oracle
(`-` on a nonnegative cell is `(v + (base - 1)) % base`); a loop re-tests
the cell before every pass. -/
inductive Exec (base : Nat) : List BfOp → BfState → BfState → Prop where
  | done (s : BfState) : Exec base [] s s
  | plus {rest : List BfOp} {s t : BfState} :
      Exec base rest (s.wr ((s.cur + 1) % base)) t → Exec base (.plus :: rest) s t
  | minus {rest : List BfOp} {s t : BfState} :
      Exec base rest (s.wr ((s.cur + (base - 1)) % base)) t →
      Exec base (.minus :: rest) s t
  | mvR {rest : List BfOp} {s t : BfState} :
      Exec base rest (s.mv 1) t → Exec base (.mvR :: rest) s t
  | mvL {rest : List BfOp} {s t : BfState} :
      Exec base rest (s.mv (-1)) t → Exec base (.mvL :: rest) s t
  | dot {rest : List BfOp} {s t : BfState} :
      Exec base rest ⟨s.tape, s.ptr, s.out ++ [s.cur]⟩ t →
      Exec base (.dot :: rest) s t
  | loopZero {body rest : List BfOp} {s t : BfState} :
      s.cur = 0 → Exec base rest s t → Exec base (.loop body :: rest) s t
  | loopStep {body rest : List BfOp} {s m t : BfState} :
      s.cur ≠ 0 → Exec base body s m → Exec base (.loop body :: rest) m t →
      Exec base (.loop body :: rest) s t

/-- Fuel-bounded interpreter, used to evaluate concrete runs. -/
def runF (base : Nat) : Nat → List BfOp → BfState → Option BfState
  | 0, _, _ => none
  | _ + 1, [], s => some s
  | f + 1, op :: rest, s =>
    match op with
    | .plus => runF base f rest (s.wr ((s.cur + 1) % base))
    | .minus => runF base f rest (s.wr ((s.cur + (base - 1)) % base))
    | .mvR => runF base f rest (s.mv 1)
    | .mvL => runF base f rest (s.mv (-1))
    | .dot => runF base f rest ⟨s.tape, s.ptr, s.out ++ [s.cur]⟩
    | .loop body =>
      if s.cur = 0 then runF base f rest s
      else (runF base f body s).bind (runF base f (.loop body :: rest))

/-- The interpreter is sound for the big-step relation. -/
theorem runF_sound {base : Nat} :
    ∀ {f : Nat} {p : List BfOp} {s t : BfState},
      runF base f p s = some t → Exec base p s t := by
  intro f
  induction f with
  | zero => intro p s t h; simp [runF] at h
  | succ f ih =>
    intro p s t h
    match p with
    | [] =>
      simp [runF] at h
      exact h ▸ Exec.done s
    | op :: rest =>
      match op with
      | .plus => exact Exec.plus (ih h)
      | .minus => exact Exec.minus (ih h)
      | .mvR => exact Exec.mvR (ih h)
      | .mvL => exact Exec.mvL (ih h)
      | .dot => exact Exec.dot (ih h)
      | .loop body =>
        by_cases hz : s.cur = 0
        · simp only [runF, if_pos hz] at h
          exact Exec.loopZero hz (ih h)
        · simp only [runF, if_neg hz] at h
          obtain ⟨m, hm, ht⟩ := Option.bind_eq_some.mp h
          exact Exec.loopStep hz (ih hm) (ih ht)

/-- Execution derivations compose over program concatenation. -/
theorem Exec.app {base : Nat} {p q : List BfOp} {s m t : BfState}
    (h1 : Exec base p s m) (h2 : Exec base q m t) : Exec base (p ++ q) s t := by
  induction h1 with
  | done s => simpa using h2
  | plus _ ih => exact Exec.plus (ih h2)
  | minus _ ih => exact Exec.minus (ih h2)
  | mvR _ ih => exact Exec.mvR (ih h2)
  | mvL _ ih => exact Exec.mvL (ih h2)
  | dot _ ih => exact Exec.dot (ih h2)
  | loopZero hz _ ih => exact Exec.loopZero hz (ih h2)
  | loopStep hz hb _ _ ihk => exact Exec.loopStep hz hb (ihk h2)

/-! ## Address-level views of the emitted code

`BFGen` builds strings from register names after resolving them to tape
offsets.  The definitions below give the same strings as functions of the
resolved offsets, together with the structured programs they parse to; the
`_eq` lemmas connect them to the `BFGen` functions and the `scansTo`
lemmas connect string to structure. -/

/-- The movement string between offsets, as emitted by `BFGen.ptr`. -/
def ptrStr (s d : Nat) : String :=
  if d > s then pyRepeat ">" (d - s) else pyRepeat "<" (s - d)

/-- The string emitted by `BFGen.mv` between offsets. -/
def mvStr (s d : Nat) : String :=
  "[-" ++ ptrStr s d ++ "+" ++ ptrStr d s ++ "]"

/-- The string emitted by `BFGen.cp` between offsets. -/
def cpStr (s d t : Nat) : String :=
  "[-" ++ ptrStr s d ++ "+" ++ ptrStr d t ++ "+" ++ ptrStr t s ++ "]" ++
    ptrStr s t ++ mvStr t s ++ ptrStr t s

/-- The string emitted by `BFGen.gt_setup` between offsets (TR1 TR2 TR3 TR4
TR5 sit at offsets 3 4 5 6 7). -/
def gtSetupStr (a b : Nat) : String :=
  cpStr a 7 6 ++ ptrStr a b ++ cpStr b 5 6 ++ ptrStr b 7 ++ cpStr 7 3 4

/-- The string emitted by `BFGen.inot` between offsets. -/
def inotStr (a d : Nat) : String :=
  ptrStr a d ++ "+" ++ ptrStr d a ++ "[[-]" ++ ptrStr a d ++ "-" ++ ptrStr d a ++ "]"

/-- Reduction of an Except bind on a success value. -/
theorem ok_bind {α β ε : Type} (a : α) (f : α → Except ε β) :
    (Except.ok a >>= f) = f a := rfl

/-- Except pure is ok. -/
theorem pure_ok {α ε : Type} (a : α) : (pure a : Except ε α) = Except.ok a := rfl

theorem address_of_eq {a : String} (h : a ∈ Registers) :
    address_of a = Except.ok (Registers.indexOf a) := by
  simp [address_of, check_reg, h, ok_bind]

theorem BFGen.ptr_eq {a b : String} {da db : Nat}
    (ha : address_of a = Except.ok da) (hb : address_of b = Except.ok db) :
    BFGen.ptr a b = Except.ok (ptrStr da db) := by
  simp only [BFGen.ptr, ptrStr, ha, hb, ok_bind]
  split <;> rfl

theorem BFGen.mv_eq {a b : String} {da db : Nat}
    (ha : address_of a = Except.ok da) (hb : address_of b = Except.ok db) :
    BFGen.mv a b = Except.ok (mvStr da db) := by
  simp only [BFGen.mv, mvStr, BFGen.ptr_eq ha hb, BFGen.ptr_eq hb ha, ok_bind, pure_ok]

theorem BFGen.cp_eq {a b c : String} {da db dc : Nat}
    (ha : address_of a = Except.ok da) (hb : address_of b = Except.ok db)
    (hc : address_of c = Except.ok dc) :
    BFGen.cp a b c = Except.ok (cpStr da db dc) := by
  simp only [BFGen.cp, cpStr, BFGen.ptr_eq ha hb, BFGen.ptr_eq hb hc,
    BFGen.ptr_eq hc ha, BFGen.ptr_eq ha hc, BFGen.mv_eq hc ha, ok_bind, pure_ok]

theorem addr_TR1 : address_of "TR1" = Except.ok 3 := rfl
theorem addr_TR2 : address_of "TR2" = Except.ok 4 := rfl
theorem addr_TR3 : address_of "TR3" = Except.ok 5 := rfl
theorem addr_TR4 : address_of "TR4" = Except.ok 6 := rfl
theorem addr_TR5 : address_of "TR5" = Except.ok 7 := rfl
theorem addr_BJR : address_of "BJR" = Except.ok 0 := rfl
theorem addr_FJR : address_of "FJR" = Except.ok 1 := rfl
theorem addr_IC : address_of "IC" = Except.ok 2 := rfl
theorem addr_CRR : address_of "CRR" = Except.ok 8 := rfl
theorem addr_PC : address_of "PC" = Except.ok 9 := rfl
theorem addr_R1 : address_of "R1" = Except.ok 10 := rfl
theorem addr_R2 : address_of "R2" = Except.ok 11 := rfl
theorem addr_R3 : address_of "R3" = Except.ok 12 := rfl
theorem addr_R4 : address_of "R4" = Except.ok 13 := rfl
theorem addr_R5 : address_of "R5" = Except.ok 14 := rfl

theorem BFGen.gt_setup_eq {a b : String} {da db : Nat}
    (ha : address_of a = Except.ok da) (hb : address_of b = Except.ok db) :
    BFGen.gt_setup a b = Except.ok (gtSetupStr da db) := by
  simp only [BFGen.gt_setup, gtSetupStr, BFGen.cp_eq ha addr_TR5 addr_TR4,
    BFGen.cp_eq hb addr_TR3 addr_TR4, BFGen.cp_eq addr_TR5 addr_TR1 addr_TR2,
    BFGen.ptr_eq ha hb, BFGen.ptr_eq hb addr_TR5, ok_bind, pure_ok]

theorem BFGen.inot_eq {a b : String} {da db : Nat}
    (ha : address_of a = Except.ok da) (hb : address_of b = Except.ok db) :
    BFGen.inot a b = Except.ok (inotStr da db) := by
  simp only [BFGen.inot, inotStr, BFGen.ptr_eq ha hb, BFGen.ptr_eq hb ha, ok_bind, pure_ok]

/-- Every user register resolves to an offset in the user range 8..14. -/
theorem ureg_address {a : String} {da : Nat} (ha : a ∈ URegisters)
    (hda : address_of a = Except.ok da) : 8 ≤ da ∧ da ≤ 14 := by
  fin_cases ha <;>
    simp only [addr_CRR, addr_PC, addr_R1, addr_R2, addr_R3, addr_R4, addr_R5,
      Except.ok.injEq] at hda <;> omega

/-- Every register resolves to an offset at most 14. -/
theorem reg_address {a : String} {da : Nat} (ha : a ∈ Registers)
    (hda : address_of a = Except.ok da) : da ≤ 14 := by
  fin_cases ha <;>
    simp only [addr_BJR, addr_FJR, addr_IC, addr_TR1, addr_TR2, addr_TR3, addr_TR4,
      addr_TR5, addr_CRR, addr_PC, addr_R1, addr_R2, addr_R3, addr_R4, addr_R5,
      Except.ok.injEq] at hda <;> omega

/-! ## Structured programs of the emitted code -/

/-- `n` pointer moves right. -/
def rights (n : Nat) : List BfOp := List.replicate n .mvR

/-- `n` pointer moves left. -/
def lefts (n : Nat) : List BfOp := List.replicate n .mvL

/-- The program of `ptrStr`. -/
def ptrP (s d : Nat) : List BfOp := if d > s then rights (d - s) else lefts (s - d)

/-- The loop body of `mvStr`. -/
def mvBody (s d : Nat) : List BfOp := [.minus] ++ ptrP s d ++ [.plus] ++ ptrP d s

/-- The program of `mvStr`. -/
def mvP (s d : Nat) : List BfOp := [.loop (mvBody s d)]

/-- The loop body of the copy loop of `cpStr`: decrement the source, then
bump both the destination and the temporary. -/
def cpBody (s d t : Nat) : List BfOp :=
  [.minus] ++ ptrP s d ++ [.plus] ++ ptrP d t ++ [.plus] ++ ptrP t s

/-- The program of `cpStr`. -/
def cpP (s d t : Nat) : List BfOp :=
  [.loop (cpBody s d t)] ++ ptrP s t ++ mvP t s ++ ptrP t s

/-- The program of `gtSetupStr`. -/
def gtSetupP (a b : Nat) : List BfOp :=
  cpP a 7 6 ++ ptrP a b ++ cpP b 5 6 ++ ptrP b 7 ++ cpP 7 3 4

/-- The program of `BFGen.gt`. -/
def gtP : List BfOp :=
  [.loop [.minus, .mvL, .mvL, .loop [.mvL, .mvL, .minus, .mvR], .mvR,
      .loop [.mvR], .mvL, .minus, .mvR, .mvR],
    .mvL, .mvL, .loop [.plus], .mvL, .mvL]

/-- The program of `inotStr`. -/
def inotP (a d : Nat) : List BfOp :=
  ptrP a d ++ [.plus] ++ ptrP d a ++
    [.loop ([.loop [.minus]] ++ ptrP a d ++ [.minus] ++ ptrP d a)]

/-! ## The scanner on generated strings -/

/-- `ScansTo s p`: scanning the characters of `s` from any scanner state
prepends exactly the reversed operations of `p` to the accumulator and
leaves the bracket stack alone — `s` is a complete, balanced chunk parsing
to `p`. -/
def ScansTo (s : String) (p : List BfOp) : Prop :=
  ∀ acc stk, scanL s.data (acc, stk) = some (p.reverse ++ acc, stk)

theorem scanL_append (xs ys : List Char) (st : ScanSt) :
    scanL (xs ++ ys) st = (scanL xs st).bind (scanL ys) := by
  induction xs generalizing st with
  | nil => simp [scanL]
  | cons c rest ih =>
    simp only [List.cons_append, scanL]
    cases scanC st c with
    | none => simp
    | some st' => simp [ih]

theorem data_append (s t : String) : (s ++ t).data = s.data ++ t.data := by
  cases s; cases t; rfl

theorem ScansTo.cat {s t : String} {p q : List BfOp}
    (hs : ScansTo s p) (ht : ScansTo t q) : ScansTo (s ++ t) (p ++ q) := by
  intro acc stk
  rw [data_append, scanL_append, hs acc stk]
  show scanL t.data (p.reverse ++ acc, stk) = _
  rw [ht]
  simp [List.reverse_append]

theorem scansTo_empty : ScansTo "" [] := by
  intro acc stk; rfl

theorem scansTo_plus : ScansTo "+" [.plus] := by
  intro acc stk; rfl

theorem scansTo_minus : ScansTo "-" [.minus] := by
  intro acc stk; rfl

theorem scansTo_right : ScansTo ">" [.mvR] := by
  intro acc stk; rfl

theorem scansTo_left : ScansTo "<" [.mvL] := by
  intro acc stk; rfl

theorem scansTo_dot : ScansTo "." [.dot] := by
  intro acc stk; rfl

theorem scansTo_nl : ScansTo "\n" [] := by
  intro acc stk; rfl

theorem scansTo_loop {s : String} {p : List BfOp} (hs : ScansTo s p) :
    ScansTo ("[" ++ s ++ "]") [.loop p] := by
  intro acc stk
  rw [data_append, data_append, scanL_append, scanL_append]
  show (Option.bind (scanL s.data ([], acc :: stk)) _) = _
  rw [hs [] (acc :: stk)]
  simp [scanL, scanC]

theorem scansTo_repeat {s : String} {op : BfOp} (hs : ScansTo s [op]) (n : Nat) :
    ScansTo (pyRepeat s n) (List.replicate n op) := by
  induction n with
  | zero => exact scansTo_empty
  | succ n ih =>
    have := hs.cat ih
    simpa [pyRepeat, List.replicate_succ] using this

theorem scansTo_rights (n : Nat) : ScansTo (pyRepeat ">" n) (rights n) :=
  scansTo_repeat scansTo_right n

theorem scansTo_lefts (n : Nat) : ScansTo (pyRepeat "<" n) (lefts n) :=
  scansTo_repeat scansTo_left n

theorem scansTo_pluses (n : Nat) : ScansTo (pyRepeat "+" n) (List.replicate n .plus) :=
  scansTo_repeat scansTo_plus n

theorem parseBF_of_scansTo {s : String} {p : List BfOp} (hs : ScansTo s p) :
    parseBF s = some p := by
  unfold parseBF
  rw [hs [] []]
  simp

theorem ScansTo.congr {s s' : String} {p : List BfOp}
    (h : ScansTo s p) (he : s'.data = s.data) : ScansTo s' p := by
  intro acc stk
  unfold ScansTo at h
  rw [he]
  exact h acc stk

theorem scansTo_ptrStr (a b : Nat) : ScansTo (ptrStr a b) (ptrP a b) := by
  unfold ptrStr ptrP
  split
  · exact scansTo_rights _
  · exact scansTo_lefts _

theorem scansTo_clr : ScansTo "[-]" [.loop [.minus]] := by
  intro acc stk; rfl

theorem scansTo_gtStr : ScansTo BFGen.gt gtP := by
  intro acc stk; rfl

theorem scansTo_mvStr (a b : Nat) : ScansTo (mvStr a b) (mvP a b) := by
  unfold mvP mvBody
  have h := scansTo_loop
    (((scansTo_minus.cat (scansTo_ptrStr a b)).cat scansTo_plus).cat (scansTo_ptrStr b a))
  exact ScansTo.congr h (by simp only [mvStr, data_append, List.append_assoc]; rfl)

theorem scansTo_cpStr (a b c : Nat) : ScansTo (cpStr a b c) (cpP a b c) := by
  unfold cpP cpBody
  have hbody := ((((scansTo_minus.cat (scansTo_ptrStr a b)).cat scansTo_plus).cat
    (scansTo_ptrStr b c)).cat scansTo_plus).cat (scansTo_ptrStr c a)
  have h := (((scansTo_loop hbody).cat (scansTo_ptrStr a c)).cat
    (scansTo_mvStr c a)).cat (scansTo_ptrStr c a)
  exact ScansTo.congr h (by simp only [cpStr, data_append, List.append_assoc]; rfl)

theorem scansTo_gtSetupStr (a b : Nat) : ScansTo (gtSetupStr a b) (gtSetupP a b) := by
  unfold gtSetupStr gtSetupP
  exact ((((scansTo_cpStr a 7 6).cat (scansTo_ptrStr a b)).cat
    (scansTo_cpStr b 5 6)).cat (scansTo_ptrStr b 7)).cat (scansTo_cpStr 7 3 4)

theorem scansTo_inotStr (a b : Nat) : ScansTo (inotStr a b) (inotP a b) := by
  unfold inotP
  have hbody := ((scansTo_clr.cat (scansTo_ptrStr a b)).cat
    scansTo_minus).cat (scansTo_ptrStr b a)
  have h := (((scansTo_ptrStr a b).cat scansTo_plus).cat (scansTo_ptrStr b a)).cat
    (scansTo_loop hbody)
  exact ScansTo.congr h (by simp only [inotStr, data_append, List.append_assoc]; rfl)

/-! ## Execution toolkit -/

@[ext] theorem BfState.ext {s t : BfState} (h1 : s.tape = t.tape)
    (h2 : s.ptr = t.ptr) (h3 : s.out = t.out) : s = t := by
  cases s; cases t; simp_all

@[simp] theorem BfState.wr_tape (s : BfState) (v : Nat) (j : Int) :
    (s.wr v).tape j = if j = s.ptr then v else s.tape j := rfl

@[simp] theorem BfState.wr_ptr (s : BfState) (v : Nat) : (s.wr v).ptr = s.ptr := rfl

@[simp] theorem BfState.wr_out (s : BfState) (v : Nat) : (s.wr v).out = s.out := rfl

@[simp] theorem BfState.mv_tape (s : BfState) (d : Int) : (s.mv d).tape = s.tape := rfl

@[simp] theorem BfState.mv_ptr (s : BfState) (d : Int) : (s.mv d).ptr = s.ptr + d := rfl

@[simp] theorem BfState.mv_out (s : BfState) (d : Int) : (s.mv d).out = s.out := rfl

@[simp] theorem BfState.wr_cur (s : BfState) (v : Nat) : (s.wr v).cur = v := by
  simp [BfState.cur]

@[simp] theorem BfState.tape_mk (f : Int → Nat) (p : Int) (o : List Nat) :
    (⟨f, p, o⟩ : BfState).tape = f := rfl

@[simp] theorem BfState.ptr_mk (f : Int → Nat) (p : Int) (o : List Nat) :
    (⟨f, p, o⟩ : BfState).ptr = p := rfl

@[simp] theorem BfState.out_mk (f : Int → Nat) (p : Int) (o : List Nat) :
    (⟨f, p, o⟩ : BfState).out = o := rfl

theorem BfState.cur_eq (s : BfState) : s.cur = s.tape s.ptr := rfl

theorem BfState.wr_wr (s : BfState) (a b : Nat) : (s.wr a).wr b = s.wr b := by
  ext j
  · simp only [BfState.wr_tape, BfState.wr_ptr]
    by_cases h : j = s.ptr <;> simp [h]
  · rfl
  · rfl

theorem BfState.wr_self (s : BfState) : s.wr s.cur = s := by
  ext j
  · simp only [BfState.wr_tape]
    by_cases h : j = s.ptr <;> simp [h, BfState.cur_eq]
  · rfl
  · rfl

theorem Exec.cast {base : Nat} {p : List BfOp} {s t t' : BfState}
    (h : Exec base p s t) (e : t = t') : Exec base p s t' := e ▸ h

theorem Exec.step {base : Nat} {op : BfOp} {rest : List BfOp} {s m t : BfState}
    (h1 : Exec base [op] s m) (h2 : Exec base rest m t) :
    Exec base (op :: rest) s t := h1.app h2

theorem exec_one_plus {base : Nat} (s : BfState) :
    Exec base [.plus] s (s.wr ((s.cur + 1) % base)) := .plus (.done _)

theorem exec_one_minus {base : Nat} (s : BfState) :
    Exec base [.minus] s (s.wr ((s.cur + (base - 1)) % base)) := .minus (.done _)

theorem exec_one_mvR {base : Nat} (s : BfState) :
    Exec base [.mvR] s (s.mv 1) := .mvR (.done _)

theorem exec_one_mvL {base : Nat} (s : BfState) :
    Exec base [.mvL] s (s.mv (-1)) := .mvL (.done _)

theorem exec_one_dot {base : Nat} (s : BfState) :
    Exec base [.dot] s ⟨s.tape, s.ptr, s.out ++ [s.cur]⟩ := .dot (.done _)

theorem exec_rights {base : Nat} (n : Nat) (s : BfState) :
    Exec base (rights n) s ⟨s.tape, s.ptr + (n : Int), s.out⟩ := by
  induction n generalizing s with
  | zero =>
    exact (Exec.done s).cast (by ext <;> simp)
  | succ n ih =>
    rw [rights, List.replicate_succ]
    refine Exec.step (exec_one_mvR s) ((ih (s.mv 1)).cast ?_)
    ext <;> simp <;> push_cast <;> ring

theorem exec_lefts {base : Nat} (n : Nat) (s : BfState) :
    Exec base (lefts n) s ⟨s.tape, s.ptr - (n : Int), s.out⟩ := by
  induction n generalizing s with
  | zero =>
    exact (Exec.done s).cast (by ext <;> simp)
  | succ n ih =>
    rw [lefts, List.replicate_succ]
    refine Exec.step (exec_one_mvL s) ((ih (s.mv (-1))).cast ?_)
    ext <;> simp <;> push_cast <;> ring

theorem exec_ptrP {base : Nat} {s : BfState} (sa da : Nat) (hp : s.ptr = (sa : Int)) :
    Exec base (ptrP sa da) s ⟨s.tape, (da : Int), s.out⟩ := by
  unfold ptrP
  split
  · refine (exec_rights _ s).cast ?_
    ext <;> simp [hp]
    omega
  · refine (exec_lefts _ s).cast ?_
    ext <;> simp [hp]
    omega

theorem exec_plusN {base : Nat} (n : Nat) (s : BfState) (hc : s.cur < base) :
    Exec base (List.replicate n .plus) s (s.wr ((s.cur + n) % base)) := by
  induction n generalizing s with
  | zero =>
    refine (Exec.done s).cast ?_
    rw [Nat.add_zero, Nat.mod_eq_of_lt hc, BfState.wr_self]
  | succ n ih =>
    rw [List.replicate_succ]
    refine Exec.step (exec_one_plus s) ((ih _ ?_).cast ?_)
    · rw [BfState.wr_cur]
      exact Nat.mod_lt _ (by omega)
    · rw [BfState.wr_wr, BfState.wr_cur, Nat.mod_add_mod]
      ring_nf

/-- The clear loop zeroes the current cell. -/
theorem exec_clrP {base : Nat} (hb : 0 < base) (s : BfState) :
    Exec base [.loop [.minus]] s (s.wr 0) := by
  generalize hv : s.cur = v
  induction v using Nat.strong_induction_on generalizing s with
  | _ v ih =>
    by_cases hz : v = 0
    · subst hz
      exact (Exec.loopZero hv (Exec.done s)).cast (by rw [← hv, BfState.wr_self])
    · have hbody := @exec_one_minus base s
      have hw : (s.wr ((s.cur + (base - 1)) % base)).cur = (v + (base - 1)) % base := by
        rw [BfState.wr_cur, hv]
      have hlt : (v + (base - 1)) % base < v := by
        have h1 : v + (base - 1) = (v - 1) + base := by omega
        rw [h1, Nat.add_mod_right]
        have := Nat.mod_le (v - 1) base
        omega
      have hrest := ih _ hlt (s := s.wr ((s.cur + (base - 1)) % base)) hw
      rw [BfState.wr_wr] at hrest
      exact Exec.loopStep (by rw [BfState.cur_eq] at hv; rw [BfState.cur_eq, hv]; exact hz)
        hbody hrest

/-- The increment loop drives a cell below the base up to the wrap and so
also zeroes it. -/
theorem exec_plusLoop {base : Nat} (s : BfState) (hc : s.cur < base) :
    Exec base [.loop [.plus]] s (s.wr 0) := by
  generalize hm : base - s.cur = m
  induction m using Nat.strong_induction_on generalizing s with
  | _ m ih =>
    by_cases hz : s.cur = 0
    · exact (Exec.loopZero hz (Exec.done s)).cast (by rw [← hz, BfState.wr_self])
    · have hbody := @exec_one_plus base s
      by_cases hwrap : s.cur + 1 = base
      · have hzero : (s.cur + 1) % base = 0 := by rw [hwrap, Nat.mod_self]
        refine Exec.loopStep hz hbody ?_
        rw [hzero]
        exact Exec.loopZero (by simp) (Exec.done _)
      · have hlt : (s.cur + 1) % base = s.cur + 1 := Nat.mod_eq_of_lt (by omega)
        refine Exec.loopStep hz hbody ?_
        have hcur : (s.wr ((s.cur + 1) % base)).cur < base := by
          rw [BfState.wr_cur, hlt]; omega
        have := ih (base - (s.cur + 1)) (by omega) (s := s.wr ((s.cur + 1) % base)) hcur
          (by rw [BfState.wr_cur, hlt])
        rw [BfState.wr_wr] at this
        exact this

/-- Executing the move loop: drains `sa` into `da` (mod base), pointer
returns to `sa`. -/
theorem exec_mvP {base : Nat} (sa da : Nat) (hne : sa ≠ da) :
    ∀ {s : BfState} {x e : Nat}, s.ptr = (sa : Int) → s.tape sa = x → x < base →
      s.tape da = e → e < base →
      Exec base (mvP sa da) s
        ⟨fun j => if j = (sa : Int) then 0 else if j = (da : Int) then (e + x) % base
          else s.tape j, (sa : Int), s.out⟩ := by
  have hne' : ((sa : Int)) ≠ ((da : Int)) := by exact_mod_cast hne
  have hne2 : ((da : Int)) ≠ ((sa : Int)) := by exact_mod_cast hne.symm
  intro s x
  induction x generalizing s with
  | zero =>
    intro e hp hx _ hd hdb
    refine (Exec.loopZero (by rw [BfState.cur_eq, hp, hx]) (Exec.done s)).cast ?_
    ext j
    · simp only [BfState.tape_mk]
      by_cases hja : j = (sa : Int)
      · subst hja; rw [if_pos rfl, hx]
      · by_cases hjd : j = (da : Int)
        · subst hjd
          rw [if_neg hne2, if_pos rfl, hd, Nat.add_zero, Nat.mod_eq_of_lt hdb]
        · rw [if_neg hja, if_neg hjd]
    · simpa using hp
    · rfl
  | succ x ih =>
    intro e hp hx hxb hd hdb
    have hx' : x < base := by omega
    have hb0 : 0 < base := by omega
    have hcur : s.cur = x + 1 := by rw [BfState.cur_eq, hp, hx]
    have hdec : (s.cur + (base - 1)) % base = x := by
      rw [hcur]
      have h1 : x + 1 + (base - 1) = x + base := by omega
      rw [h1, Nat.add_mod_right, Nat.mod_eq_of_lt (by omega)]
    refine Exec.loopStep (by rw [hcur]; exact Nat.succ_ne_zero x)
      (Exec.app (Exec.app (Exec.app (exec_one_minus s)
        (exec_ptrP sa da (by simp [hp]))) (exec_one_plus _))
        (exec_ptrP da sa (by simp))) ?_
    refine (ih ?_ ?_ hx' (e := (e + 1) % base) ?_ (Nat.mod_lt _ hb0)).cast ?_
    · rfl
    · simp only [BfState.tape_mk, BfState.ptr_mk, BfState.wr_tape, BfState.wr_ptr]
      rw [if_neg hne', if_pos (by rw [hp]), hdec]
    · simp only [BfState.tape_mk, BfState.ptr_mk, BfState.wr_tape, BfState.wr_ptr,
        BfState.cur_eq, hp]
      simp [hne2, hd]
    · ext j
      · simp only [BfState.tape_mk]
        by_cases hja : j = (sa : Int)
        · subst hja; rw [if_pos rfl, if_pos rfl]
        · by_cases hjd : j = (da : Int)
          · subst hjd
            rw [if_neg hne2, if_pos rfl, if_neg hne2, if_pos rfl, Nat.mod_add_mod]
            congr 1
            omega
          · rw [if_neg hja, if_neg hjd, if_neg hja, if_neg hjd]
            simp only [BfState.wr_tape, BfState.ptr_mk, BfState.wr_ptr, hp]
            rw [if_neg hjd, if_neg hja]
      · rfl
      · rfl

/-- Executing the copy loop: drains `sa` while bumping both `da` and `ta`
(mod base), pointer back at `sa`. -/
theorem exec_cpLoop {base : Nat} (sa da ta : Nat) (hsd : sa ≠ da) (hdt : da ≠ ta)
    (hst : sa ≠ ta) :
    ∀ {s : BfState} {x e g : Nat}, s.ptr = (sa : Int) → s.tape sa = x → x < base →
      s.tape da = e → e < base → s.tape ta = g → g < base →
      Exec base [.loop (cpBody sa da ta)] s
        ⟨fun j => if j = (sa : Int) then 0 else if j = (da : Int) then (e + x) % base
          else if j = (ta : Int) then (g + x) % base else s.tape j,
          (sa : Int), s.out⟩ := by
  have nsd : ((sa : Int)) ≠ ((da : Int)) := by exact_mod_cast hsd
  have nds : ((da : Int)) ≠ ((sa : Int)) := by exact_mod_cast hsd.symm
  have ndt : ((da : Int)) ≠ ((ta : Int)) := by exact_mod_cast hdt
  have ntd : ((ta : Int)) ≠ ((da : Int)) := by exact_mod_cast hdt.symm
  have nst : ((sa : Int)) ≠ ((ta : Int)) := by exact_mod_cast hst
  have nts : ((ta : Int)) ≠ ((sa : Int)) := by exact_mod_cast hst.symm
  intro s x
  induction x generalizing s with
  | zero =>
    intro e g hp hx _ hd hdb ht htb
    refine (Exec.loopZero (by rw [BfState.cur_eq, hp, hx]) (Exec.done s)).cast ?_
    ext j
    · simp only [BfState.tape_mk]
      by_cases hja : j = (sa : Int)
      · subst hja; rw [if_pos rfl, hx]
      · by_cases hjd : j = (da : Int)
        · subst hjd
          rw [if_neg nds, if_pos rfl, hd, Nat.add_zero, Nat.mod_eq_of_lt hdb]
        · by_cases hjt : j = (ta : Int)
          · subst hjt
            rw [if_neg nts, if_neg ntd, if_pos rfl, ht, Nat.add_zero,
              Nat.mod_eq_of_lt htb]
          · rw [if_neg hja, if_neg hjd, if_neg hjt]
    · simpa using hp
    · rfl
  | succ x ih =>
    intro e g hp hx hxb hd hdb ht htb
    have hx' : x < base := by omega
    have hb0 : 0 < base := by omega
    have hcur : s.cur = x + 1 := by rw [BfState.cur_eq, hp, hx]
    have hdec : (s.cur + (base - 1)) % base = x := by
      rw [hcur]
      have h1 : x + 1 + (base - 1) = x + base := by omega
      rw [h1, Nat.add_mod_right, Nat.mod_eq_of_lt (by omega)]
    refine Exec.loopStep (by rw [hcur]; exact Nat.succ_ne_zero x)
      (Exec.app (Exec.app (Exec.app (Exec.app (Exec.app (exec_one_minus s)
        (exec_ptrP sa da (by simp [hp]))) (exec_one_plus _))
        (exec_ptrP da ta (by simp))) (exec_one_plus _))
        (exec_ptrP ta sa (by simp))) ?_
    refine (ih ?_ ?_ hx' (e := (e + 1) % base) ?_ (Nat.mod_lt _ hb0)
      (g := (g + 1) % base) ?_ (Nat.mod_lt _ hb0)).cast ?_
    · rfl
    · simp only [BfState.tape_mk, BfState.ptr_mk, BfState.wr_tape, BfState.wr_ptr]
      rw [if_neg nst, if_neg nsd, if_pos hp.symm, hdec]
    · simp only [BfState.tape_mk, BfState.ptr_mk, BfState.wr_tape, BfState.wr_ptr,
        BfState.cur_eq, hp]
      simp [nds, ndt, hd]
    · simp only [BfState.tape_mk, BfState.ptr_mk, BfState.wr_tape, BfState.wr_ptr,
        BfState.cur_eq, hp]
      simp [nts, ntd, ht]
    · ext j
      · simp only [BfState.tape_mk]
        by_cases hja : j = (sa : Int)
        · subst hja; rw [if_pos rfl, if_pos rfl]
        · by_cases hjd : j = (da : Int)
          · subst hjd
            rw [if_neg nds, if_pos rfl, if_neg nds, if_pos rfl, Nat.mod_add_mod]
            congr 1
            omega
          · by_cases hjt : j = (ta : Int)
            · subst hjt
              rw [if_neg nts, if_neg ntd, if_pos rfl, if_neg nts, if_neg ntd,
                if_pos rfl, Nat.mod_add_mod]
              congr 1
              omega
            · rw [if_neg hja, if_neg hjd, if_neg hjt, if_neg hja, if_neg hjd,
                if_neg hjt]
              simp only [BfState.wr_tape, BfState.ptr_mk, BfState.wr_ptr, hp]
              rw [if_neg hjt, if_neg hjd, if_neg hja]
      · rfl
      · rfl

/-- Executing the full copy sequence: `da` gains `x` (mod base), `sa` is
restored, `ta` ends at zero, pointer back at `sa`. -/
theorem exec_cpP {base : Nat} (sa da ta : Nat) (hsd : sa ≠ da) (hdt : da ≠ ta)
    (hst : sa ≠ ta) {s : BfState} {x e : Nat} (hp : s.ptr = (sa : Int))
    (hx : s.tape sa = x) (hxb : x < base) (hd : s.tape da = e) (hdb : e < base)
    (ht : s.tape ta = 0) :
    Exec base (cpP sa da ta) s
      ⟨fun j => if j = (sa : Int) then x else if j = (da : Int) then (e + x) % base
        else if j = (ta : Int) then 0 else s.tape j, (sa : Int), s.out⟩ := by
  have nsd : ((sa : Int)) ≠ ((da : Int)) := by exact_mod_cast hsd
  have nds : ((da : Int)) ≠ ((sa : Int)) := by exact_mod_cast hsd.symm
  have ndt : ((da : Int)) ≠ ((ta : Int)) := by exact_mod_cast hdt
  have ntd : ((ta : Int)) ≠ ((da : Int)) := by exact_mod_cast hdt.symm
  have nst : ((sa : Int)) ≠ ((ta : Int)) := by exact_mod_cast hst
  have nts : ((ta : Int)) ≠ ((sa : Int)) := by exact_mod_cast hst.symm
  have hb0 : 0 < base := by omega
  have h1 := exec_cpLoop sa da ta hsd hdt hst hp hx hxb hd hdb ht hb0
  have htape1 : ∀ j : Int, j ≠ (sa : Int) → j ≠ (da : Int) → j ≠ (ta : Int) →
      (if j = (sa : Int) then 0 else if j = (da : Int) then (e + x) % base
        else if j = (ta : Int) then (0 + x) % base else s.tape j) = s.tape j := by
    intro j hja hjd hjt
    rw [if_neg hja, if_neg hjd, if_neg hjt]
  refine Exec.app (Exec.app (Exec.app h1 (exec_ptrP sa ta (by simp)))
    (exec_mvP ta sa hst.symm (x := x) (e := 0) rfl ?_ hxb ?_ hb0)) (exec_ptrP ta sa (by simp))
    |>.cast ?_
  · simp [nts, ntd, Nat.mod_eq_of_lt hxb]
  · simp
  · ext j
    · simp only [BfState.tape_mk]
      by_cases hja : j = (sa : Int)
      · subst hja
        simp [nst, nsd, Nat.mod_eq_of_lt hxb]
      · by_cases hjd : j = (da : Int)
        · subst hjd
          simp [nds, ntd.symm, ndt]
        · by_cases hjt : j = (ta : Int)
          · subst hjt
            simp [nts, ntd]
          · simp [hja, hjd, hjt]
    · rfl
    · rfl

/-- Pointer movement relative to an arbitrary start: the emitted sequence
only shifts the pointer by the offset difference. -/
theorem exec_ptrP_rel {base : Nat} (sa da : Nat) (s : BfState) :
    Exec base (ptrP sa da) s ⟨s.tape, s.ptr + ((da : Int) - (sa : Int)), s.out⟩ := by
  unfold ptrP
  split
  · refine (exec_rights _ s).cast ?_
    ext
    · rfl
    · simp only [BfState.ptr_mk]
      push_cast
      omega
    · rfl
  · refine (exec_lefts _ s).cast ?_
    ext
    · rfl
    · simp only [BfState.ptr_mk]
      push_cast
      omega
    · rfl

/-- Executing the logical-not sequence: writes the negation of `aA` into a
zero-initialised `dA`, zeroing `aA` itself. -/
theorem exec_inotP {base : Nat} (aA dA : Nat) (hne : aA ≠ dA) {s : BfState} {x : Nat}
    (hp : s.ptr = (aA : Int)) (hx : s.tape aA = x) (hxb : x < base)
    (hd : s.tape dA = 0) (hb1 : 1 < base) :
    Exec base (inotP aA dA) s
      ⟨fun j => if j = (aA : Int) then 0
        else if j = (dA : Int) then (if x = 0 then 1 else 0) else s.tape j,
        (aA : Int), s.out⟩ := by
  have nad : ((aA : Int)) ≠ ((dA : Int)) := by exact_mod_cast hne
  have nda : ((dA : Int)) ≠ ((aA : Int)) := by exact_mod_cast hne.symm
  have hb0 : 0 < base := by omega
  unfold inotP
  refine Exec.app (Exec.app (Exec.app (exec_ptrP aA dA hp) (exec_one_plus _))
    (exec_ptrP dA aA (by simp))) ?_
  have hcur1 : ((⟨s.tape, (dA : Int), s.out⟩ : BfState).cur + 1) % base = 1 := by
    rw [BfState.cur_eq, BfState.ptr_mk, BfState.tape_mk, hd, Nat.zero_add,
      Nat.mod_eq_of_lt hb1]
  by_cases hz : x = 0
  · subst hz
    refine (Exec.loopZero ?_ (Exec.done _)).cast ?_
    · rw [BfState.cur_eq]
      simp only [BfState.ptr_mk, BfState.tape_mk, BfState.wr_tape, BfState.wr_ptr]
      rw [if_neg nad, hx]
    · ext j
      · simp only [BfState.tape_mk, BfState.wr_tape, BfState.wr_ptr, BfState.ptr_mk]
        by_cases hja : j = (aA : Int)
        · subst hja; rw [if_neg nad, if_pos rfl, hx]
        · by_cases hjd : j = (dA : Int)
          · subst hjd; rw [if_pos rfl, if_neg nda, if_pos rfl, hcur1]; simp
          · rw [if_neg hjd, if_neg hja, if_neg hjd]
      · rfl
      · rfl
  · refine Exec.loopStep ?_ (Exec.app (Exec.app (Exec.app (exec_clrP hb0 _)
        (exec_ptrP aA dA (by simp))) (exec_one_minus _)) (exec_ptrP dA aA (by simp))) ?_
    · rw [BfState.cur_eq]
      simp only [BfState.ptr_mk, BfState.tape_mk, BfState.wr_tape, BfState.wr_ptr]
      rw [if_neg nad, hx]
      exact hz
    · refine (Exec.loopZero ?_ (Exec.done _)).cast ?_
      · rw [BfState.cur_eq]
        simp only [BfState.ptr_mk, BfState.tape_mk, BfState.wr_tape, BfState.wr_ptr]
        simp [nad]
      · ext j
        · simp only [BfState.tape_mk, BfState.wr_tape, BfState.wr_ptr,
            BfState.ptr_mk, BfState.cur_eq]
          by_cases hja : j = (aA : Int)
          · subst hja; simp [nad]
          · by_cases hjd : j = (dA : Int)
            · subst hjd
              simp only [nda, if_false, if_pos rfl, if_true, hd, hz]
              have h2 : (0 + 1) % base = 1 := by
                rw [Nat.zero_add, Nat.mod_eq_of_lt hb1]
              rw [h2]
              have h1 : 1 + (base - 1) = base := by omega
              rw [h1, Nat.mod_self]
            · rw [if_neg hjd, if_neg hja, if_neg hjd, if_neg hja, if_neg hjd]
        · rfl
        · rfl

/-! ## Claims -/

/-- Claim C9: for every pair of registers, the emitted pointer move to `b`
followed by the move back to `a` is a no-op on the machine state (pointer
returns to its original cell, no cell value changes), and a pointer move
from a register to itself emits the empty sequence. -/
theorem claim_C9 (base : Nat) (a b x : String) (da db dx : Nat)
    (hda : address_of a = Except.ok da) (hdb : address_of b = Except.ok db)
    (hdx : address_of x = Except.ok dx)
    (sab sba : String) (hab : BFGen.ptr a b = Except.ok sab)
    (hba : BFGen.ptr b a = Except.ok sba)
    (prog : List BfOp) (hp : parseBF (sab ++ sba) = some prog) (s : BfState) :
    Exec base prog s s ∧ BFGen.ptr x x = Except.ok "" := by
  constructor
  · rw [BFGen.ptr_eq hda hdb] at hab
    rw [BFGen.ptr_eq hdb hda] at hba
    simp only [Except.ok.injEq] at hab hba
    subst hab
    subst hba
    rw [parseBF_of_scansTo ((scansTo_ptrStr da db).cat (scansTo_ptrStr db da))] at hp
    simp only [Option.some.injEq] at hp
    subst hp
    refine (Exec.app (exec_ptrP_rel da db s) (exec_ptrP_rel db da _)).cast ?_
    ext
    · rfl
    · simp only [BfState.ptr_mk]
      ring
    · rfl
  · rw [BFGen.ptr_eq hdx hdx]
    simp [ptrStr, pyRepeat]

/-- Witness for C9 at `a` = BJR, `b` = R3, `x` = PC. -/
theorem claim_C9_witness :
    Exec 256 (ptrP 0 12 ++ ptrP 12 0) ⟨fun _ => 0, 0, []⟩ ⟨fun _ => 0, 0, []⟩ ∧
      BFGen.ptr "PC" "PC" = Except.ok "" :=
  claim_C9 256 "BJR" "R3" "PC" 0 12 9 rfl rfl rfl (pyRepeat ">" 12)
    (pyRepeat "<" 12) rfl rfl _ rfl ⟨fun _ => 0, 0, []⟩

/-- The concrete start state of the C4 counterexample: the copy source R1
holds 1, the copy destination R2 already holds 1, the scratch R3 holds 0,
pointer on R1 (offset 10). -/
def c4state : BfState := ⟨fun j => if j = 10 then 1 else if j = 11 then 1 else 0, 10, []⟩

/-- Counterexample to C4 as stated: the emitted copy sequence does not in
general set `dst` to the pre-call value of `src` — it adds onto `dst`.
With src = 1 and dst initially 1, dst ends at 2, not 1. -/
theorem claim_C4_cex :
    (BFGen.cp "R1" "R2" "R3").toOption.bind parseBF = some (cpP 10 11 12) ∧
    ¬ (∀ t : BfState, Exec 256 (cpP 10 11 12) c4state t →
        t.tape 11 = c4state.tape 10) := by
  refine ⟨rfl, fun h => ?_⟩
  have hx := @exec_cpP 256 10 11 12 (by omega) (by omega) (by omega)
    c4state 1 1 rfl rfl (by omega) rfl (by omega) rfl
  have hv := h _ hx
  simp [c4state] at hv

/-- Claim C4 (amended): for distinct registers with the scratch cell
initially zero and values below the base, the emitted copy sequence leaves
`src` unchanged, adds src onto `dst` modulo the base (hence sets `dst` to
src exactly when dst started at zero), leaves the scratch at zero, returns
the pointer to `src`, and touches no other cell. -/
theorem claim_C4 (base : Nat) (src dst scr : String) (ds dd dc : Nat)
    (h1 : address_of src = Except.ok ds) (h2 : address_of dst = Except.ok dd)
    (h3 : address_of scr = Except.ok dc)
    (hn1 : ds ≠ dd) (hn2 : dd ≠ dc) (hn3 : ds ≠ dc)
    (code : String) (hcode : BFGen.cp src dst scr = Except.ok code)
    (prog : List BfOp) (hp : parseBF code = some prog)
    (s : BfState) (x e : Nat) (hsp : s.ptr = (ds : Int))
    (hx : s.tape ds = x) (hxb : x < base)
    (hd : s.tape dd = e) (hdb : e < base) (hscr : s.tape dc = 0) :
    ∃ t : BfState, Exec base prog s t ∧ t.tape ds = x ∧
      t.tape dd = (e + x) % base ∧ t.tape dc = 0 ∧ t.ptr = ds ∧ t.out = s.out ∧
      ∀ j : Int, j ≠ (ds : Int) → j ≠ (dd : Int) → j ≠ (dc : Int) →
        t.tape j = s.tape j := by
  rw [BFGen.cp_eq h1 h2 h3] at hcode
  simp only [Except.ok.injEq] at hcode
  subst hcode
  rw [parseBF_of_scansTo (scansTo_cpStr ds dd dc)] at hp
  simp only [Option.some.injEq] at hp
  subst hp
  have nds : ((dd : Int)) ≠ ((ds : Int)) := by exact_mod_cast hn1.symm
  have ncs : ((dc : Int)) ≠ ((ds : Int)) := by exact_mod_cast hn3.symm
  have ncd : ((dc : Int)) ≠ ((dd : Int)) := by exact_mod_cast hn2.symm
  refine ⟨_, exec_cpP ds dd dc hn1 hn2 hn3 hsp hx hxb hd hdb hscr, ?_, ?_, ?_, rfl, rfl, ?_⟩
  · simp
  · simp [nds]
  · simp [ncs, ncd]
  · intro j hjs hjd hjc
    simp [hjs, hjd, hjc]

/-- Witness for C4 at src = R1 (value 2), dst = R2 (value 0), scratch = R3. -/
theorem claim_C4_witness :
    ∃ t : BfState, Exec 256 (cpP 10 11 12)
        ⟨fun j => if j = 10 then 2 else 0, 10, []⟩ t ∧
      t.tape 10 = 2 ∧ t.tape 11 = (0 + 2) % 256 ∧ t.tape 12 = 0 ∧
      t.ptr = 10 ∧ t.out = [] ∧
      ∀ j : Int, j ≠ ((10 : Nat) : Int) → j ≠ ((11 : Nat) : Int) →
        j ≠ ((12 : Nat) : Int) →
        t.tape j = (fun j : Int => if j = 10 then 2 else 0) j :=
  claim_C4 256 "R1" "R2" "R3" 10 11 12 rfl rfl rfl (by omega) (by omega) (by omega)
    _ rfl _ rfl ⟨fun j => if j = 10 then 2 else 0, 10, []⟩ 2 0 rfl rfl (by omega)
    rfl (by omega) rfl

/-- The concrete start state of the C5 counterexample: the source R1 holds
1, the destination R2 holds 0, pointer on R1 (offset 10). -/
def c5state : BfState := ⟨fun j => if j = 10 then 1 else 0, 10, []⟩

/-- Counterexample to C5 as stated: the emitted logicalNot sequence does
not leave `src` undisturbed — a nonzero source is cleared to 0.  With
src = 1, src ends at 0, not 1. -/
theorem claim_C5_cex :
    (BFGen.inot "R1" "R2").toOption.bind parseBF = some (inotP 10 11) ∧
    ¬ (∀ t : BfState, Exec 256 (inotP 10 11) c5state t →
        t.tape 10 = c5state.tape 10) := by
  refine ⟨rfl, fun h => ?_⟩
  have hx := @exec_inotP 256 10 11 (by omega) c5state 1
    rfl rfl (by omega) rfl (by omega)
  have hv := h _ hx
  simp [c5state] at hv

/-- Claim C5 (amended): for distinct registers with `dst` initially zero,
the emitted logicalNot writes 1 into `dst` when src = 0 and 0 otherwise,
but it zeroes `src` in the process, so `src` keeps its value only when that
value was already 0. -/
theorem claim_C5 (base : Nat) (src dst : String) (ds dd : Nat)
    (h1 : address_of src = Except.ok ds) (h2 : address_of dst = Except.ok dd)
    (hn : ds ≠ dd)
    (code : String) (hcode : BFGen.inot src dst = Except.ok code)
    (prog : List BfOp) (hp : parseBF code = some prog)
    (s : BfState) (x : Nat) (hsp : s.ptr = (ds : Int))
    (hx : s.tape ds = x) (hxb : x < base) (hd : s.tape dd = 0) (hb1 : 1 < base) :
    ∃ t : BfState, Exec base prog s t ∧
      t.tape dd = (if x = 0 then 1 else 0) ∧ t.tape ds = 0 ∧ t.ptr = ds ∧
      t.out = s.out ∧
      ∀ j : Int, j ≠ (ds : Int) → j ≠ (dd : Int) → t.tape j = s.tape j := by
  rw [BFGen.inot_eq h1 h2] at hcode
  simp only [Except.ok.injEq] at hcode
  subst hcode
  rw [parseBF_of_scansTo (scansTo_inotStr ds dd)] at hp
  simp only [Option.some.injEq] at hp
  subst hp
  have nds : ((dd : Int)) ≠ ((ds : Int)) := by exact_mod_cast hn.symm
  refine ⟨_, exec_inotP ds dd hn hsp hx hxb hd hb1, ?_, ?_, rfl, rfl, ?_⟩
  · simp [nds]
  · simp
  · intro j hjs hjd
    simp [hjs, hjd]

/-- Witness for C5 at src = R1 (value 0), dst = R2. -/
theorem claim_C5_witness :
    ∃ t : BfState, Exec 256 (inotP 10 11) ⟨fun _ => 0, 10, []⟩ t ∧
      t.tape 11 = (if 0 = 0 then 1 else 0) ∧ t.tape 10 = 0 ∧ t.ptr = 10 ∧
      t.out = [] ∧
      ∀ j : Int, j ≠ ((10 : Nat) : Int) → j ≠ ((11 : Nat) : Int) →
        t.tape j = (fun _ : Int => 0) j :=
  claim_C5 256 "R1" "R2" 10 11 rfl rfl (by omega) _ rfl _ rfl
    ⟨fun _ => 0, 10, []⟩ 0 rfl rfl (by omega) rfl (by omega)

/-- A token stream defining the label `x` twice (around an OUT instruction),
as the lexer would produce for "x: / OUT R1 / x:". -/
def dupLabelTokens : List Token :=
  [⟨"x", .LABEL⟩, ⟨"", .NEWLINE⟩, ⟨"OUT", .WORD⟩, ⟨"R1", .WORD⟩, ⟨"", .NEWLINE⟩,
    ⟨"x", .LABEL⟩, ⟨"", .NEWLINE⟩]

/-- Claim C7 (code bug): the front end does not raise on a duplicate label.
The duplicate test compares the label string to the label dict with the
Python identity operator, which is always false between objects of those
types, so the second definition silently overwrites the first: the parse
succeeds and `x` ends bound to index 1. -/
theorem claim_C7_bug :
    parserRun dupLabelTokens =
      Except.ok ([⟨"OUT", [⟨"R1", .REFERENCE⟩]⟩], [("x", ⟨"x", 1⟩)]) := rfl

/-- Claim C8 (code bug): a MOV with a 0x-prefixed hexadecimal constant does
not compile to a clear-and-increment sequence — the compiler calls Python
int() without a base argument, which rejects the 0x prefix and raises
ValueError.  The same MOV with the equivalent decimal constant compiles as
the claim describes. -/
theorem claim_C8_bug :
    BFI.mov ⟨"MOV", [⟨"R1", .REFERENCE⟩, ⟨"0x1F", .CONSTANT⟩]⟩ [] 0 =
      Except.error (.valueError "invalid literal for int with base 10: 0x1F") ∧
    BFI.mov ⟨"MOV", [⟨"R1", .REFERENCE⟩, ⟨"31", .CONSTANT⟩]⟩ [] 0 =
      Except.ok (pyRepeat ">" 8 ++ BFGen.clr ++ pyRepeat "+" 31 ++ pyRepeat "<" 8) :=
  ⟨rfl, rfl⟩

/-- Claim C2: a branch whose operand resolves through the label table
(not a register name) to absolute index `lbl.ip`, compiled at index `pc`,
emits code that moves to the forward-jump counter (offset 1) and advances
it by exactly `lbl.ip - pc` when `lbl.ip > pc`, and otherwise moves to the
backward-jump counter (offset 0) and advances it by exactly
`pc - lbl.ip + 1`; in both cases the pointer returns to IC (offset 2) and
no other cell changes.  Counter advances are modulo the cell base; the
stated exact increment holds whenever it stays below the base. -/
theorem claim_C2 (base pc : Nat) (i : Instruction) (ov : String) (ot : OperandType)
    (labels : LabelMap) (lbl : Label)
    (hops : i.operands = [⟨ov, ot⟩]) (hreg : ov ∉ URegisters)
    (hlk : dictGet labels ov = some lbl)
    (code : String) (hcode : BFI.branch i labels pc = Except.ok code)
    (prog : List BfOp) (hp : parseBF code = some prog)
    (s : BfState) (hsp : s.ptr = 2)
    (hf : s.tape 1 < base) (hbk : s.tape 0 < base) :
    ∃ t : BfState, Exec base prog s t ∧ t.ptr = 2 ∧ t.out = s.out ∧
      (lbl.ip > pc →
        t.tape 1 = (s.tape 1 + (lbl.ip - pc)) % base ∧
        (s.tape 1 + (lbl.ip - pc) < base → t.tape 1 = s.tape 1 + (lbl.ip - pc)) ∧
        ∀ j : Int, j ≠ 1 → t.tape j = s.tape j) ∧
      (¬ lbl.ip > pc →
        t.tape 0 = (s.tape 0 + (pc - lbl.ip + 1)) % base ∧
        (s.tape 0 + (pc - lbl.ip + 1) < base →
          t.tape 0 = s.tape 0 + (pc - lbl.ip + 1)) ∧
        ∀ j : Int, j ≠ 0 → t.tape j = s.tape j) := by
  simp only [BFI.branch, hops] at hcode
  rw [if_neg hreg] at hcode
  simp only [hlk] at hcode
  by_cases hgt : lbl.ip > pc
  · rw [if_pos hgt] at hcode
    simp only [BFGen.ptr_eq addr_IC addr_FJR, BFGen.ptr_eq addr_FJR addr_IC,
      ok_bind, pure_ok, Except.ok.injEq] at hcode
    subst hcode
    rw [show BFGen.inc (lbl.ip - pc) = pyRepeat "+" (lbl.ip - pc) from rfl] at hp
    rw [parseBF_of_scansTo (((scansTo_ptrStr 2 1).cat
      (scansTo_pluses (lbl.ip - pc))).cat (scansTo_ptrStr 1 2))] at hp
    simp only [Option.some.injEq] at hp
    subst hp
    have hcur : ((⟨s.tape, ((1 : Nat) : Int), s.out⟩ : BfState)).cur < base := by
      rw [BfState.cur_eq, BfState.ptr_mk, BfState.tape_mk]
      simpa using hf
    refine ⟨_, Exec.app (Exec.app (exec_ptrP 2 1 (by exact_mod_cast hsp))
      (exec_plusN (lbl.ip - pc) _ hcur)) (exec_ptrP 1 2 (by simp)), ?_, rfl, ?_, ?_⟩
    · simp
    · intro _
      refine ⟨?_, ?_, ?_⟩
      · simp only [BfState.tape_mk, BfState.wr_tape, BfState.ptr_mk,
          BfState.cur_eq]
        norm_num
      · intro hlt
        simp only [BfState.tape_mk, BfState.wr_tape, BfState.ptr_mk,
          BfState.cur_eq]
        norm_num
        rw [Nat.mod_eq_of_lt hlt]
      · intro j hj
        simp only [BfState.tape_mk, BfState.wr_tape, BfState.ptr_mk]
        rw [if_neg (by simpa using hj)]
    · intro hc
      exact absurd hgt hc
  · rw [if_neg hgt] at hcode
    simp only [BFGen.ptr_eq addr_IC addr_BJR, BFGen.ptr_eq addr_BJR addr_IC,
      ok_bind, pure_ok, Except.ok.injEq] at hcode
    subst hcode
    rw [show BFGen.inc (pc - lbl.ip + 1) = pyRepeat "+" (pc - lbl.ip + 1) from rfl] at hp
    rw [parseBF_of_scansTo (((scansTo_ptrStr 2 0).cat
      (scansTo_pluses (pc - lbl.ip + 1))).cat (scansTo_ptrStr 0 2))] at hp
    simp only [Option.some.injEq] at hp
    subst hp
    have hcur : ((⟨s.tape, ((0 : Nat) : Int), s.out⟩ : BfState)).cur < base := by
      rw [BfState.cur_eq, BfState.ptr_mk, BfState.tape_mk]
      simpa using hbk
    refine ⟨_, Exec.app (Exec.app (exec_ptrP 2 0 (by exact_mod_cast hsp))
      (exec_plusN (pc - lbl.ip + 1) _ hcur)) (exec_ptrP 0 2 (by simp)), ?_, rfl,
      ?_, ?_⟩
    · simp
    · intro hc
      exact absurd hc hgt
    · intro _
      refine ⟨?_, ?_, ?_⟩
      · simp only [BfState.tape_mk, BfState.wr_tape, BfState.ptr_mk,
          BfState.cur_eq]
        norm_num
      · intro hlt
        simp only [BfState.tape_mk, BfState.wr_tape, BfState.ptr_mk,
          BfState.cur_eq]
        norm_num
        rw [Nat.mod_eq_of_lt hlt]
      · intro j hj
        simp only [BfState.tape_mk, BfState.wr_tape, BfState.ptr_mk]
        rw [if_neg (by simpa using hj)]

/-- Witness for C2: a forward branch from index 2 to label index 5 advances
FJR (cell 1) by 3. -/
theorem claim_C2_witness :
    ∃ t : BfState, Exec 256 (ptrP 2 1 ++ List.replicate 3 BfOp.plus ++ ptrP 1 2)
        ⟨fun _ => 0, 2, []⟩ t ∧ t.ptr = 2 ∧ t.out = ([] : List Nat) ∧
      ((5 : Nat) > 2 →
        t.tape 1 = (0 + (5 - 2)) % 256 ∧
        ((0 : Nat) + (5 - 2) < 256 → t.tape 1 = 0 + (5 - 2)) ∧
        ∀ j : Int, j ≠ 1 → t.tape j = (fun _ : Int => (0 : Nat)) j) ∧
      (¬ (5 : Nat) > 2 →
        t.tape 0 = (0 + (2 - 5 + 1)) % 256 ∧
        ((0 : Nat) + (2 - 5 + 1) < 256 → t.tape 0 = 0 + (2 - 5 + 1)) ∧
        ∀ j : Int, j ≠ 0 → t.tape j = (fun _ : Int => (0 : Nat)) j) := by
  exact claim_C2 256 2 ⟨"B", [⟨"loop", .REFERENCE⟩]⟩ "loop" .REFERENCE
    [("loop", ⟨"loop", 5⟩)] ⟨"loop", 5⟩ rfl (by decide) rfl _ rfl _ rfl
    ⟨fun _ => 0, 2, []⟩ rfl (by norm_num) (by norm_num)

/-! ## Bracket counting in the emitted text -/

/-- Occurrences of a character in a string. -/
def countC (c : Char) (s : String) : Nat := s.data.count c

theorem countC_append (c : Char) (s t : String) :
    countC c (s ++ t) = countC c s + countC c t := by
  simp [countC, data_append]

theorem countC_pyRepeat (c : Char) (s : String) (n : Nat) :
    countC c (pyRepeat s n) = n * countC c s := by
  induction n with
  | zero => simp [pyRepeat, countC]
  | succ n ih => rw [pyRepeat, countC_append, ih]; ring

/-- Splitting a success of an Except bind. -/
theorem ok_of_bind {α β ε : Type} {x : Except ε α} {f : α → Except ε β} {b : β}
    (h : (x >>= f) = Except.ok b) : ∃ a, x = Except.ok a ∧ f a = Except.ok b := by
  cases x with
  | error e => exact absurd h (by simp [Bind.bind, Except.bind])
  | ok a => exact ⟨a, rfl, h⟩

/-- `s` has as many `[` as `]`. -/
def BalancedStr (s : String) : Prop := countC '[' s = countC ']' s

theorem ptr_ok_counts {a b : String} {s : String} (h : BFGen.ptr a b = Except.ok s) :
    countC '[' s = 0 ∧ countC ']' s = 0 := by
  unfold BFGen.ptr at h
  obtain ⟨da, h1, h⟩ := ok_of_bind h
  obtain ⟨db, h2, h⟩ := ok_of_bind h
  split at h <;>
    (rw [pure_ok] at h ; cases h ;
      constructor <;>
        simp [countC_pyRepeat, show countC '[' ">" = 0 from rfl,
          show countC ']' ">" = 0 from rfl, show countC '[' "<" = 0 from rfl,
          show countC ']' "<" = 0 from rfl])

theorem mv_ok_counts {a b : String} {s : String} (h : BFGen.mv a b = Except.ok s) :
    countC '[' s = 1 ∧ countC ']' s = 1 := by
  unfold BFGen.mv at h
  obtain ⟨p1, h1, h⟩ := ok_of_bind h
  obtain ⟨p2, h2, h⟩ := ok_of_bind h
  rw [pure_ok] at h
  cases h
  obtain ⟨a1, a2⟩ := ptr_ok_counts h1
  obtain ⟨b1, b2⟩ := ptr_ok_counts h2
  constructor <;> simp [countC_append, a1, a2, b1, b2] <;> rfl

theorem cp_ok_counts {a b c : String} {s : String} (h : BFGen.cp a b c = Except.ok s) :
    countC '[' s = 2 ∧ countC ']' s = 2 := by
  unfold BFGen.cp at h
  obtain ⟨sd, h1, h⟩ := ok_of_bind h
  obtain ⟨dt, h2, h⟩ := ok_of_bind h
  obtain ⟨ts, h3, h⟩ := ok_of_bind h
  obtain ⟨st, h4, h⟩ := ok_of_bind h
  obtain ⟨m, h5, h⟩ := ok_of_bind h
  obtain ⟨ts2, h6, h⟩ := ok_of_bind h
  rw [pure_ok] at h
  cases h
  obtain ⟨a1, a2⟩ := ptr_ok_counts h1
  obtain ⟨b1, b2⟩ := ptr_ok_counts h2
  obtain ⟨c1, c2⟩ := ptr_ok_counts h3
  obtain ⟨d1, d2⟩ := ptr_ok_counts h4
  obtain ⟨m1, m2⟩ := mv_ok_counts h5
  obtain ⟨e1, e2⟩ := ptr_ok_counts h6
  constructor <;>
    simp [countC_append, a1, a2, b1, b2, c1, c2, d1, d2, m1, m2, e1, e2] <;> rfl

theorem gt_setup_ok_counts {a b : String} {s : String}
    (h : BFGen.gt_setup a b = Except.ok s) :
    countC '[' s = 6 ∧ countC ']' s = 6 := by
  unfold BFGen.gt_setup at h
  obtain ⟨c5, h1, h⟩ := ok_of_bind h
  obtain ⟨c3, h2, h⟩ := ok_of_bind h
  obtain ⟨c1, h3, h⟩ := ok_of_bind h
  obtain ⟨ab, h4, h⟩ := ok_of_bind h
  obtain ⟨b5, h5, h⟩ := ok_of_bind h
  rw [pure_ok] at h
  cases h
  obtain ⟨x1, x2⟩ := cp_ok_counts h1
  obtain ⟨y1, y2⟩ := cp_ok_counts h2
  obtain ⟨z1, z2⟩ := cp_ok_counts h3
  obtain ⟨u1, u2⟩ := ptr_ok_counts h4
  obtain ⟨v1, v2⟩ := ptr_ok_counts h5
  constructor <;> simp [countC_append, x1, x2, y1, y2, z1, z2, u1, u2, v1, v2]

theorem inot_ok_counts {a b : String} {s : String}
    (h : BFGen.inot a b = Except.ok s) :
    countC '[' s = 2 ∧ countC ']' s = 2 := by
  unfold BFGen.inot at h
  obtain ⟨ad, h1, h⟩ := ok_of_bind h
  obtain ⟨da, h2, h⟩ := ok_of_bind h
  rw [pure_ok] at h
  cases h
  obtain ⟨a1, a2⟩ := ptr_ok_counts h1
  obtain ⟨b1, b2⟩ := ptr_ok_counts h2
  constructor <;> simp [countC_append, a1, a2, b1, b2] <;> rfl

theorem clear_cond_ok_counts {a : String} {s : String}
    (h : BFGen.clear_cond a = Except.ok s) :
    countC '[' s = 1 ∧ countC ']' s = 1 := by
  unfold BFGen.clear_cond at h
  obtain ⟨p1, h1, h⟩ := ok_of_bind h
  obtain ⟨p2, h2, h⟩ := ok_of_bind h
  rw [pure_ok] at h
  cases h
  obtain ⟨a1, a2⟩ := ptr_ok_counts h1
  obtain ⟨b1, b2⟩ := ptr_ok_counts h2
  constructor <;> simp [countC_append, a1, a2, b1, b2] <;> rfl

theorem set_pc_ok_counts {pc : Nat} {s : String}
    (h : BFGen.set_pc pc = Except.ok s) :
    countC '[' s = 1 ∧ countC ']' s = 1 := by
  unfold BFGen.set_pc at h
  obtain ⟨p1, h1, h⟩ := ok_of_bind h
  obtain ⟨p2, h2, h⟩ := ok_of_bind h
  rw [pure_ok] at h
  cases h
  obtain ⟨a1, a2⟩ := ptr_ok_counts h1
  obtain ⟨b1, b2⟩ := ptr_ok_counts h2
  constructor <;>
    simp [countC_append, countC_pyRepeat, BFGen.clr, BFGen.inc, a1, a2, b1, b2,
      show countC '[' "+" = 0 from rfl, show countC ']' "+" = 0 from rfl] <;> rfl

theorem cond_ok_counts {inst : String} {s : String}
    (h : BFGen.cond inst = Except.ok s) :
    countC '[' s = 3 + countC '[' inst ∧ countC ']' s = 3 + countC ']' inst := by
  unfold BFGen.cond at h
  obtain ⟨a, h1, h⟩ := ok_of_bind h
  obtain ⟨c, h2, h⟩ := ok_of_bind h
  obtain ⟨b, h3, h⟩ := ok_of_bind h
  rw [pure_ok] at h
  cases h
  obtain ⟨a1, a2⟩ := ptr_ok_counts h1
  obtain ⟨c1, c2⟩ := cp_ok_counts h2
  obtain ⟨b1, b2⟩ := ptr_ok_counts h3
  constructor <;>
    (simp [countC_append, a1, a2, b1, b2, c1, c2,
      show countC '[' "[-" = 1 from rfl, show countC ']' "[-" = 0 from rfl,
      show countC '[' "]" = 0 from rfl, show countC ']' "]" = 1 from rfl] ;
      try omega)

theorem fjump_wrap_counts (inst : String) :
    countC '[' (BFGen.fjump_wrap inst) = 6 + countC '[' inst ∧
      countC ']' (BFGen.fjump_wrap inst) = 6 + countC ']' inst := by
  unfold BFGen.fjump_wrap
  constructor <;>
    (simp [countC_append,
      show countC '[' ">+<[>-]>[>]<\n[-\n    " = 3 from rfl,
      show countC ']' ">+<[>-]>[>]<\n[-\n    " = 2 from rfl,
      show countC '[' "\n]\n" = 0 from rfl, show countC ']' "\n]\n" = 1 from rfl,
      show countC '[' "+<[>-]>[>]<<->[-<+>]<\n" = 3 from rfl,
      show countC ']' "+<[>-]>[>]<<->[-<+>]<\n" = 3 from rfl] ; try omega)

theorem wrap_ok_counts {inst : String} {pc : Nat} {s : String}
    (h : BFGen.wrap inst pc = Except.ok s) :
    countC '[' s = 7 + countC '[' inst ∧ countC ']' s = 8 + countC ']' inst := by
  unfold BFGen.wrap at h
  obtain ⟨sp, h1, h⟩ := ok_of_bind h
  rw [pure_ok] at h
  cases h
  obtain ⟨a1, a2⟩ := set_pc_ok_counts h1
  obtain ⟨f1, f2⟩ := fjump_wrap_counts inst
  constructor <;>
    (simp [countC_append, a1, a2, f1, f2, BFGen.bjump_post,
      show countC '[' "<]>\n" = 0 from rfl,
      show countC ']' "<]>\n" = 1 from rfl] ; try omega)

theorem bjump_pre_counts (n : Nat) :
    countC '[' (BFGen.bjump_pre n) = n ∧ countC ']' (BFGen.bjump_pre n) = 0 := by
  unfold BFGen.bjump_pre
  constructor <;>
    simp [countC_append, countC_pyRepeat, BFGen.inc,
      show countC '[' "+" = 0 from rfl, show countC ']' "+" = 0 from rfl,
      show countC '[' "[-" = 1 from rfl, show countC ']' "[-" = 0 from rfl,
      show countC '[' "\n" = 0 from rfl, show countC ']' "\n" = 0 from rfl,
      show countC '[' "\n>\n" = 0 from rfl, show countC ']' "\n>\n" = 0 from rfl]

theorem add_ok_balanced {i : Instruction} {labels : LabelMap} {pc : Nat}
    {code : String} (h : BFI.add i labels pc = Except.ok code) :
    BalancedStr code := by
  unfold BFI.add at h
  split at h
  case _ o1 o2 =>
    obtain ⟨_, hu, h⟩ := ok_of_bind h
    split at h
    case _ =>
      obtain ⟨_, hu2, h⟩ := ok_of_bind h
      obtain ⟨t2s, h1, h⟩ := ok_of_bind h
      obtain ⟨s2d, h2, h⟩ := ok_of_bind h
      obtain ⟨d2t, h3, h⟩ := ok_of_bind h
      obtain ⟨p1, h4, h⟩ := ok_of_bind h
      obtain ⟨m, h5, h⟩ := ok_of_bind h
      obtain ⟨p2, h6, h⟩ := ok_of_bind h
      obtain ⟨p3, h7, h⟩ := ok_of_bind h
      rw [pure_ok] at h
      cases h
      obtain ⟨a1, a2⟩ := ptr_ok_counts h1
      obtain ⟨b1, b2⟩ := ptr_ok_counts h2
      obtain ⟨c1, c2⟩ := ptr_ok_counts h3
      obtain ⟨d1, d2⟩ := ptr_ok_counts h4
      obtain ⟨m1, m2⟩ := mv_ok_counts h5
      obtain ⟨e1, e2⟩ := ptr_ok_counts h6
      obtain ⟨f1, f2⟩ := ptr_ok_counts h7
      unfold BalancedStr
      simp [countC_append, a1, a2, b1, b2, c1, c2, d1, d2, m1, m2, e1, e2, f1, f2,
        show countC '[' "[-" = 1 from rfl, show countC ']' "[-" = 0 from rfl,
        show countC '[' "+" = 0 from rfl, show countC ']' "+" = 0 from rfl,
        show countC '[' "]" = 0 from rfl, show countC ']' "]" = 1 from rfl]
    case _ =>
      obtain ⟨p1, h1, h⟩ := ok_of_bind h
      obtain ⟨v, hv, h⟩ := ok_of_bind h
      obtain ⟨p2, h2, h⟩ := ok_of_bind h
      rw [pure_ok] at h
      cases h
      obtain ⟨a1, a2⟩ := ptr_ok_counts h1
      obtain ⟨b1, b2⟩ := ptr_ok_counts h2
      unfold BalancedStr
      simp [countC_append, countC_pyRepeat, a1, a2, b1, b2,
        show countC '[' "+" = 0 from rfl, show countC ']' "+" = 0 from rfl]
    case _ => exact absurd h (by simp)
  case _ => exact absurd h (by simp)

theorem mov_ok_balanced {i : Instruction} {labels : LabelMap} {pc : Nat}
    {code : String} (h : BFI.mov i labels pc = Except.ok code) :
    BalancedStr code := by
  unfold BFI.mov at h
  split at h
  case _ o1 o2 =>
    obtain ⟨_, hu, h⟩ := ok_of_bind h
    split at h
    case _ => exact absurd h (by simp)
    case _ =>
      obtain ⟨p1, h1, h⟩ := ok_of_bind h
      obtain ⟨v, hv, h⟩ := ok_of_bind h
      obtain ⟨p2, h2, h⟩ := ok_of_bind h
      rw [pure_ok] at h
      cases h
      obtain ⟨a1, a2⟩ := ptr_ok_counts h1
      obtain ⟨b1, b2⟩ := ptr_ok_counts h2
      unfold BalancedStr
      simp [countC_append, countC_pyRepeat, a1, a2, b1, b2, BFGen.clr,
        show countC '[' "[-]" = 1 from rfl, show countC ']' "[-]" = 1 from rfl,
        show countC '[' "+" = 0 from rfl, show countC ']' "+" = 0 from rfl]
  case _ => exact absurd h (by simp)

theorem out_ok_balanced {i : Instruction} {labels : LabelMap} {pc : Nat}
    {code : String} (h : BFI.out i labels pc = Except.ok code) :
    BalancedStr code := by
  unfold BFI.out at h
  split at h
  case _ o1 =>
    obtain ⟨_, hu, h⟩ := ok_of_bind h
    obtain ⟨p1, h1, h⟩ := ok_of_bind h
    obtain ⟨p2, h2, h⟩ := ok_of_bind h
    rw [pure_ok] at h
    cases h
    obtain ⟨a1, a2⟩ := ptr_ok_counts h1
    obtain ⟨b1, b2⟩ := ptr_ok_counts h2
    unfold BalancedStr
    simp [countC_append, a1, a2, b1, b2,
      show countC '[' "." = 0 from rfl, show countC ']' "." = 0 from rfl]
  case _ => exact absurd h (by simp)

theorem gt_ok_balanced {i : Instruction} {labels : LabelMap} {pc : Nat}
    {code : String} (h : BFI.gt i labels pc = Except.ok code) :
    BalancedStr code := by
  unfold BFI.gt at h
  split at h
  case _ a b rest =>
    obtain ⟨cc, h1, h⟩ := ok_of_bind h
    obtain ⟨p1, h2, h⟩ := ok_of_bind h
    obtain ⟨su, h3, h⟩ := ok_of_bind h
    obtain ⟨m, h4, h⟩ := ok_of_bind h
    obtain ⟨p2, h5, h⟩ := ok_of_bind h
    rw [pure_ok] at h
    cases h
    obtain ⟨a1, a2⟩ := clear_cond_ok_counts h1
    obtain ⟨b1, b2⟩ := ptr_ok_counts h2
    obtain ⟨c1, c2⟩ := gt_setup_ok_counts h3
    obtain ⟨m1, m2⟩ := mv_ok_counts h4
    obtain ⟨e1, e2⟩ := ptr_ok_counts h5
    unfold BalancedStr
    simp [countC_append, a1, a2, b1, b2, c1, c2, m1, m2, e1, e2,
      show countC '[' BFGen.gt = 4 by decide, show countC ']' BFGen.gt = 4 by decide,
      show countC '[' "\n" = 0 from rfl, show countC ']' "\n" = 0 from rfl]
  case _ => exact absurd h (by simp)

theorem branch_ok_balanced {i : Instruction} {labels : LabelMap} {pc : Nat}
    {code : String} (h : BFI.branch i labels pc = Except.ok code) :
    BalancedStr code := by
  unfold BFI.branch at h
  split at h
  case _ o1 =>
    split at h
    case _ =>
      obtain ⟨c1, h1, h⟩ := ok_of_bind h
      obtain ⟨c2, h2, h⟩ := ok_of_bind h
      obtain ⟨c3, h3, h⟩ := ok_of_bind h
      obtain ⟨c4, h4, h⟩ := ok_of_bind h
      obtain ⟨c5, h5, h⟩ := ok_of_bind h
      obtain ⟨c6, h6, h⟩ := ok_of_bind h
      obtain ⟨s1, hs1, h⟩ := ok_of_bind h
      obtain ⟨s2, hs2, h⟩ := ok_of_bind h
      obtain ⟨s3, hs3, h⟩ := ok_of_bind h
      obtain ⟨s4, hs4, h⟩ := ok_of_bind h
      obtain ⟨s5, hs5, h⟩ := ok_of_bind h
      obtain ⟨m1, hm1, h⟩ := ok_of_bind h
      obtain ⟨c7, h7, h⟩ := ok_of_bind h
      obtain ⟨f1, hf1, h⟩ := ok_of_bind h
      obtain ⟨f2, hf2, h⟩ := ok_of_bind h
      obtain ⟨f3, hf3, h⟩ := ok_of_bind h
      obtain ⟨f4, hf4, h⟩ := ok_of_bind h
      obtain ⟨f5, hf5, h⟩ := ok_of_bind h
      obtain ⟨m2, hm2, h⟩ := ok_of_bind h
      obtain ⟨c8, h8, h⟩ := ok_of_bind h
      obtain ⟨c9, h9, h⟩ := ok_of_bind h
      rw [pure_ok] at h
      cases h
      obtain ⟨a1, a2⟩ := ptr_ok_counts h1
      obtain ⟨b1, b2⟩ := gt_setup_ok_counts h2
      obtain ⟨d1, d2⟩ := cp_ok_counts h3
      obtain ⟨e1, e2⟩ := ptr_ok_counts h4
      obtain ⟨g1, g2⟩ := inot_ok_counts h5
      obtain ⟨i1, i2⟩ := ptr_ok_counts h6
      obtain ⟨j1, j2⟩ := ptr_ok_counts hs1
      obtain ⟨k1, k2⟩ := cp_ok_counts hs2
      obtain ⟨l1, l2⟩ := ptr_ok_counts hs3
      obtain ⟨n1, n2⟩ := cp_ok_counts hs4
      obtain ⟨o1, o2⟩ := ptr_ok_counts hs5
      obtain ⟨q1, q2⟩ := mv_ok_counts hm1
      obtain ⟨r1, r2⟩ := ptr_ok_counts h7
      obtain ⟨u1, u2⟩ := ptr_ok_counts hf1
      obtain ⟨v1, v2⟩ := cp_ok_counts hf2
      obtain ⟨w1, w2⟩ := ptr_ok_counts hf3
      obtain ⟨x1, x2⟩ := cp_ok_counts hf4
      obtain ⟨y1, y2⟩ := ptr_ok_counts hf5
      obtain ⟨z1, z2⟩ := mv_ok_counts hm2
      obtain ⟨aa1, aa2⟩ := ptr_ok_counts h8
      obtain ⟨ab1, ab2⟩ := ptr_ok_counts h9
      unfold BalancedStr
      simp [countC_append, a1, a2, b1, b2, d1, d2, e1, e2, g1, g2, i1, i2,
        j1, j2, k1, k2, l1, l2, n1, n2, o1, o2, q1, q2, r1, r2, u1, u2,
        v1, v2, w1, w2, x1, x2, y1, y2, z1, z2, aa1, aa2, ab1, ab2,
        show countC '[' BFGen.gt = 4 by decide, show countC ']' BFGen.gt = 4 by decide,
        show countC '[' "\n" = 0 from rfl, show countC ']' "\n" = 0 from rfl,
        show countC '[' "[-<->]<" = 1 from rfl, show countC ']' "[-<->]<" = 1 from rfl,
        show countC '[' "[" = 1 from rfl, show countC ']' "[" = 0 from rfl,
        show countC '[' "\n+" = 0 from rfl, show countC ']' "\n+" = 0 from rfl,
        show countC '[' "-]\n" = 0 from rfl, show countC ']' "-]\n" = 1 from rfl,
        show countC '[' ">[" = 1 from rfl, show countC ']' ">[" = 0 from rfl,
        show countC '[' "-]" = 0 from rfl, show countC ']' "-]" = 1 from rfl]
    case _ =>
      split at h
      case _ => exact absurd h (by simp)
      case _ =>
        split at h
        case _ =>
          obtain ⟨p1, h1, h⟩ := ok_of_bind h
          obtain ⟨p2, h2, h⟩ := ok_of_bind h
          rw [pure_ok] at h
          cases h
          obtain ⟨a1, a2⟩ := ptr_ok_counts h1
          obtain ⟨b1, b2⟩ := ptr_ok_counts h2
          unfold BalancedStr
          simp [countC_append, countC_pyRepeat, a1, a2, b1, b2, BFGen.inc,
            show countC '[' "+" = 0 from rfl, show countC ']' "+" = 0 from rfl]
        case _ =>
          obtain ⟨p1, h1, h⟩ := ok_of_bind h
          obtain ⟨p2, h2, h⟩ := ok_of_bind h
          rw [pure_ok] at h
          cases h
          obtain ⟨a1, a2⟩ := ptr_ok_counts h1
          obtain ⟨b1, b2⟩ := ptr_ok_counts h2
          unfold BalancedStr
          simp [countC_append, countC_pyRepeat, a1, a2, b1, b2, BFGen.inc,
            show countC '[' "+" = 0 from rfl, show countC ']' "+" = 0 from rfl]
  case _ => exact absurd h (by simp)

theorem IPtr_ok_balanced {name : String}
    {f : Instruction → LabelMap → Nat → Except PyErr String}
    (hf : IPtr name = some f) {i : Instruction} {labels : LabelMap} {pc : Nat}
    {code : String} (h : f i labels pc = Except.ok code) : BalancedStr code := by
  unfold IPtr at hf
  split at hf
  · cases hf; exact add_ok_balanced h
  · split at hf
    · cases hf; exact mov_ok_balanced h
    · split at hf
      · cases hf; exact out_ok_balanced h
      · split at hf
        · cases hf; exact gt_ok_balanced h
        · split at hf
          · cases hf; exact branch_ok_balanced h
          · cases hf

theorem assembleBlocks_counts {labels : LabelMap} :
    ∀ (instrs : List Instruction) (pc : Nat) (bf : String),
      assembleBlocks labels instrs pc = Except.ok bf →
      countC ']' bf = countC '[' bf + instrs.length := by
  intro instrs
  induction instrs with
  | nil =>
    intro pc bf h
    rw [show assembleBlocks labels [] pc = Except.ok "" from rfl] at h
    cases h
    rfl
  | cons i rest ih =>
    intro pc bf h
    unfold assembleBlocks at h
    obtain ⟨block, hblock, h⟩ := ok_of_bind h
    obtain ⟨more, hmore, h⟩ := ok_of_bind h
    rw [pure_ok] at h
    cases h
    have hrest := ih (pc + 1) more hmore
    have hb : countC ']' block = countC '[' block + 1 := by
      unfold assembleBlock at hblock
      split at hblock
      · split at hblock
        case _ f hf =>
          obtain ⟨istr, histr, hblock⟩ := ok_of_bind hblock
          obtain ⟨c, hc, hblock⟩ := ok_of_bind hblock
          obtain ⟨co, cc⟩ := cond_ok_counts hc
          obtain ⟨wo, wc⟩ := wrap_ok_counts hblock
          have hbal := IPtr_ok_balanced hf histr
          unfold BalancedStr at hbal
          omega
        case _ => exact absurd hblock (by simp)
      · split at hblock
        case _ f hf =>
          obtain ⟨istr, histr, hblock⟩ := ok_of_bind hblock
          obtain ⟨wo, wc⟩ := wrap_ok_counts hblock
          have hbal := IPtr_ok_balanced hf histr
          unfold BalancedStr at hbal
          omega
        case _ => exact absurd hblock (by simp)
    rw [countC_append, countC_append, List.length_cons]
    omega

/-- The whole assembled output is bracket-balanced. -/
theorem assemble_ok_balanced {instrs : List Instruction} {labels : LabelMap}
    {out : String} (h : assemble instrs labels = Except.ok out) :
    BalancedStr out := by
  unfold assemble at h
  obtain ⟨bf, hbf, h⟩ := ok_of_bind h
  rw [pure_ok] at h
  cases h
  have hc := assembleBlocks_counts instrs 0 bf hbf
  obtain ⟨po, pz⟩ := bjump_pre_counts instrs.length
  unfold BalancedStr
  rw [countC_append, countC_append, po, pz]
  omega

/-- Counterexample to C3 as stated: for a two-instruction program the
prologue contains two loop-opening brackets, not one — it opens one nested
repeat region per instruction. -/
theorem claim_C3_cex :
    countC '[' (BFGen.bjump_pre 2) ≠ 1 ∧ countC '[' (BFGen.bjump_pre 2) = 2 := by
  constructor <;> decide

/-- Claim C3 (amended): the one-time prologue initializes the backward-jump
counter (cell 0) to the instruction count n — its increment prefix parses
to n increments whose execution writes n — and then opens one
repeat-while-nonzero region per instruction (n loop-opening brackets and no
closings in the prologue), each matched by the single surplus closing
bracket of one block envelope, so the whole assembled output is
bracket-balanced. -/
theorem claim_C3 (n base : Nat) (hn : n < base) (s : BfState) (hp : s.ptr = 0)
    (h0 : s.tape 0 = 0) (instrs : List Instruction) (labels : LabelMap)
    (out : String) (hasm : assemble instrs labels = Except.ok out)
    (inst : String) (pc : Nat) (w : String) (hw : BFGen.wrap inst pc = Except.ok w)
    (hbal : BalancedStr inst) :
    parseBF (BFGen.inc n) = some (List.replicate n BfOp.plus) ∧
    Exec base (List.replicate n BfOp.plus) s (s.wr n) ∧
    countC '[' (BFGen.bjump_pre n) = n ∧ countC ']' (BFGen.bjump_pre n) = 0 ∧
    countC ']' w = countC '[' w + 1 ∧
    countC '[' out = countC ']' out := by
  refine ⟨parseBF_of_scansTo (scansTo_pluses n), ?_, (bjump_pre_counts n).1,
    (bjump_pre_counts n).2, ?_, assemble_ok_balanced hasm⟩
  · refine (exec_plusN n s (by rw [BfState.cur_eq, hp, h0]; omega)).cast ?_
    rw [BfState.cur_eq, hp, h0, Nat.zero_add, Nat.mod_eq_of_lt hn]
  · obtain ⟨wo, wc⟩ := wrap_ok_counts hw
    unfold BalancedStr at hbal
    omega

/-- The assembled output for the two-instruction witness program of C3. -/
def c3out : String :=
  (assemble [⟨"OUT", [⟨"R1", .REFERENCE⟩]⟩, ⟨"OUT", [⟨"R1", .REFERENCE⟩]⟩]
    []).toOption.getD ""

/-- A wrapped envelope for the C3 witness. -/
def c3w : String :=
  (BFGen.wrap (pyRepeat ">" 8 ++ "." ++ pyRepeat "<" 8) 0).toOption.getD ""

/-- Witness for C3 with a two-instruction program. -/
theorem claim_C3_witness :
    parseBF (BFGen.inc 2) = some (List.replicate 2 BfOp.plus) ∧
    Exec 256 (List.replicate 2 BfOp.plus) ⟨fun _ => 0, 0, []⟩
      ((⟨fun _ => 0, 0, []⟩ : BfState).wr 2) ∧
    countC '[' (BFGen.bjump_pre 2) = 2 ∧ countC ']' (BFGen.bjump_pre 2) = 0 ∧
    countC ']' c3w = countC '[' c3w + 1 ∧
    countC '[' c3out = countC ']' c3out :=
  claim_C3 2 256 (by omega) ⟨fun _ => 0, 0, []⟩ rfl rfl
    [⟨"OUT", [⟨"R1", .REFERENCE⟩]⟩, ⟨"OUT", [⟨"R1", .REFERENCE⟩]⟩] [] c3out rfl
    (pyRepeat ">" 8 ++ "." ++ pyRepeat "<" 8) 0 c3w rfl
    (by unfold BalancedStr; decide)

/-- Whether an Except is a success. -/
def exceptIsOk {ε α : Type} : Except ε α → Bool
  | .ok _ => true
  | .error _ => false

/-- Reduction of an Except bind on an error value. -/
theorem error_bind {α β ε : Type} (e : ε) (f : α → Except ε β) :
    ((Except.error e : Except ε α) >>= f) = Except.error e := rfl

/-- Counterexample to C6 as stated: the GT compiler does not reject
operands that are not user registers — GT applied to the internal scratch
register TR1 compiles successfully. -/
theorem claim_C6_cex :
    exceptIsOk (BFI.gt ⟨"GT", [⟨"TR1", .REFERENCE⟩, ⟨"R1", .REFERENCE⟩]⟩ [] 0) =
      true := rfl

/-- Claim C6 (amended): ADD, MOV, OUT, and B validate their operand count
first and fail fast with a compile-time error, ADD, MOV and OUT reject a
non-user-register destination (and B rejects an operand that is neither a
user register nor a defined label) before emitting anything; GT performs no
validation: fewer than two operands surface as an uncontrolled index error,
and an internal-register operand is accepted. -/
theorem claim_C6 :
    (∀ (i : Instruction) (labels : LabelMap) (pc : Nat), i.operands.length ≠ 2 →
      BFI.add i labels pc = Except.error (.exitOne "Not enough operands in ADD")) ∧
    (∀ (i : Instruction) (labels : LabelMap) (pc : Nat), i.operands.length ≠ 2 →
      BFI.mov i labels pc = Except.error (.exitOne "Not enough operands in MOV")) ∧
    (∀ (i : Instruction) (labels : LabelMap) (pc : Nat), i.operands.length ≠ 1 →
      BFI.out i labels pc = Except.error (.exitOne "Not enough operands in OUT")) ∧
    (∀ (i : Instruction) (labels : LabelMap) (pc : Nat), i.operands.length ≠ 1 →
      BFI.branch i labels pc = Except.error (.exitOne "Not enough operands in B")) ∧
    (∀ (n : String) (o1 o2 : Operand) (labels : LabelMap) (pc : Nat),
      o1.val ∉ URegisters →
      BFI.add ⟨n, [o1, o2]⟩ labels pc =
        Except.error (.valueError ("Undefined register " ++ o1.val))) ∧
    (∀ (n : String) (o1 o2 : Operand) (labels : LabelMap) (pc : Nat),
      o1.val ∉ URegisters →
      BFI.mov ⟨n, [o1, o2]⟩ labels pc =
        Except.error (.valueError ("Undefined register " ++ o1.val))) ∧
    (∀ (n : String) (o1 : Operand) (labels : LabelMap) (pc : Nat),
      o1.val ∉ URegisters →
      BFI.out ⟨n, [o1]⟩ labels pc =
        Except.error (.valueError ("Undefined register " ++ o1.val))) ∧
    (∀ (n : String) (o1 : Operand) (labels : LabelMap) (pc : Nat),
      o1.val ∉ URegisters → dictGet labels o1.val = none →
      BFI.branch ⟨n, [o1]⟩ labels pc =
        Except.error (.exitOne "Undefined label")) ∧
    (∀ (i : Instruction) (labels : LabelMap) (pc : Nat), i.operands.length < 2 →
      BFI.gt i labels pc = Except.error .indexError) ∧
    exceptIsOk (BFI.gt ⟨"GT", [⟨"TR2", .REFERENCE⟩, ⟨"R2", .REFERENCE⟩]⟩ [] 0) =
      true := by
  refine ⟨?_, ?_, ?_, ?_, ?_, ?_, ?_, ?_, ?_, rfl⟩
  · intro i labels pc h
    unfold BFI.add
    split
    case _ o1 o2 heq => exact absurd (by rw [heq]; rfl) h
    case _ => rfl
  · intro i labels pc h
    unfold BFI.mov
    split
    case _ o1 o2 heq => exact absurd (by rw [heq]; rfl) h
    case _ => rfl
  · intro i labels pc h
    unfold BFI.out
    split
    case _ o1 heq => exact absurd (by rw [heq]; rfl) h
    case _ => rfl
  · intro i labels pc h
    unfold BFI.branch
    split
    case _ o1 heq => exact absurd (by rw [heq]; rfl) h
    case _ => rfl
  · intro n o1 o2 labels pc h
    unfold BFI.add
    simp [check_ureg, h, error_bind]
  · intro n o1 o2 labels pc h
    unfold BFI.mov
    simp [check_ureg, h, error_bind]
  · intro n o1 labels pc h
    unfold BFI.out
    simp [check_ureg, h, error_bind]
  · intro n o1 labels pc h hlk
    simp [BFI.branch, h, hlk]
  · intro i labels pc h
    unfold BFI.gt
    split
    case _ a b rest heq =>
      exact absurd h (by rw [heq]; simp)
    case _ => rfl

/-- Witness for C6 at concrete malformed instructions. -/
theorem claim_C6_witness :
    BFI.add ⟨"ADD", []⟩ [] 0 = Except.error (.exitOne "Not enough operands in ADD") ∧
    BFI.gt ⟨"GT", [⟨"R1", .REFERENCE⟩]⟩ [] 0 = Except.error .indexError ∧
    BFI.mov ⟨"MOV", [⟨"TR3", .REFERENCE⟩, ⟨"7", .CONSTANT⟩]⟩ [] 0 =
      Except.error (.valueError "Undefined register TR3") :=
  ⟨claim_C6.1 ⟨"ADD", []⟩ [] 0 (by decide),
    (claim_C6.2.2.2.2.2.2.2.2.1) ⟨"GT", [⟨"R1", .REFERENCE⟩]⟩ [] 0 (by decide),
    (claim_C6.2.2.2.2.2.1) "MOV" ⟨"TR3", .REFERENCE⟩ ⟨"7", .CONSTANT⟩ [] 0
      (by decide)⟩

/-! ## The comparison loop of `BFGen.gt` -/

/-- The loop body of the outer comparison loop of `BFGen.gt` (the pointer
sits on TR5): decrement TR5, and in one simultaneous-descent step decrement
TR3 and — when TR3 was nonzero — also TR1. -/
def gtBody : List BfOp :=
  [.minus, .mvL, .mvL, .loop [.mvL, .mvL, .minus, .mvR], .mvR, .loop [.mvR],
    .mvL, .minus, .mvR, .mvR]

theorem gtP_eq : gtP = [.loop gtBody, .mvL, .mvL, .loop [.plus], .mvL, .mvL] := rfl

/-- The value recurrence of the outer loop: `k` passes starting from
TR1 = x, TR3 = y; each pass decrements TR3 (mod base) and, when TR3 was
nonzero, also TR1 (mod base).  Returns the final (TR1, TR3). -/
def gtIter (base : Nat) : Nat → Nat → Nat → Nat × Nat
  | 0, x, y => (x, y)
  | k + 1, x, y =>
    if y = 0 then gtIter base k x ((y + (base - 1)) % base)
    else gtIter base k ((x + (base - 1)) % base) ((y + (base - 1)) % base)

theorem decMod {base v : Nat} (hv : 0 < v) (hvb : v < base) :
    (v + (base - 1)) % base = v - 1 := by
  have h1 : v + (base - 1) = (v - 1) + base := by omega
  rw [h1, Nat.add_mod_right, Nat.mod_eq_of_lt (by omega)]

theorem gtIter_snd_lt {base : Nat} (hb : 0 < base) :
    ∀ (k x y : Nat), y < base → (gtIter base k x y).2 < base := by
  intro k
  induction k with
  | zero => intro x y hy; exact hy
  | succ k ih =>
    intro x y hy
    unfold gtIter
    split
    · exact ih _ _ (Nat.mod_lt _ hb)
    · exact ih _ _ (Nat.mod_lt _ hb)

theorem gtIter_succ (base k x y : Nat) :
    gtIter base (k + 1) x y =
      if y = 0 then gtIter base k x ((y + (base - 1)) % base)
      else gtIter base k ((x + (base - 1)) % base) ((y + (base - 1)) % base) := rfl

/-- While both counters last, the loop subtracts the pass count from both. -/
theorem gtIter_easy {base : Nat} :
    ∀ (k x y : Nat), k ≤ x → k ≤ y → x < base → y < base →
      gtIter base k x y = (x - k, y - k) := by
  intro k
  induction k with
  | zero => intro x y _ _ _ _; simp [gtIter]
  | succ k ih =>
    intro x y hkx hky hxb hyb
    have hy0 : y ≠ 0 := by omega
    rw [gtIter_succ, if_neg hy0, decMod (by omega) hxb, decMod (by omega) hyb,
      ih (x - 1) (y - 1) (by omega) (by omega) (by omega) (by omega)]
    have e1 : x - 1 - k = x - (k + 1) := by omega
    have e2 : y - 1 - k = y - (k + 1) := by omega
    rw [e1, e2]

/-- The first phase: the smaller counter `y` is drained first. -/
theorem gtIter_chunk {base : Nat} :
    ∀ (y k x : Nat), y ≤ k → y ≤ x → x < base → y < base →
      gtIter base k x y = gtIter base (k - y) (x - y) 0 := by
  intro y
  induction y with
  | zero => intro k x _ _ _ _; simp
  | succ y ih =>
    intro k x hyk hyx hxb hyb
    obtain ⟨k', rfl⟩ : ∃ k', k = k' + 1 := ⟨k - 1, by omega⟩
    rw [gtIter_succ, if_neg (by omega), decMod (by omega) hxb,
      decMod (by omega) hyb]
    have hs : y + 1 - 1 = y := by omega
    rw [hs, ih k' (x - 1) (by omega) (by omega) (by omega) (by omega)]
    have e1 : k' - y = k' + 1 - (y + 1) := by omega
    have e2 : x - 1 - y = x - (y + 1) := by omega
    rw [e1, e2]

/-- Entering the loop with the pass counter equal to TR1 computes the
strict comparison: TR1 ends at 1 when y < x and at 0 otherwise. -/
theorem gtIter_main {base x y : Nat} (hxb : x < base) (hyb : y < base) :
    (gtIter base x x y).1 = if y < x then 1 else 0 := by
  rcases le_or_lt x y with hxy | hyx
  · rw [gtIter_easy x x y le_rfl hxy hxb hyb, if_neg (by omega)]
    simp
  · rw [gtIter_chunk y x x (by omega) (by omega) hxb hyb]
    obtain ⟨m, hm⟩ : ∃ m, x - y = m + 1 := ⟨x - y - 1, by omega⟩
    rw [hm, gtIter_succ, if_pos rfl]
    have hb1 : (0 + (base - 1)) % base = base - 1 := by
      rw [Nat.zero_add, Nat.mod_eq_of_lt (by omega)]
    rw [hb1, gtIter_easy m (m + 1) (base - 1) (by omega) (by omega) (by omega)
      (by omega), if_pos hyx]
    simp

/-- Executing the outer comparison loop of `BFGen.gt`: with TR2 and TR4
zero and the pointer on TR5 holding the pass counter, the loop drives TR5
to zero and transforms (TR1, TR3) by `gtIter`. -/
theorem exec_gtLoop {base : Nat} (hb : 0 < base) :
    ∀ (k : Nat) {x y : Nat} {s : BfState}, k < base → x < base → y < base →
      s.ptr = 7 → s.tape 3 = x → s.tape 4 = 0 → s.tape 5 = y → s.tape 6 = 0 →
      s.tape 7 = k →
      Exec base [.loop gtBody] s
        ⟨fun j => if j = 3 then (gtIter base k x y).1
          else if j = 5 then (gtIter base k x y).2
          else if j = 7 then 0 else s.tape j, 7, s.out⟩ := by
  intro k
  induction k with
  | zero =>
    intro x y s _ _ _ hp h3 h4 h5 h6 h7
    refine (Exec.loopZero (by rw [BfState.cur_eq, hp, h7]) (Exec.done s)).cast ?_
    ext j
    · simp only [BfState.tape_mk, gtIter]
      by_cases hj3 : j = (3 : Int)
      · subst hj3; rw [if_pos rfl, ← h3]
      · by_cases hj5 : j = (5 : Int)
        · subst hj5; rw [if_neg (by norm_num), if_pos rfl, ← h5]
        · by_cases hj7 : j = (7 : Int)
          · subst hj7; rw [if_neg (by norm_num), if_neg (by norm_num), if_pos rfl, ← h7]
          · rw [if_neg hj3, if_neg hj5, if_neg hj7]
    · simpa using hp
    · rfl
  | succ k ih =>
    intro x y s hk hx hy hp h3 h4 h5 h6 h7
    obtain ⟨tp, pt, ou⟩ := s
    simp only [BfState.ptr_mk, BfState.tape_mk, BfState.out_mk] at hp h3 h4 h5 h6 h7 ⊢
    subst hp
    have hdec7 : (tp 7 + (base - 1)) % base = k := by
      rw [h7, decMod (by omega) (by omega)]
      omega
    have hcur0 : (⟨tp, 7, ou⟩ : BfState).cur ≠ 0 := by
      rw [BfState.cur_eq, BfState.ptr_mk, BfState.tape_mk, h7]
      exact Nat.succ_ne_zero k
    by_cases hy0 : y = 0
    · -- TR3 is zero: the simultaneous-descent loop is skipped, TR3 wraps.
      refine Exec.loopStep hcur0
        (Exec.minus (Exec.mvL (Exec.mvL (Exec.loopZero
          (by norm_num [BfState.cur_eq, BfState.wr_tape, BfState.wr_ptr,
            BfState.mv_ptr, BfState.mv_tape, BfState.tape_mk, BfState.ptr_mk,
            h5, hy0])
          (Exec.mvR (Exec.loopZero
            (by norm_num [BfState.cur_eq, BfState.wr_tape, BfState.wr_ptr,
              BfState.mv_ptr, BfState.mv_tape, BfState.tape_mk, BfState.ptr_mk, h6])
            (Exec.mvL (Exec.minus (Exec.mvR (Exec.mvR (Exec.done _))))))))))) ?_
      refine (ih (x := x) (y := (y + (base - 1)) % base) (by omega) hx
        (Nat.mod_lt _ hb)
        (by norm_num [BfState.cur_eq, BfState.wr_tape, BfState.wr_ptr,
          BfState.mv_ptr, BfState.mv_tape, BfState.tape_mk, BfState.ptr_mk])
        (by norm_num [BfState.cur_eq, BfState.wr_tape, BfState.wr_ptr,
          BfState.mv_ptr, BfState.mv_tape, BfState.tape_mk, BfState.ptr_mk, h3])
        (by norm_num [BfState.cur_eq, BfState.wr_tape, BfState.wr_ptr,
          BfState.mv_ptr, BfState.mv_tape, BfState.tape_mk, BfState.ptr_mk, h4])
        (by norm_num [BfState.cur_eq, BfState.wr_tape, BfState.wr_ptr,
          BfState.mv_ptr, BfState.mv_tape, BfState.tape_mk, BfState.ptr_mk, h5])
        (by norm_num [BfState.cur_eq, BfState.wr_tape, BfState.wr_ptr,
          BfState.mv_ptr, BfState.mv_tape, BfState.tape_mk, BfState.ptr_mk, h6])
        (by norm_num [BfState.cur_eq, BfState.wr_tape, BfState.wr_ptr,
          BfState.mv_ptr, BfState.mv_tape, BfState.tape_mk, BfState.ptr_mk,
          hdec7])).cast ?_
      ext j
      · simp only [BfState.tape_mk]
        rw [gtIter_succ, if_pos hy0]
        by_cases hj3 : j = (3 : Int)
        · subst hj3; rw [if_pos rfl, if_pos rfl]
        · by_cases hj5 : j = (5 : Int)
          · subst hj5
            rw [if_neg (by norm_num), if_pos rfl, if_neg (by norm_num), if_pos rfl]
          · by_cases hj7 : j = (7 : Int)
            · subst hj7
              rw [if_neg (by norm_num), if_neg (by norm_num), if_pos rfl,
                if_neg (by norm_num), if_neg (by norm_num), if_pos rfl]
            · rw [if_neg hj3, if_neg hj5, if_neg hj7, if_neg hj3, if_neg hj5,
                if_neg hj7]
              simp only [BfState.wr_tape, BfState.mv_ptr, BfState.mv_tape,
                BfState.wr_ptr, BfState.ptr_mk, BfState.tape_mk]
              norm_num [hj5, hj7]
      · rfl
      · rfl
    · -- TR3 is nonzero: one simultaneous-descent pass decrements TR1 too.
      refine Exec.loopStep hcur0
        (Exec.minus (Exec.mvL (Exec.mvL (Exec.loopStep
          (by
            norm_num [BfState.cur_eq, BfState.wr_tape, BfState.wr_ptr,
              BfState.mv_ptr, BfState.mv_tape, BfState.tape_mk, BfState.ptr_mk, h5]
            exact hy0)
          (Exec.mvL (Exec.mvL (Exec.minus (Exec.mvR (Exec.done _)))))
          (Exec.loopZero
            (by norm_num [BfState.cur_eq, BfState.wr_tape, BfState.wr_ptr,
              BfState.mv_ptr, BfState.mv_tape, BfState.tape_mk, BfState.ptr_mk, h4])
            (Exec.mvR (Exec.loopStep
              (by
                norm_num [BfState.cur_eq, BfState.wr_tape, BfState.wr_ptr,
                  BfState.mv_ptr, BfState.mv_tape, BfState.tape_mk,
                  BfState.ptr_mk, h5]
                exact hy0)
              (Exec.mvR (Exec.done _))
              (Exec.loopZero
                (by norm_num [BfState.cur_eq, BfState.wr_tape, BfState.wr_ptr,
                  BfState.mv_ptr, BfState.mv_tape, BfState.tape_mk,
                  BfState.ptr_mk, h6])
                (Exec.mvL (Exec.minus (Exec.mvR (Exec.mvR (Exec.done _)))))))))))))
        ?_
      refine (ih (x := (x + (base - 1)) % base) (y := (y + (base - 1)) % base)
        (by omega) (Nat.mod_lt _ hb) (Nat.mod_lt _ hb)
        (by norm_num [BfState.cur_eq, BfState.wr_tape, BfState.wr_ptr,
          BfState.mv_ptr, BfState.mv_tape, BfState.tape_mk, BfState.ptr_mk])
        (by norm_num [BfState.cur_eq, BfState.wr_tape, BfState.wr_ptr,
          BfState.mv_ptr, BfState.mv_tape, BfState.tape_mk, BfState.ptr_mk, h3])
        (by norm_num [BfState.cur_eq, BfState.wr_tape, BfState.wr_ptr,
          BfState.mv_ptr, BfState.mv_tape, BfState.tape_mk, BfState.ptr_mk, h4])
        (by norm_num [BfState.cur_eq, BfState.wr_tape, BfState.wr_ptr,
          BfState.mv_ptr, BfState.mv_tape, BfState.tape_mk, BfState.ptr_mk, h5])
        (by norm_num [BfState.cur_eq, BfState.wr_tape, BfState.wr_ptr,
          BfState.mv_ptr, BfState.mv_tape, BfState.tape_mk, BfState.ptr_mk, h6])
        (by norm_num [BfState.cur_eq, BfState.wr_tape, BfState.wr_ptr,
          BfState.mv_ptr, BfState.mv_tape, BfState.tape_mk, BfState.ptr_mk,
          hdec7])).cast ?_
      ext j
      · simp only [BfState.tape_mk]
        rw [gtIter_succ, if_neg hy0]
        by_cases hj3 : j = (3 : Int)
        · subst hj3; rw [if_pos rfl, if_pos rfl]
        · by_cases hj5 : j = (5 : Int)
          · subst hj5
            rw [if_neg (by norm_num), if_pos rfl, if_neg (by norm_num), if_pos rfl]
          · by_cases hj7 : j = (7 : Int)
            · subst hj7
              rw [if_neg (by norm_num), if_neg (by norm_num), if_pos rfl,
                if_neg (by norm_num), if_neg (by norm_num), if_pos rfl]
            · rw [if_neg hj3, if_neg hj5, if_neg hj7, if_neg hj3, if_neg hj5,
                if_neg hj7]
              simp only [BfState.wr_tape, BfState.mv_ptr, BfState.mv_tape,
                BfState.wr_ptr, BfState.ptr_mk, BfState.tape_mk]
              norm_num [hj3, hj5, hj7]
      · rfl
      · rfl

/-- Executing the whole `BFGen.gt` payload from TR5: TR1 receives the
`gtIter` result, TR3 and TR5 are cleared, the pointer ends on TR1. -/
theorem exec_gtP {base : Nat} (hb : 0 < base) {s : BfState} {k x y : Nat}
    (hk : k < base) (hx : x < base) (hy : y < base)
    (hp : s.ptr = 7) (h3 : s.tape 3 = x) (h4 : s.tape 4 = 0) (h5 : s.tape 5 = y)
    (h6 : s.tape 6 = 0) (h7 : s.tape 7 = k) :
    Exec base gtP s
      ⟨fun j => if j = 3 then (gtIter base k x y).1
        else if j = 5 then 0 else if j = 7 then 0 else s.tape j, 3, s.out⟩ := by
  rw [gtP_eq]
  refine Exec.step (exec_gtLoop hb k hk hx hy hp h3 h4 h5 h6 h7)
    (Exec.mvL (Exec.mvL (Exec.step (exec_plusLoop _ ?_)
      (Exec.mvL (Exec.mvL (Exec.done _)))))) |>.cast ?_
  · rw [BfState.cur_eq]
    simp only [BfState.mv_ptr, BfState.mv_tape, BfState.ptr_mk, BfState.tape_mk]
    norm_num
    exact gtIter_snd_lt hb k x y hy
  · ext j
    · simp only [BfState.wr_tape, BfState.mv_tape, BfState.mv_ptr,
        BfState.ptr_mk, BfState.tape_mk]
      by_cases hj3 : j = (3 : Int)
      · subst hj3
        norm_num
      · by_cases hj5 : j = (5 : Int)
        · subst hj5
          norm_num
        · by_cases hj7 : j = (7 : Int)
          · subst hj7
            norm_num
          · simp [hj3, hj5, hj7]
    · simp only [BfState.wr_ptr, BfState.mv_ptr, BfState.ptr_mk]
      norm_num
    · rfl

/-- Executing the emitted `gt_setup` sequence: with the five scratch cells
zero, TR1 and TR5 receive the value of `a`, TR3 receives the value of `b`,
and the pointer ends on TR5. -/
theorem exec_gtSetup {base : Nat} (da db : Nat) (h8a : 8 ≤ da) (h8b : 8 ≤ db)
    {s : BfState} {va vb : Nat} (hp : s.ptr = (da : Int))
    (hva : s.tape da = va) (hvab : va < base)
    (hvb : s.tape db = vb) (hvbb : vb < base)
    (hz : ∀ i : Int, 3 ≤ i → i ≤ 7 → s.tape i = 0) :
    Exec base (gtSetupP da db) s
      ⟨fun j => if j = 3 then va else if j = 5 then vb else if j = 7 then va
        else s.tape j, 7, s.out⟩ := by
  have hb0 : 0 < base := by omega
  have h3z := hz 3 (by norm_num) (by norm_num)
  have h4z := hz 4 (by norm_num) (by norm_num)
  have h5z := hz 5 (by norm_num) (by norm_num)
  have h6z := hz 6 (by norm_num) (by norm_num)
  have h7z := hz 7 (by norm_num) (by norm_num)
  have nda3 : ((da : Int)) ≠ 3 := by exact_mod_cast (show da ≠ 3 by omega)
  have nda5 : ((da : Int)) ≠ 5 := by exact_mod_cast (show da ≠ 5 by omega)
  have nda6 : ((da : Int)) ≠ 6 := by exact_mod_cast (show da ≠ 6 by omega)
  have nda7 : ((da : Int)) ≠ 7 := by exact_mod_cast (show da ≠ 7 by omega)
  have ndb3 : ((db : Int)) ≠ 3 := by exact_mod_cast (show db ≠ 3 by omega)
  have ndb5 : ((db : Int)) ≠ 5 := by exact_mod_cast (show db ≠ 5 by omega)
  have ndb6 : ((db : Int)) ≠ 6 := by exact_mod_cast (show db ≠ 6 by omega)
  have ndb7 : ((db : Int)) ≠ 7 := by exact_mod_cast (show db ≠ 7 by omega)
  unfold gtSetupP
  have cp1 := exec_cpP da 7 6 (by omega) (by omega) (by omega) (e := 0)
    hp hva hvab (by norm_num [h7z]) hb0 (by norm_num [h6z])
  have t1 := cp1.app (exec_ptrP da db (by simp))
  have nda4 : ((da : Int)) ≠ 4 := by exact_mod_cast (show da ≠ 4 by omega)
  have ndb4 : ((db : Int)) ≠ 4 := by exact_mod_cast (show db ≠ 4 by omega)
  have cp2 := t1.app (exec_cpP db 5 6 (by omega) (by omega) (by omega)
    (x := vb) (e := 0) (by simp)
    (by
      simp only [BfState.tape_mk, Nat.cast_ofNat]
      by_cases hdd : da = db
      · subst hdd
        simp only [if_pos rfl]
        rw [← hva]
        exact hvb
      · have hne : ((db : Int)) ≠ ((da : Int)) := by exact_mod_cast Ne.symm hdd
        simp [hne, ndb7, ndb6, hvb])
    hvbb
    (by
      simp only [BfState.tape_mk, Nat.cast_ofNat]
      simp [nda5.symm, h5z])
    hb0
    (by
      simp only [BfState.tape_mk, Nat.cast_ofNat]
      simp [nda6.symm, h6z]))
  have t2 := cp2.app (exec_ptrP db 7 (by simp))
  have cp3 := t2.app (exec_cpP 7 3 4 (by omega) (by omega) (by omega)
    (x := va) (e := 0) (by simp)
    (by
      simp only [BfState.tape_mk, Nat.cast_ofNat]
      simp [ndb7.symm, nda7.symm, Nat.mod_eq_of_lt hvab])
    hvab
    (by
      simp only [BfState.tape_mk, Nat.cast_ofNat]
      simp [ndb3.symm, nda3.symm, h3z])
    hb0
    (by
      simp only [BfState.tape_mk, Nat.cast_ofNat]
      simp [ndb4.symm, nda4.symm, h4z]))
  refine cp3.cast ?_
  ext j
  · simp only [BfState.tape_mk, Nat.cast_ofNat]
    by_cases hj3 : j = (3 : Int)
    · subst hj3
      simp [nda3.symm, ndb3.symm, Nat.mod_eq_of_lt hvab]
    · by_cases hj5 : j = (5 : Int)
      · subst hj5
        simp [nda5.symm, ndb5.symm, Nat.mod_eq_of_lt hvbb]
      · by_cases hj7 : j = (7 : Int)
        · subst hj7
          simp [nda7.symm, ndb7.symm, Nat.mod_eq_of_lt hvab]
        · by_cases hj4 : j = (4 : Int)
          · subst hj4
            simp [nda4.symm, ndb4.symm, h4z]
          · by_cases hj6 : j = (6 : Int)
            · subst hj6
              simp [nda6.symm, ndb6.symm, h6z]
            · by_cases hjdb : j = ((db : Nat) : Int)
              · subst hjdb
                simp [ndb3, ndb4, ndb5, ndb6, ndb7, hvb]
              · by_cases hjda : j = ((da : Nat) : Int)
                · subst hjda
                  simp [nda3, nda4, nda5, nda6, nda7, hjdb, hva]
                · simp [hj3, hj4, hj5, hj6, hj7, hjda, hjdb]
  · rfl
  · rfl

/-- Claim C1: for user registers a and b with values in [0, base), the
emitted compareGreaterThan sequence — `gt_setup` followed by the fixed
`gt` payload — run with the pointer on a's cell and the scratch cells
TR1–TR5 zero, deposits 1 into the result scratch cell TR1 when a's value
is strictly greater than b's value and 0 otherwise, and leaves the values
of a and b unchanged. -/
theorem claim_C1 (base : Nat) (a b : String) (da db : Nat)
    (ha : address_of a = Except.ok da) (hb : address_of b = Except.ok db)
    (hua : a ∈ URegisters) (hub : b ∈ URegisters)
    (va vb : Nat) (hvab : va < base) (hvbb : vb < base)
    (code : String) (hcode : BFGen.gt_setup a b = Except.ok code)
    (prog : List BfOp) (hprog : parseBF (code ++ BFGen.gt) = some prog)
    (s : BfState) (hp : s.ptr = (da : Int))
    (hva : s.tape da = va) (hvb : s.tape db = vb)
    (hz : ∀ i : Int, 3 ≤ i → i ≤ 7 → s.tape i = 0) :
    ∃ t : BfState, Exec base prog s t ∧
      t.tape 3 = (if vb < va then 1 else 0) ∧
      t.tape da = va ∧ t.tape db = vb := by
  obtain ⟨h8a, _⟩ := ureg_address hua ha
  obtain ⟨h8b, _⟩ := ureg_address hub hb
  rw [BFGen.gt_setup_eq ha hb] at hcode
  simp only [Except.ok.injEq] at hcode
  subst hcode
  rw [parseBF_of_scansTo ((scansTo_gtSetupStr da db).cat scansTo_gtStr)] at hprog
  simp only [Option.some.injEq] at hprog
  subst hprog
  have hb0 : 0 < base := by omega
  have h4z := hz 4 (by norm_num) (by norm_num)
  have h6z := hz 6 (by norm_num) (by norm_num)
  have nda3 : ((da : Int)) ≠ 3 := by exact_mod_cast (show da ≠ 3 by omega)
  have nda5 : ((da : Int)) ≠ 5 := by exact_mod_cast (show da ≠ 5 by omega)
  have nda7 : ((da : Int)) ≠ 7 := by exact_mod_cast (show da ≠ 7 by omega)
  have ndb3 : ((db : Int)) ≠ 3 := by exact_mod_cast (show db ≠ 3 by omega)
  have ndb5 : ((db : Int)) ≠ 5 := by exact_mod_cast (show db ≠ 5 by omega)
  have ndb7 : ((db : Int)) ≠ 7 := by exact_mod_cast (show db ≠ 7 by omega)
  have hsetup := exec_gtSetup da db h8a h8b hp hva hvab hvb hvbb hz
  have hrun := hsetup.app (exec_gtP hb0 hvab hvab hvbb (by simp)
    (by simp) (by simp [h4z]) (by simp) (by simp [h6z]) (by simp))
  refine ⟨_, hrun, ?_, ?_, ?_⟩
  · simp only [BfState.tape_mk]
    norm_num
    rw [gtIter_main hvab hvbb]
  · simp only [BfState.tape_mk]
    rw [if_neg nda3, if_neg nda5, if_neg nda7, if_neg nda3, if_neg nda5,
      if_neg nda7, hva]
  · simp only [BfState.tape_mk]
    rw [if_neg ndb3, if_neg ndb5, if_neg ndb7, if_neg ndb3, if_neg ndb5,
      if_neg ndb7, hvb]

/-- Witness for C1 at a = R1 (value 5), b = R2 (value 3), base 256: the
comparison leaves 1 in TR1 and both registers unchanged. -/
theorem claim_C1_witness :
    ∃ t : BfState, Exec 256 (gtSetupP 10 11 ++ gtP)
        ⟨fun j => if j = 10 then 5 else if j = 11 then 3 else 0, 10, []⟩ t ∧
      t.tape 3 = (if 3 < 5 then 1 else 0) ∧
      t.tape 10 = 5 ∧ t.tape 11 = 3 :=
  claim_C1 256 "R1" "R2" 10 11 rfl rfl (by decide) (by decide) 5 3 (by omega)
    (by omega) _ rfl _ rfl
    ⟨fun j => if j = 10 then 5 else if j = 11 then 3 else 0, 10, []⟩ rfl rfl rfl
    (by
      intro i h1 h2
      simp only [BfState.tape_mk]
      rw [if_neg (by omega), if_neg (by omega)])

/-! ## C10: the inner pointer contract of the instruction-compiler bodies -/

/-- The two-cell subtraction tail `[-<->]<` of the branch-register
subtraction sequences, as a program. -/
def subLoopP : List BfOp := [.loop [.minus, .mvL, .minus, .mvR], .mvL]

/-- Executing the subtraction loop `[-<->]` at TR4: cell 6 drains to zero
while cell 5 is decremented the same number of times (mod the base). -/
theorem exec_subLoop {base : Nat} (hb : 0 < base) :
    ∀ (m : Nat) {n : Nat} {s : BfState}, m < base → n < base →
      s.ptr = 6 → s.tape 6 = m → s.tape 5 = n →
      Exec base [.loop [.minus, .mvL, .minus, .mvR]] s
        ⟨fun j => if j = 5 then (n + m * (base - 1)) % base
          else if j = 6 then 0 else s.tape j, 6, s.out⟩ := by
  intro m
  induction m with
  | zero =>
    intro n s hm hn hp h6 h5
    refine (Exec.loopZero (by rw [BfState.cur_eq, hp, h6]) (Exec.done s)).cast ?_
    ext j
    · simp only [BfState.tape_mk]
      by_cases hj5 : j = (5 : Int)
      · subst hj5
        rw [if_pos rfl, Nat.mul_comm, Nat.mul_zero, Nat.add_zero,
          Nat.mod_eq_of_lt hn, h5]
      · by_cases hj6 : j = (6 : Int)
        · subst hj6
          rw [if_neg (by norm_num), if_pos rfl, h6]
        · rw [if_neg hj5, if_neg hj6]
    · simpa using hp
    · rfl
  | succ m ih =>
    intro n s hm hn hp h6 h5
    obtain ⟨tp, pt, ou⟩ := s
    simp only [BfState.ptr_mk, BfState.tape_mk, BfState.out_mk] at hp h6 h5 ⊢
    subst hp
    have hcur0 : (⟨tp, 6, ou⟩ : BfState).cur ≠ 0 := by
      rw [BfState.cur_eq, BfState.ptr_mk, BfState.tape_mk, h6]
      exact Nat.succ_ne_zero m
    refine Exec.loopStep hcur0
      (Exec.minus (Exec.mvL (Exec.minus (Exec.mvR (Exec.done _))))) ?_
    refine (ih (n := (n + (base - 1)) % base) (by omega) (Nat.mod_lt _ hb)
      (by norm_num [BfState.cur_eq, BfState.wr_tape, BfState.wr_ptr,
        BfState.mv_ptr, BfState.mv_tape, BfState.tape_mk, BfState.ptr_mk])
      (by
        norm_num [BfState.cur_eq, BfState.wr_tape, BfState.wr_ptr,
          BfState.mv_ptr, BfState.mv_tape, BfState.tape_mk, BfState.ptr_mk, h6]
        rw [decMod (by omega) (by omega)]
        omega)
      (by norm_num [BfState.cur_eq, BfState.wr_tape, BfState.wr_ptr,
        BfState.mv_ptr, BfState.mv_tape, BfState.tape_mk, BfState.ptr_mk, h5])).cast ?_
    ext j
    · simp only [BfState.tape_mk]
      by_cases hj5 : j = (5 : Int)
      · subst hj5
        rw [if_pos rfl, if_pos rfl, Nat.mod_add_mod]
        congr 1
        ring
      · by_cases hj6 : j = (6 : Int)
        · subst hj6
          rw [if_neg (by norm_num), if_pos rfl, if_neg (by norm_num), if_pos rfl]
        · rw [if_neg hj5, if_neg hj6, if_neg hj5, if_neg hj6]
          simp only [BfState.wr_tape, BfState.mv_ptr, BfState.mv_tape,
            BfState.wr_ptr, BfState.ptr_mk, BfState.tape_mk]
          norm_num [hj5, hj6]
    · rfl
    · rfl

/-- Executing the ADD transfer loop when destination and source coincide:
the drain cell TR1 empties while the register gains twice its content. -/
theorem exec_addSelfLoop {base : Nat} (hb : 0 < base) (d : Nat) (h8 : 8 ≤ d) :
    ∀ (x : Nat) {w : Nat} {s : BfState}, x < base → w < base →
      s.ptr = 3 → s.tape 3 = x → s.tape d = w →
      Exec base [.loop (cpBody 3 d d)] s
        ⟨fun j => if j = 3 then 0 else if j = (d : Int) then (w + 2 * x) % base
          else s.tape j, 3, s.out⟩ := by
  have nd3 : ((d : Int)) ≠ 3 := by exact_mod_cast (show d ≠ 3 by omega)
  intro x
  induction x with
  | zero =>
    intro w s hx hw hp h3 hd
    refine (Exec.loopZero (by rw [BfState.cur_eq, hp, h3]) (Exec.done s)).cast ?_
    ext j
    · simp only [BfState.tape_mk]
      by_cases hj3 : j = (3 : Int)
      · subst hj3
        rw [if_pos rfl, h3]
      · by_cases hjd : j = ((d : Nat) : Int)
        · subst hjd
          rw [if_neg nd3, if_pos rfl, Nat.mul_zero, Nat.add_zero,
            Nat.mod_eq_of_lt hw, hd]
        · rw [if_neg hj3, if_neg hjd]
    · simpa using hp
    · rfl
  | succ x ih =>
    intro w s hx hw hp h3 hd
    obtain ⟨tp, pt, ou⟩ := s
    simp only [BfState.ptr_mk, BfState.tape_mk, BfState.out_mk] at hp h3 hd ⊢
    subst hp
    have hcur0 : (⟨tp, 3, ou⟩ : BfState).cur ≠ 0 := by
      rw [BfState.cur_eq, BfState.ptr_mk, BfState.tape_mk, h3]
      exact Nat.succ_ne_zero x
    have hdec : (tp 3 + (base - 1)) % base = x := by
      rw [h3, decMod (by omega) (by omega)]
      omega
    have c1 := @exec_one_minus base (⟨tp, 3, ou⟩ : BfState)
    have c2 := c1.app (exec_ptrP 3 d (by simp))
    have c3 := c2.app (exec_one_plus _)
    have c4 := c3.app (exec_ptrP d d (by simp))
    have c5 := c4.app (exec_one_plus _)
    have c6 := c5.app (exec_ptrP d 3 (by simp))
    refine Exec.loopStep hcur0 c6 ?_
    refine (ih (w := (w + 2) % base) (by omega) (Nat.mod_lt _ hb)
      (by norm_num)
      (by
        simp only [BfState.cur_eq, BfState.wr_tape, BfState.wr_ptr,
          BfState.mv_ptr, BfState.mv_tape, BfState.tape_mk, BfState.ptr_mk]
        norm_num [nd3, Ne.symm nd3]
        exact hdec)
      (by
        simp only [BfState.cur_eq, BfState.wr_tape, BfState.wr_ptr,
          BfState.mv_ptr, BfState.mv_tape, BfState.tape_mk, BfState.ptr_mk]
        norm_num [nd3, Ne.symm nd3, hd])).cast ?_
    ext j
    · simp only [BfState.tape_mk]
      by_cases hj3 : j = (3 : Int)
      · subst hj3
        rw [if_pos rfl, if_pos rfl]
      · by_cases hjd : j = ((d : Nat) : Int)
        · subst hjd
          rw [if_neg nd3, if_pos rfl, if_neg nd3, if_pos rfl, Nat.mod_add_mod]
          congr 1
          ring
        · rw [if_neg hj3, if_neg hjd, if_neg hj3, if_neg hjd]
          simp only [BfState.wr_tape, BfState.mv_ptr, BfState.mv_tape,
            BfState.wr_ptr, BfState.ptr_mk, BfState.tape_mk]
          norm_num [hj3, hjd]
    · rfl
    · rfl

/-- The back-jump subtraction sequence of the register branch: PC to TR3,
the target register to TR4, then drain TR4 out of TR3. -/
def brSubBP (dv : Nat) : List BfOp :=
  ptrP 3 9 ++ cpP 9 5 7 ++ ptrP 9 dv ++ cpP dv 6 7 ++ ptrP dv 6 ++ subLoopP

/-- The forward-jump subtraction sequence of the register branch: PC to
TR4, the target register to TR3, then drain TR4 out of TR3. -/
def brSubFP (dv : Nat) : List BfOp :=
  ptrP 4 9 ++ cpP 9 6 7 ++ ptrP 9 dv ++ cpP dv 5 7 ++ ptrP dv 6 ++ subLoopP

/-- The body of the back-jump guard loop of the register branch. -/
def brLoopBBody (dv : Nat) : List BfOp :=
  brSubBP dv ++ [.plus] ++ mvP 5 0 ++ ptrP 5 3 ++ [.minus]

/-- The body of the forward-jump guard loop of the register branch. -/
def brLoopFBody (dv : Nat) : List BfOp :=
  brSubFP dv ++ mvP 5 1 ++ ptrP 5 4 ++ [.minus]

/-- The whole body emitted by `BFI.branch` for a register operand. -/
def brRegP (dv : Nat) : List BfOp :=
  ptrP 2 9 ++ gtSetupP 9 dv ++ gtP ++ cpP 3 5 6 ++ ptrP 3 5 ++ inotP 5 4 ++
    ptrP 5 3 ++ [.loop (brLoopBBody dv)] ++ [.mvR] ++ [.loop (brLoopFBody dv)] ++
    ptrP 4 2

/-- The string of `brSubBP`. -/
def brSubBStr (dv : Nat) : String :=
  ptrStr 3 9 ++ cpStr 9 5 7 ++ ptrStr 9 dv ++ cpStr dv 6 7 ++ ptrStr dv 6 ++
    "[-<->]<"

/-- The string of `brSubFP`. -/
def brSubFStr (dv : Nat) : String :=
  ptrStr 4 9 ++ cpStr 9 6 7 ++ ptrStr 9 dv ++ cpStr dv 5 7 ++ ptrStr dv 6 ++
    "[-<->]<"

/-- The string emitted by `BFI.branch` for a register operand resolved to
offset `dv`. -/
def brRegStr (dv : Nat) : String :=
  ptrStr 2 9 ++ gtSetupStr 9 dv ++ BFGen.gt ++ "\n" ++ cpStr 3 5 6 ++
    ptrStr 3 5 ++ inotStr 5 4 ++ ptrStr 5 3 ++ "\n" ++
    ("[" ++ brSubBStr dv ++ "\n+" ++ mvStr 5 0 ++ ptrStr 5 3 ++ "-]\n") ++
    (">[" ++ brSubFStr dv ++ mvStr 5 1 ++ ptrStr 5 4 ++ "-]") ++ ptrStr 4 2

/-- A scan target can be replaced by an equal program. -/
theorem scansTo_congrL {s : String} {p q : List BfOp}
    (h : ScansTo s p) (he : q = p) : ScansTo s q := by
  rw [he]
  exact h

theorem scansTo_subLoop : ScansTo "[-<->]<" subLoopP := by
  intro acc stk; rfl

theorem scansTo_nlPlus : ScansTo "\n+" [.plus] := by
  intro acc stk; rfl

theorem scansTo_brSubBStr (dv : Nat) : ScansTo (brSubBStr dv) (brSubBP dv) := by
  unfold brSubBStr brSubBP
  exact (((((scansTo_ptrStr 3 9).cat (scansTo_cpStr 9 5 7)).cat
    (scansTo_ptrStr 9 dv)).cat (scansTo_cpStr dv 6 7)).cat
    (scansTo_ptrStr dv 6)).cat scansTo_subLoop

theorem scansTo_brSubFStr (dv : Nat) : ScansTo (brSubFStr dv) (brSubFP dv) := by
  unfold brSubFStr brSubFP
  exact (((((scansTo_ptrStr 4 9).cat (scansTo_cpStr 9 6 7)).cat
    (scansTo_ptrStr 9 dv)).cat (scansTo_cpStr dv 5 7)).cat
    (scansTo_ptrStr dv 6)).cat scansTo_subLoop

theorem scansTo_brRegStr (dv : Nat) : ScansTo (brRegStr dv) (brRegP dv) := by
  unfold brRegStr brRegP
  have hloopB : ScansTo ("[" ++ (brSubBStr dv ++ "\n+" ++ mvStr 5 0 ++
      ptrStr 5 3 ++ "-") ++ "]") [.loop (brLoopBBody dv)] := by
    refine scansTo_loop ?_
    unfold brLoopBBody
    exact ((((scansTo_brSubBStr dv).cat scansTo_nlPlus).cat
      (scansTo_mvStr 5 0)).cat (scansTo_ptrStr 5 3)).cat scansTo_minus
  have hloopF : ScansTo ("[" ++ (brSubFStr dv ++ mvStr 5 1 ++
      ptrStr 5 4 ++ "-") ++ "]") [.loop (brLoopFBody dv)] := by
    refine scansTo_loop ?_
    unfold brLoopFBody
    exact (((scansTo_brSubFStr dv).cat (scansTo_mvStr 5 1)).cat
      (scansTo_ptrStr 5 4)).cat scansTo_minus
  have h := (((((((((((scansTo_ptrStr 2 9).cat (scansTo_gtSetupStr 9 dv)).cat
    scansTo_gtStr).cat scansTo_nl).cat (scansTo_cpStr 3 5 6)).cat
    (scansTo_ptrStr 3 5)).cat (scansTo_inotStr 5 4)).cat
    (scansTo_ptrStr 5 3)).cat scansTo_nl).cat
    (hloopB.cat scansTo_nl)).cat ((scansTo_right.cat hloopF))).cat
    (scansTo_ptrStr 4 2)
  refine ScansTo.congr (scansTo_congrL h (by simp [List.append_assoc])) ?_
  simp only [data_append, List.append_assoc]
  rfl

/-- Executing the back-jump subtraction sequence: from TR1, it computes
PC minus the register value (as iterated mod-base decrements) into TR3 and
ends on TR3, leaving PC and the register untouched. -/
theorem exec_brSubB {base : Nat} (hb1 : 1 < base) (dv : Nat) (h8 : 8 ≤ dv)
    {s : BfState} {p d : Nat} (hp : s.ptr = 3)
    (hP : s.tape 9 = p) (hpb : p < base) (hD : s.tape dv = d) (hdb : d < base)
    (h5 : s.tape 5 = 0) (h6 : s.tape 6 = 0) (h7 : s.tape 7 = 0) :
    Exec base (brSubBP dv) s
      ⟨fun j => if j = 5 then (p + d * (base - 1)) % base
        else if j = 6 then 0 else if j = 7 then 0 else s.tape j, 5, s.out⟩ := by
  have hb0 : 0 < base := by omega
  have nd5 : ((dv : Int)) ≠ 5 := by exact_mod_cast (show dv ≠ 5 by omega)
  have nd6 : ((dv : Int)) ≠ 6 := by exact_mod_cast (show dv ≠ 6 by omega)
  have nd7 : ((dv : Int)) ≠ 7 := by exact_mod_cast (show dv ≠ 7 by omega)
  unfold brSubBP subLoopP
  have t0 := @exec_ptrP base s 3 9 hp
  have c1 := t0.app (exec_cpP 9 5 7 (by omega) (by omega) (by omega)
    (x := p) (e := 0) (by simp)
    (by simp only [BfState.tape_mk, Nat.cast_ofNat]; exact hP) hpb
    (by simp only [BfState.tape_mk, Nat.cast_ofNat]; exact h5) hb0
    (by simp only [BfState.tape_mk, Nat.cast_ofNat]; exact h7))
  have t1 := c1.app (exec_ptrP 9 dv (by simp))
  have c2 := t1.app (exec_cpP dv 6 7 (by omega) (by omega) (by omega)
    (x := d) (e := 0) (by simp)
    (by
      simp only [BfState.tape_mk, Nat.cast_ofNat]
      by_cases hd9 : dv = 9
      · subst hd9
        push_cast
        rw [← hP]
        exact_mod_cast hD
      · have hne : ((dv : Int)) ≠ 9 := by exact_mod_cast hd9
        simp [hne, nd5, nd7, hD]) hdb
    (by
      simp only [BfState.tape_mk, Nat.cast_ofNat]
      simp [h6]) hb0
    (by simp only [BfState.tape_mk, Nat.cast_ofNat]; simp))
  have t2 := c2.app (exec_ptrP dv 6 (by simp))
  have sb := t2.app (Exec.step (exec_subLoop hb0 d (n := p) hdb hpb (by simp)
    (by
      simp only [BfState.tape_mk, Nat.cast_ofNat]
      simp [Ne.symm nd6, Nat.mod_eq_of_lt hdb])
    (by
      simp only [BfState.tape_mk, Nat.cast_ofNat]
      simp [Ne.symm nd5, Nat.mod_eq_of_lt hpb]))
    (exec_one_mvL _))
  refine sb.cast ?_
  ext j
  · simp only [BfState.tape_mk, BfState.mv_tape, Nat.cast_ofNat]
    by_cases hj5 : j = (5 : Int)
    · subst hj5
      simp [Ne.symm nd5]
    · by_cases hj6 : j = (6 : Int)
      · subst hj6
        simp [Ne.symm nd6]
      · by_cases hj7 : j = (7 : Int)
        · subst hj7
          simp [Ne.symm nd7]
        · by_cases hjdv : j = ((dv : Nat) : Int)
          · subst hjdv
            simp [hj5, hj6, hj7, nd5, nd7, hD]
          · by_cases hj9 : j = (9 : Int)
            · subst hj9
              simp [hj5, hj6, hj7, hjdv, Ne.symm hjdv, hP]
            · simp [hj5, hj6, hj7, hjdv, hj9]
  · simp only [BfState.mv_ptr, BfState.ptr_mk]
    norm_num
  · rfl

/-- Executing the forward-jump subtraction sequence: from TR2, it computes
the register value minus PC (as iterated mod-base decrements) into TR3 and
ends on TR3, leaving PC and the register untouched. -/
theorem exec_brSubF {base : Nat} (hb1 : 1 < base) (dv : Nat) (h8 : 8 ≤ dv)
    {s : BfState} {p d : Nat} (hp : s.ptr = 4)
    (hP : s.tape 9 = p) (hpb : p < base) (hD : s.tape dv = d) (hdb : d < base)
    (h5 : s.tape 5 = 0) (h6 : s.tape 6 = 0) (h7 : s.tape 7 = 0) :
    Exec base (brSubFP dv) s
      ⟨fun j => if j = 5 then (d + p * (base - 1)) % base
        else if j = 6 then 0 else if j = 7 then 0 else s.tape j, 5, s.out⟩ := by
  have hb0 : 0 < base := by omega
  have nd5 : ((dv : Int)) ≠ 5 := by exact_mod_cast (show dv ≠ 5 by omega)
  have nd6 : ((dv : Int)) ≠ 6 := by exact_mod_cast (show dv ≠ 6 by omega)
  have nd7 : ((dv : Int)) ≠ 7 := by exact_mod_cast (show dv ≠ 7 by omega)
  unfold brSubFP subLoopP
  have t0 := @exec_ptrP base s 4 9 hp
  have c1 := t0.app (exec_cpP 9 6 7 (by omega) (by omega) (by omega)
    (x := p) (e := 0) (by simp)
    (by simp only [BfState.tape_mk, Nat.cast_ofNat]; exact hP) hpb
    (by simp only [BfState.tape_mk, Nat.cast_ofNat]; exact h6) hb0
    (by simp only [BfState.tape_mk, Nat.cast_ofNat]; exact h7))
  have t1 := c1.app (exec_ptrP 9 dv (by simp))
  have c2 := t1.app (exec_cpP dv 5 7 (by omega) (by omega) (by omega)
    (x := d) (e := 0) (by simp)
    (by
      simp only [BfState.tape_mk, Nat.cast_ofNat]
      by_cases hd9 : dv = 9
      · subst hd9
        push_cast
        rw [← hP]
        exact_mod_cast hD
      · have hne : ((dv : Int)) ≠ 9 := by exact_mod_cast hd9
        simp [hne, nd6, nd7, hD]) hdb
    (by
      simp only [BfState.tape_mk, Nat.cast_ofNat]
      simp [h5]) hb0
    (by simp only [BfState.tape_mk, Nat.cast_ofNat]; simp))
  have t2 := c2.app (exec_ptrP dv 6 (by simp))
  have sb := t2.app (Exec.step (exec_subLoop hb0 p (n := d) hpb hdb (by simp)
    (by
      simp only [BfState.tape_mk, Nat.cast_ofNat]
      simp [Ne.symm nd6, Nat.mod_eq_of_lt hpb])
    (by
      simp only [BfState.tape_mk, Nat.cast_ofNat]
      simp [Ne.symm nd5, Nat.mod_eq_of_lt hdb]))
    (exec_one_mvL _))
  refine sb.cast ?_
  ext j
  · simp only [BfState.tape_mk, BfState.mv_tape, Nat.cast_ofNat]
    by_cases hj5 : j = (5 : Int)
    · subst hj5
      simp [Ne.symm nd5]
    · by_cases hj6 : j = (6 : Int)
      · subst hj6
        simp [Ne.symm nd6]
      · by_cases hj7 : j = (7 : Int)
        · subst hj7
          simp [Ne.symm nd7]
        · by_cases hjdv : j = ((dv : Nat) : Int)
          · subst hjdv
            simp [hj5, hj6, hj7, nd6, nd7, hD]
          · by_cases hj9 : j = (9 : Int)
            · subst hj9
              simp [hj5, hj6, hj7, hjdv, Ne.symm hjdv, hP]
            · simp [hj5, hj6, hj7, hjdv, hj9]
  · simp only [BfState.mv_ptr, BfState.ptr_mk]
    norm_num
  · rfl

/-- Executing the back-jump guard loop of the register branch: the guard
TR1 holds 0 or 1; when it is 1 the loop runs exactly once, adds
PC - dst + 1 (as a mod-base value) onto BJR and clears the guard. -/
theorem exec_brLoopB {base : Nat} (hb1 : 1 < base) (dv : Nat) (h8 : 8 ≤ dv)
    {s : BfState} {G p d g : Nat} (hG : G ≤ 1) (hp : s.ptr = 3)
    (h3 : s.tape 3 = G) (h5 : s.tape 5 = 0) (h6 : s.tape 6 = 0)
    (h7 : s.tape 7 = 0) (hP : s.tape 9 = p) (hpb : p < base)
    (hD : s.tape dv = d) (hdb : d < base) (h0 : s.tape 0 = g) (h0b : g < base) :
    Exec base [.loop (brLoopBBody dv)] s
      ⟨fun j => if j = 0 then
          (if G = 0 then g else (g + (p + d * (base - 1) + 1) % base) % base)
        else if j = 3 then 0 else if j = 5 then 0 else if j = 6 then 0
        else if j = 7 then 0 else s.tape j, 3, s.out⟩ := by
  have hb0 : 0 < base := by omega
  by_cases hG0 : G = 0
  · refine (Exec.loopZero (by rw [BfState.cur_eq, hp, h3, hG0]) (Exec.done s)).cast ?_
    ext j
    · simp only [BfState.tape_mk]
      by_cases hj0 : j = (0 : Int)
      · subst hj0
        rw [if_pos rfl, if_pos hG0, h0]
      · by_cases hj3 : j = (3 : Int)
        · subst hj3
          rw [if_neg (by norm_num), if_pos rfl, h3, hG0]
        · by_cases hj5 : j = (5 : Int)
          · subst hj5
            rw [if_neg (by norm_num), if_neg (by norm_num), if_pos rfl, h5]
          · by_cases hj6 : j = (6 : Int)
            · subst hj6
              rw [if_neg (by norm_num), if_neg (by norm_num),
                if_neg (by norm_num), if_pos rfl, h6]
            · by_cases hj7 : j = (7 : Int)
              · subst hj7
                rw [if_neg (by norm_num), if_neg (by norm_num),
                  if_neg (by norm_num), if_neg (by norm_num), if_pos rfl, h7]
              · rw [if_neg hj0, if_neg hj3, if_neg hj5, if_neg hj6, if_neg hj7]
    · simpa using hp
    · rfl
  · have hG1 : G = 1 := by omega
    have hcur : s.cur ≠ 0 := by rw [BfState.cur_eq, hp, h3]; exact hG0
    have b1 := exec_brSubB hb1 dv h8 hp hP hpb hD hdb h5 h6 h7
    have b2 := b1.app (@exec_one_plus base _)
    have b3 := b2.app (exec_mvP 5 0 (by omega)
      (x := (p + d * (base - 1) + 1) % base) (e := g) (by simp)
      (by
        simp only [BfState.wr_tape, BfState.wr_ptr, BfState.tape_mk,
          BfState.ptr_mk, BfState.cur_eq]
        norm_num [Nat.mod_add_mod]) (Nat.mod_lt _ hb0)
      (by
        simp only [BfState.wr_tape, BfState.wr_ptr, BfState.tape_mk,
          BfState.ptr_mk]
        norm_num [h0]) h0b)
    have b4 := b3.app (exec_ptrP 5 3 (by simp))
    have b5 := b4.app (@exec_one_minus base _)
    refine Exec.loopStep hcur b5 ?_
    refine (Exec.loopZero ?_ (Exec.done _)).cast ?_
    · simp only [BfState.cur_eq, BfState.wr_tape, BfState.wr_ptr,
        BfState.mv_ptr, BfState.mv_tape, BfState.tape_mk, BfState.ptr_mk]
      norm_num [h3, hG1]
      rw [show 1 + (base - 1) = base from by omega, Nat.mod_self]
    · ext j
      · simp only [BfState.cur_eq, BfState.wr_tape, BfState.wr_ptr,
          BfState.mv_ptr, BfState.mv_tape, BfState.tape_mk, BfState.ptr_mk]
        by_cases hj0 : j = (0 : Int)
        · subst hj0
          norm_num [if_neg hG0, h3, hG1, Nat.mod_add_mod]
        · by_cases hj3 : j = (3 : Int)
          · subst hj3
            norm_num [h3, hG1]
            rw [show 1 + (base - 1) = base from by omega, Nat.mod_self]
          · by_cases hj5 : j = (5 : Int)
            · subst hj5
              norm_num [hj0]
            · by_cases hj6 : j = (6 : Int)
              · subst hj6
                norm_num [hj0]
              · by_cases hj7 : j = (7 : Int)
                · subst hj7
                  norm_num [hj0]
                · norm_num [hj0, hj3, hj5, hj6, hj7]
      · simp
      · rfl

/-- Executing the forward-jump guard loop of the register branch: the
guard TR2 holds 0 or 1; when it is 1 the loop runs exactly once, adds
dst - PC (as a mod-base value) onto FJR and clears the guard. -/
theorem exec_brLoopF {base : Nat} (hb1 : 1 < base) (dv : Nat) (h8 : 8 ≤ dv)
    {s : BfState} {N p d g : Nat} (hN : N ≤ 1) (hp : s.ptr = 4)
    (h4 : s.tape 4 = N) (h5 : s.tape 5 = 0) (h6 : s.tape 6 = 0)
    (h7 : s.tape 7 = 0) (hP : s.tape 9 = p) (hpb : p < base)
    (hD : s.tape dv = d) (hdb : d < base) (h1 : s.tape 1 = g) (h1b : g < base) :
    Exec base [.loop (brLoopFBody dv)] s
      ⟨fun j => if j = 1 then
          (if N = 0 then g else (g + (d + p * (base - 1)) % base) % base)
        else if j = 4 then 0 else if j = 5 then 0 else if j = 6 then 0
        else if j = 7 then 0 else s.tape j, 4, s.out⟩ := by
  have hb0 : 0 < base := by omega
  by_cases hN0 : N = 0
  · refine (Exec.loopZero (by rw [BfState.cur_eq, hp, h4, hN0]) (Exec.done s)).cast ?_
    ext j
    · simp only [BfState.tape_mk]
      by_cases hj1 : j = (1 : Int)
      · subst hj1
        rw [if_pos rfl, if_pos hN0, h1]
      · by_cases hj4 : j = (4 : Int)
        · subst hj4
          rw [if_neg (by norm_num), if_pos rfl, h4, hN0]
        · by_cases hj5 : j = (5 : Int)
          · subst hj5
            rw [if_neg (by norm_num), if_neg (by norm_num), if_pos rfl, h5]
          · by_cases hj6 : j = (6 : Int)
            · subst hj6
              rw [if_neg (by norm_num), if_neg (by norm_num),
                if_neg (by norm_num), if_pos rfl, h6]
            · by_cases hj7 : j = (7 : Int)
              · subst hj7
                rw [if_neg (by norm_num), if_neg (by norm_num),
                  if_neg (by norm_num), if_neg (by norm_num), if_pos rfl, h7]
              · rw [if_neg hj1, if_neg hj4, if_neg hj5, if_neg hj6, if_neg hj7]
    · simpa using hp
    · rfl
  · have hN1 : N = 1 := by omega
    have hcur : s.cur ≠ 0 := by rw [BfState.cur_eq, hp, h4]; exact hN0
    have b1 := exec_brSubF hb1 dv h8 hp hP hpb hD hdb h5 h6 h7
    have b2 := b1.app (exec_mvP 5 1 (by omega)
      (x := (d + p * (base - 1)) % base) (e := g) (by simp)
      (by simp) (Nat.mod_lt _ hb0)
      (by
        simp only [BfState.tape_mk]
        norm_num [h1]) h1b)
    have b3 := b2.app (exec_ptrP 5 4 (by simp))
    have b4 := b3.app (@exec_one_minus base _)
    refine Exec.loopStep hcur b4 ?_
    refine (Exec.loopZero ?_ (Exec.done _)).cast ?_
    · simp only [BfState.cur_eq, BfState.wr_tape, BfState.wr_ptr,
        BfState.mv_ptr, BfState.mv_tape, BfState.tape_mk, BfState.ptr_mk]
      norm_num [h4, hN1]
      rw [show 1 + (base - 1) = base from by omega, Nat.mod_self]
    · ext j
      · simp only [BfState.cur_eq, BfState.wr_tape, BfState.wr_ptr,
          BfState.mv_ptr, BfState.mv_tape, BfState.tape_mk, BfState.ptr_mk]
        by_cases hj1 : j = (1 : Int)
        · subst hj1
          norm_num [if_neg hN0, h4, hN1]
        · by_cases hj4 : j = (4 : Int)
          · subst hj4
            norm_num [h4, hN1]
            rw [show 1 + (base - 1) = base from by omega, Nat.mod_self]
          · by_cases hj5 : j = (5 : Int)
            · subst hj5
              norm_num [hj1]
            · by_cases hj6 : j = (6 : Int)
              · subst hj6
                norm_num [hj1]
              · by_cases hj7 : j = (7 : Int)
                · subst hj7
                  norm_num [hj1]
                · norm_num [hj1, hj4, hj5, hj6, hj7]
      · simp
      · rfl

/-- Executing the whole register-branch body: started on IC with the five
scratch cells zero, it terminates and returns the pointer to IC without
touching the output. -/
theorem exec_brReg {base : Nat} (hb1 : 1 < base) (dv : Nat) (h8 : 8 ≤ dv)
    {s : BfState} {p d g0 g1 : Nat} (hp : s.ptr = 2)
    (hP : s.tape 9 = p) (hpb : p < base) (hD : s.tape dv = d) (hdb : d < base)
    (h0 : s.tape 0 = g0) (h0b : g0 < base) (h1 : s.tape 1 = g1) (h1b : g1 < base)
    (hz : ∀ i : Int, 3 ≤ i → i ≤ 7 → s.tape i = 0) :
    ∃ t : BfState, Exec base (brRegP dv) s t ∧ t.ptr = 2 ∧ t.out = s.out := by
  have hb0 : 0 < base := by omega
  have h3z := hz 3 (by norm_num) (by norm_num)
  have h4z := hz 4 (by norm_num) (by norm_num)
  have h5z := hz 5 (by norm_num) (by norm_num)
  have h6z := hz 6 (by norm_num) (by norm_num)
  have h7z := hz 7 (by norm_num) (by norm_num)
  have nd0 : ((dv : Int)) ≠ 0 := by exact_mod_cast (show dv ≠ 0 by omega)
  have nd3 : ((dv : Int)) ≠ 3 := by exact_mod_cast (show dv ≠ 3 by omega)
  have nd4 : ((dv : Int)) ≠ 4 := by exact_mod_cast (show dv ≠ 4 by omega)
  have nd5 : ((dv : Int)) ≠ 5 := by exact_mod_cast (show dv ≠ 5 by omega)
  have nd6 : ((dv : Int)) ≠ 6 := by exact_mod_cast (show dv ≠ 6 by omega)
  have nd7 : ((dv : Int)) ≠ 7 := by exact_mod_cast (show dv ≠ 7 by omega)
  have hGle : (gtIter base p p d).1 ≤ 1 := by
    rw [gtIter_main hpb hdb]
    split <;> omega
  have hGb : (gtIter base p p d).1 < base := by omega
  unfold brRegP
  have t0 := @exec_ptrP base s 2 9 hp
  have c1 := t0.app (exec_gtSetup 9 dv (by omega) h8 (by simp)
    (by simp only [BfState.tape_mk]; exact hP) hpb
    (by simp only [BfState.tape_mk]; exact hD) hdb
    (by
      intro i hi1 hi2
      simp only [BfState.tape_mk]
      exact hz i hi1 hi2))
  have c2 := c1.app (exec_gtP hb0 hpb hpb hdb (by simp)
    (by simp)
    (by simp only [BfState.tape_mk]; norm_num [h4z])
    (by simp)
    (by simp only [BfState.tape_mk]; norm_num [h6z])
    (by simp))
  have c3 := c2.app (exec_cpP 3 5 6 (by omega) (by omega) (by omega)
    (x := (gtIter base p p d).1) (e := 0) (by simp)
    (by simp) hGb
    (by simp) hb0
    (by simp only [BfState.tape_mk, Nat.cast_ofNat]; norm_num [h6z]))
  have c4 := c3.app (exec_ptrP 3 5 (by simp))
  have c5 := c4.app (exec_inotP 5 4 (by omega)
    (x := (gtIter base p p d).1)
    (by simp)
    (by simp only [BfState.tape_mk, Nat.cast_ofNat]
        norm_num [Nat.mod_eq_of_lt hGb]) hGb
    (by simp only [BfState.tape_mk, Nat.cast_ofNat]; norm_num [h4z]) hb1)
  have c6 := c5.app (exec_ptrP 5 3 (by simp))
  have c7 := c6.app (exec_brLoopB hb1 dv h8 hGle (by simp)
    (by simp only [BfState.tape_mk, Nat.cast_ofNat]; norm_num)
    (by simp)
    (by simp only [BfState.tape_mk, Nat.cast_ofNat]; norm_num [h6z])
    (by simp only [BfState.tape_mk, Nat.cast_ofNat]; norm_num)
    (by simp only [BfState.tape_mk, Nat.cast_ofNat]; norm_num [hP]) hpb
    (by
      simp only [BfState.tape_mk, Nat.cast_ofNat]
      norm_num [nd3, nd4, nd5, nd6, nd7, hD]) hdb
    (by simp only [BfState.tape_mk, Nat.cast_ofNat]; norm_num [h0]) h0b)
  have c8 := c7.app (@exec_one_mvR base _)
  have c9 := c8.app (exec_brLoopF hb1 dv h8
    (N := if (gtIter base p p d).1 = 0 then 1 else 0)
    (by split <;> omega)
    (by simp only [BfState.mv_ptr, BfState.ptr_mk]; norm_num)
    (by simp only [BfState.mv_tape, BfState.tape_mk, Nat.cast_ofNat]; norm_num)
    (by simp only [BfState.mv_tape, BfState.tape_mk, Nat.cast_ofNat]; norm_num)
    (by simp only [BfState.mv_tape, BfState.tape_mk, Nat.cast_ofNat]; norm_num)
    (by simp only [BfState.mv_tape, BfState.tape_mk, Nat.cast_ofNat]; norm_num)
    (by simp only [BfState.mv_tape, BfState.tape_mk, Nat.cast_ofNat]; norm_num [hP]) hpb
    (by
      simp only [BfState.mv_tape, BfState.tape_mk, Nat.cast_ofNat]
      norm_num [nd0, nd3, nd4, nd5, nd6, nd7, hD]) hdb
    (by simp only [BfState.mv_tape, BfState.tape_mk, Nat.cast_ofNat]; norm_num [h1]) h1b)
  have c10 := c9.app (exec_ptrP 4 2 (by simp))
  exact ⟨_, c10, by norm_num, rfl⟩

/-- An execution statement transports along an equality of programs. -/
theorem Exec.congrP {base : Nat} {p q : List BfOp} {s t : BfState}
    (h : Exec base p s t) (he : q = p) : Exec base q s t := he ▸ h

/-- The body emitted by `BFI.add` for a register source. -/
def addRefP (ds dd : Nat) : List BfOp :=
  ptrP 2 ds ++ mvP ds 3 ++ ptrP ds 3 ++ [.loop (cpBody 3 ds dd)] ++ ptrP 3 2

theorem scansTo_addRefStr (ds dd : Nat) :
    ScansTo (ptrStr 2 ds ++ mvStr ds 3 ++ ptrStr ds 3 ++
      ("[-" ++ ptrStr 3 ds ++ "+" ++ ptrStr ds dd ++ "+" ++ ptrStr dd 3 ++ "]") ++
      ptrStr 3 2) (addRefP ds dd) := by
  unfold addRefP
  have hloop : ScansTo ("[" ++ ("-" ++ ptrStr 3 ds ++ "+" ++ ptrStr ds dd ++
      "+" ++ ptrStr dd 3) ++ "]") [.loop (cpBody 3 ds dd)] :=
    scansTo_loop (show ScansTo _ (cpBody 3 ds dd) from
      ((((scansTo_minus.cat (scansTo_ptrStr 3 ds)).cat scansTo_plus).cat
        (scansTo_ptrStr ds dd)).cat scansTo_plus).cat (scansTo_ptrStr dd 3))
  have h := ((((scansTo_ptrStr 2 ds).cat (scansTo_mvStr ds 3)).cat
    (scansTo_ptrStr ds 3)).cat hloop).cat (scansTo_ptrStr 3 2)
  refine ScansTo.congr h ?_
  simp only [data_append, List.append_assoc]
  rfl

/-- Executing the register-source ADD body: started on IC with the drain
cell TR1 zero, it terminates back on IC. -/
theorem exec_addRef {base : Nat} (hb0 : 0 < base) (ds dd : Nat)
    (h8s : 8 ≤ ds) (h8d : 8 ≤ dd) {s : BfState} (hp : s.ptr = 2)
    (hxb : s.tape ds < base) (hyb : s.tape dd < base) (h3 : s.tape 3 = 0) :
    ∃ t : BfState, Exec base (addRefP ds dd) s t ∧ t.ptr = 2 ∧ t.out = s.out := by
  have ns3 : ((ds : Int)) ≠ 3 := by exact_mod_cast (show ds ≠ 3 by omega)
  unfold addRefP
  have t0 := @exec_ptrP base s 2 ds hp
  have m1 := t0.app (exec_mvP ds 3 (by omega) (x := s.tape ds) (e := 0)
    (by simp) (by simp) hxb
    (by simp only [BfState.tape_mk]; exact h3) hb0)
  have p2 := m1.app (exec_ptrP ds 3 (by simp))
  by_cases hdd : ds = dd
  · subst hdd
    have L := p2.app (exec_addSelfLoop hb0 ds (by omega) (s.tape ds)
      (w := 0) hxb hb0 (by simp)
      (by
        simp only [BfState.tape_mk, Nat.cast_ofNat]
        simp [Ne.symm ns3, Nat.mod_eq_of_lt hxb])
      (by simp))
    have f := L.app (exec_ptrP 3 2 (by simp))
    exact ⟨_, f, by norm_num, rfl⟩
  · have nsd : ((ds : Int)) ≠ ((dd : Int)) := by exact_mod_cast hdd
    have nd3 : ((dd : Int)) ≠ 3 := by exact_mod_cast (show dd ≠ 3 by omega)
    have L := p2.app (exec_cpLoop 3 ds dd (by omega) hdd (by omega)
      (x := s.tape ds) (e := 0) (g := s.tape dd) (by simp)
      (by
        simp only [BfState.tape_mk, Nat.cast_ofNat]
        simp [Ne.symm ns3, Nat.mod_eq_of_lt hxb]) hxb
      (by simp) hb0
      (by
        simp only [BfState.tape_mk, Nat.cast_ofNat]
        simp [Ne.symm nsd, nd3]) hyb)
    have f := L.app (exec_ptrP 3 2 (by simp))
    exact ⟨_, f, by norm_num, rfl⟩

/-- The body emitted by `BFI.gt` between offsets. -/
def gtBodyP (da db : Nat) : List BfOp :=
  ptrP 2 8 ++ [.loop [.minus]] ++ ptrP 8 2 ++ ptrP 2 da ++ gtSetupP da db ++
    gtP ++ mvP 3 8 ++ ptrP 3 2

theorem scansTo_gtBodyStr (da db : Nat) :
    ScansTo ((ptrStr 2 8 ++ "[-]" ++ ptrStr 8 2) ++ ptrStr 2 da ++ "\n" ++
      gtSetupStr da db ++ "\n" ++ BFGen.gt ++ "\n" ++ mvStr 3 8 ++ "\n" ++
      ptrStr 3 2) (gtBodyP da db) := by
  unfold gtBodyP
  have h := (((((((((((scansTo_ptrStr 2 8).cat scansTo_clr).cat
    (scansTo_ptrStr 8 2)).cat (scansTo_ptrStr 2 da)).cat scansTo_nl).cat
    (scansTo_gtSetupStr da db)).cat scansTo_nl).cat scansTo_gtStr).cat
    scansTo_nl).cat (scansTo_mvStr 3 8)).cat scansTo_nl).cat
    (scansTo_ptrStr 3 2)
  refine (scansTo_congrL (ScansTo.congr h ?_) ?_)
  · simp only [data_append, List.append_assoc]
  · simp [List.append_assoc]

/-- Executing the tail of the GT body after the condition cell was
cleared: compare, store the outcome in CRR, return to IC. -/
theorem exec_gtTail {base : Nat} (hb1 : 1 < base) (da db : Nat)
    (h8a : 8 ≤ da) (h8b : 8 ≤ db) {s : BfState} {u w : Nat}
    (hp : s.ptr = 2) (hva : s.tape da = u) (hvab : u < base)
    (hvb : s.tape db = w) (hvbb : w < base) (h8z : s.tape 8 = 0)
    (hz : ∀ i : Int, 3 ≤ i → i ≤ 7 → s.tape i = 0) :
    ∃ t : BfState,
      Exec base (ptrP 2 da ++ gtSetupP da db ++ gtP ++ mvP 3 8 ++ ptrP 3 2) s t ∧
      t.ptr = 2 ∧ t.out = s.out := by
  have hb0 : 0 < base := by omega
  have h4z := hz 4 (by norm_num) (by norm_num)
  have h6z := hz 6 (by norm_num) (by norm_num)
  have hGb : (gtIter base u u w).1 < base := by
    rw [gtIter_main hvab hvbb]
    split <;> omega
  have t0 := @exec_ptrP base s 2 da hp
  have c1 := t0.app (exec_gtSetup da db h8a h8b (by simp)
    (by simp only [BfState.tape_mk]; exact hva) hvab
    (by simp only [BfState.tape_mk]; exact hvb) hvbb
    (by
      intro i hi1 hi2
      simp only [BfState.tape_mk]
      exact hz i hi1 hi2))
  have c2 := c1.app (exec_gtP hb0 hvab hvab hvbb (by simp)
    (by simp)
    (by simp only [BfState.tape_mk]; norm_num [h4z])
    (by simp)
    (by simp only [BfState.tape_mk]; norm_num [h6z])
    (by simp))
  have c3 := c2.app (exec_mvP 3 8 (by omega)
    (x := (gtIter base u u w).1) (e := 0) (by simp)
    (by simp) hGb
    (by simp only [BfState.tape_mk, Nat.cast_ofNat]; norm_num [h8z]) hb0)
  have c4 := c3.app (exec_ptrP 3 2 (by simp))
  exact ⟨_, c4, by norm_num, rfl⟩

/-- Executing the whole GT body: clear CRR, compare, return to IC. -/
theorem exec_gtBody {base : Nat} (hb1 : 1 < base) (da db : Nat)
    (h8a : 8 ≤ da) (h8b : 8 ≤ db) {s : BfState} (hp : s.ptr = 2)
    (hda : s.tape da < base) (hdb : s.tape db < base)
    (hz : ∀ i : Int, 3 ≤ i → i ≤ 7 → s.tape i = 0) :
    ∃ t : BfState, Exec base (gtBodyP da db) s t ∧ t.ptr = 2 ∧ t.out = s.out := by
  have hb0 : 0 < base := by omega
  have t0 := @exec_ptrP base s 2 8 hp
  have c1 := t0.app (exec_clrP hb0 _)
  have c2 := c1.app (exec_ptrP 8 2 (by simp))
  obtain ⟨t, ht, hptr, hout⟩ := exec_gtTail hb1 da db h8a h8b
    (u := if ((da : Int)) = ((8 : Nat) : Int) then 0 else s.tape da)
    (w := if ((db : Int)) = ((8 : Nat) : Int) then 0 else s.tape db)
    (s := ⟨fun j => if j = ((8 : Nat) : Int) then 0 else s.tape j,
      ((2 : Nat) : Int), s.out⟩)
    rfl
    rfl
    (by split <;> omega)
    rfl
    (by split <;> omega)
    (by simp)
    (by
      intro i hi1 hi2
      simp only [BfState.tape_mk]
      have hne : i ≠ ((8 : Nat) : Int) := by push_cast; omega
      rw [if_neg hne]
      exact hz i hi1 hi2)
  refine ⟨t, Exec.congrP (c2.app ht) ?_, hptr, hout⟩
  unfold gtBodyP
  simp [List.append_assoc]

/-- Claim C10: every instruction compiler's emitted body obeys the inner
pointer contract — run with the tape pointer on the condition-intake cell
IC (offset 2), it terminates with the pointer back on IC.  Stated for each
compiler path: register ADD, constant ADD, MOV, OUT, GT, branch to a
label (both directions) and branch to a register. -/
theorem claim_C10 (base : Nat) (hb1 : 1 < base) (labels : LabelMap) (pc : Nat) :
    (∀ (i : Instruction) (dst src : String) (ot : OperandType) (dd ds : Nat),
      i.operands = [⟨dst, ot⟩, ⟨src, .REFERENCE⟩] →
      address_of dst = Except.ok dd → address_of src = Except.ok ds →
      dst ∈ URegisters → src ∈ URegisters →
      ∀ code, BFI.add i labels pc = Except.ok code →
      ∀ prog, parseBF code = some prog →
      ∀ s : BfState, s.ptr = 2 → s.tape ds < base → s.tape dd < base →
        s.tape 3 = 0 →
        ∃ t, Exec base prog s t ∧ t.ptr = 2 ∧ t.out = s.out) ∧
    (∀ (i : Instruction) (dst v : String) (ot : OperandType) (dd n : Nat),
      i.operands = [⟨dst, ot⟩, ⟨v, .CONSTANT⟩] →
      address_of dst = Except.ok dd → dst ∈ URegisters →
      pyInt v = Except.ok n →
      ∀ code, BFI.add i labels pc = Except.ok code →
      ∀ prog, parseBF code = some prog →
      ∀ s : BfState, s.ptr = 2 → s.tape dd < base →
        ∃ t, Exec base prog s t ∧ t.ptr = 2 ∧ t.out = s.out) ∧
    (∀ (i : Instruction) (dst v : String) (ot : OperandType) (dd n : Nat),
      i.operands = [⟨dst, ot⟩, ⟨v, .CONSTANT⟩] →
      address_of dst = Except.ok dd → dst ∈ URegisters →
      pyInt v = Except.ok n →
      ∀ code, BFI.mov i labels pc = Except.ok code →
      ∀ prog, parseBF code = some prog →
      ∀ s : BfState, s.ptr = 2 → s.tape dd < base →
        ∃ t, Exec base prog s t ∧ t.ptr = 2 ∧ t.out = s.out) ∧
    (∀ (i : Instruction) (dst : String) (ot : OperandType) (dd : Nat),
      i.operands = [⟨dst, ot⟩] →
      address_of dst = Except.ok dd → dst ∈ URegisters →
      ∀ code, BFI.out i labels pc = Except.ok code →
      ∀ prog, parseBF code = some prog →
      ∀ s : BfState, s.ptr = 2 →
        ∃ t, Exec base prog s t ∧ t.ptr = 2) ∧
    (∀ (i : Instruction) (av bv : String) (ta tb : OperandType)
        (rest : List Operand) (da db : Nat),
      i.operands = ⟨av, ta⟩ :: ⟨bv, tb⟩ :: rest →
      address_of av = Except.ok da → address_of bv = Except.ok db →
      av ∈ URegisters → bv ∈ URegisters →
      ∀ code, BFI.gt i labels pc = Except.ok code →
      ∀ prog, parseBF code = some prog →
      ∀ s : BfState, s.ptr = 2 → s.tape da < base → s.tape db < base →
        (∀ j : Int, 3 ≤ j → j ≤ 7 → s.tape j = 0) →
        ∃ t, Exec base prog s t ∧ t.ptr = 2 ∧ t.out = s.out) ∧
    (∀ (i : Instruction) (ov : String) (ot : OperandType) (lbl : Label),
      i.operands = [⟨ov, ot⟩] → ov ∉ URegisters →
      dictGet labels ov = some lbl →
      ∀ code, BFI.branch i labels pc = Except.ok code →
      ∀ prog, parseBF code = some prog →
      ∀ s : BfState, s.ptr = 2 → s.tape 0 < base → s.tape 1 < base →
        ∃ t, Exec base prog s t ∧ t.ptr = 2 ∧ t.out = s.out) ∧
    (∀ (i : Instruction) (rv : String) (ot : OperandType) (dv : Nat),
      i.operands = [⟨rv, ot⟩] → rv ∈ URegisters →
      address_of rv = Except.ok dv →
      ∀ code, BFI.branch i labels pc = Except.ok code →
      ∀ prog, parseBF code = some prog →
      ∀ s : BfState, s.ptr = 2 → s.tape 9 < base → s.tape dv < base →
        s.tape 0 < base → s.tape 1 < base →
        (∀ j : Int, 3 ≤ j → j ≤ 7 → s.tape j = 0) →
        ∃ t, Exec base prog s t ∧ t.ptr = 2 ∧ t.out = s.out) := by
  have hb0 : 0 < base := by omega
  refine ⟨?_, ?_, ?_, ?_, ?_, ?_, ?_⟩
  · -- ADD with a register source
    intro i dst src ot dd ds hops hdd hds hUd hUs code hcode prog hprog
      s hp hsb hdb2 h3
    simp only [BFI.add, hops, check_ureg, if_pos hUd, if_pos hUs, ok_bind,
      BFGen.ptr_eq addr_TR1 hds, BFGen.ptr_eq hds hdd,
      BFGen.ptr_eq hdd addr_TR1, BFGen.ptr_eq addr_IC hds,
      BFGen.mv_eq hds addr_TR1, BFGen.ptr_eq hds addr_TR1,
      BFGen.ptr_eq addr_TR1 addr_IC, pure_ok, Except.ok.injEq] at hcode
    have hpp : parseBF code = some (addRefP ds dd) := by
      rw [← hcode]
      exact parseBF_of_scansTo (scansTo_addRefStr ds dd)
    rw [hprog] at hpp
    simp only [Option.some.injEq] at hpp
    subst hpp
    exact exec_addRef hb0 ds dd (ureg_address hUs hds).1 (ureg_address hUd hdd).1
      hp hsb hdb2 h3
  · -- ADD with a constant
    intro i dst v ot dd n hops hdd hUd hpy code hcode prog hprog s hp hdb2
    simp only [BFI.add, hops, check_ureg, if_pos hUd, ok_bind,
      BFGen.ptr_eq addr_IC hdd, hpy, BFGen.ptr_eq hdd addr_IC,
      pure_ok, Except.ok.injEq] at hcode
    have hpp : parseBF code =
        some (ptrP 2 dd ++ List.replicate n .plus ++ ptrP dd 2) := by
      rw [← hcode]
      exact parseBF_of_scansTo (((scansTo_ptrStr 2 dd).cat
        (scansTo_pluses n)).cat (scansTo_ptrStr dd 2))
    rw [hprog] at hpp
    simp only [Option.some.injEq] at hpp
    subst hpp
    have t0 := @exec_ptrP base s 2 dd hp
    have p1 := t0.app (exec_plusN n _
      (by rw [BfState.cur_eq]; simp only [BfState.tape_mk, BfState.ptr_mk]; exact hdb2))
    have p2 := p1.app (exec_ptrP dd 2 (by simp))
    exact ⟨_, p2, by norm_num, rfl⟩
  · -- MOV
    intro i dst v ot dd n hops hdd hUd hpy code hcode prog hprog s hp hdb2
    simp only [BFI.mov, hops, check_ureg, if_pos hUd, ok_bind, ne_eq,
      not_true, if_false, BFGen.ptr_eq addr_IC hdd, hpy,
      BFGen.ptr_eq hdd addr_IC, pure_ok, Except.ok.injEq] at hcode
    have hpp : parseBF code =
        some (ptrP 2 dd ++ [.loop [.minus]] ++ List.replicate n .plus ++
          ptrP dd 2) := by
      rw [← hcode]
      exact parseBF_of_scansTo ((((scansTo_ptrStr 2 dd).cat scansTo_clr).cat
        (scansTo_pluses n)).cat (scansTo_ptrStr dd 2))
    rw [hprog] at hpp
    simp only [Option.some.injEq] at hpp
    subst hpp
    have t0 := @exec_ptrP base s 2 dd hp
    have c1 := t0.app (exec_clrP hb0 _)
    have p1 := c1.app (exec_plusN n _ (by rw [BfState.wr_cur]; omega))
    have p2 := p1.app (exec_ptrP dd 2 (by simp))
    exact ⟨_, p2, by norm_num, rfl⟩
  · -- OUT
    intro i dst ot dd hops hdd hUd code hcode prog hprog s hp
    simp only [BFI.out, hops, check_ureg, if_pos hUd, ok_bind,
      BFGen.ptr_eq addr_IC hdd, BFGen.ptr_eq hdd addr_IC,
      pure_ok, Except.ok.injEq] at hcode
    have hpp : parseBF code = some (ptrP 2 dd ++ [.dot] ++ ptrP dd 2) := by
      rw [← hcode]
      exact parseBF_of_scansTo (((scansTo_ptrStr 2 dd).cat scansTo_dot).cat
        (scansTo_ptrStr dd 2))
    rw [hprog] at hpp
    simp only [Option.some.injEq] at hpp
    subst hpp
    have t0 := @exec_ptrP base s 2 dd hp
    have d1 := t0.app (@exec_one_dot base _)
    have p2 := d1.app (exec_ptrP dd 2 (by simp))
    exact ⟨_, p2, by norm_num⟩
  · -- GT
    intro i av bv ta tb rest da db hops hda hdb hUa hUb code hcode prog hprog
      s hp hda2 hdb2 hzz
    simp only [BFI.gt, hops, BFGen.clear_cond, BFGen.ptr_eq addr_IC addr_CRR,
      BFGen.ptr_eq addr_CRR addr_IC, ok_bind, BFGen.ptr_eq addr_IC hda,
      BFGen.gt_setup_eq hda hdb, BFGen.mv_eq addr_TR1 addr_CRR,
      BFGen.ptr_eq addr_TR1 addr_IC, pure_ok, Except.ok.injEq] at hcode
    have hpp : parseBF code = some (gtBodyP da db) := by
      rw [← hcode]
      exact parseBF_of_scansTo (scansTo_gtBodyStr da db)
    rw [hprog] at hpp
    simp only [Option.some.injEq] at hpp
    subst hpp
    exact exec_gtBody hb1 da db (ureg_address hUa hda).1 (ureg_address hUb hdb).1
      hp hda2 hdb2 hzz
  · -- B to a label
    intro i ov ot lbl hops hnreg hlk code hcode prog hprog s hp h0b h1b
    simp only [BFI.branch, hops] at hcode
    rw [if_neg hnreg] at hcode
    simp only [hlk] at hcode
    by_cases hgt : lbl.ip > pc
    · rw [if_pos hgt] at hcode
      simp only [BFGen.ptr_eq addr_IC addr_FJR, BFGen.ptr_eq addr_FJR addr_IC,
        ok_bind, pure_ok, Except.ok.injEq] at hcode
      have hpp : parseBF code = some (ptrP 2 1 ++
          List.replicate (lbl.ip - pc) .plus ++ ptrP 1 2) := by
        rw [← hcode]
        exact parseBF_of_scansTo (((scansTo_ptrStr 2 1).cat
          (scansTo_pluses (lbl.ip - pc))).cat (scansTo_ptrStr 1 2))
      rw [hprog] at hpp
      simp only [Option.some.injEq] at hpp
      subst hpp
      have t0 := @exec_ptrP base s 2 1 hp
      have p1 := t0.app (exec_plusN (lbl.ip - pc) _
        (by rw [BfState.cur_eq]; simp only [BfState.tape_mk, BfState.ptr_mk]
            exact_mod_cast h1b))
      have p2 := p1.app (exec_ptrP 1 2 (by simp))
      exact ⟨_, p2, by norm_num, rfl⟩
    · rw [if_neg hgt] at hcode
      simp only [BFGen.ptr_eq addr_IC addr_BJR, BFGen.ptr_eq addr_BJR addr_IC,
        ok_bind, pure_ok, Except.ok.injEq] at hcode
      have hpp : parseBF code = some (ptrP 2 0 ++
          List.replicate (pc - lbl.ip + 1) .plus ++ ptrP 0 2) := by
        rw [← hcode]
        exact parseBF_of_scansTo (((scansTo_ptrStr 2 0).cat
          (scansTo_pluses (pc - lbl.ip + 1))).cat (scansTo_ptrStr 0 2))
      rw [hprog] at hpp
      simp only [Option.some.injEq] at hpp
      subst hpp
      have t0 := @exec_ptrP base s 2 0 hp
      have p1 := t0.app (exec_plusN (pc - lbl.ip + 1) _
        (by rw [BfState.cur_eq]; simp only [BfState.tape_mk, BfState.ptr_mk]
            exact_mod_cast h0b))
      have p2 := p1.app (exec_ptrP 0 2 (by simp))
      exact ⟨_, p2, by norm_num, rfl⟩
  · -- B to a register
    intro i rv ot dv hops hUr hdv code hcode prog hprog s hp h9b hdvb h0b h1b hzz
    simp only [BFI.branch, hops] at hcode
    rw [if_pos hUr] at hcode
    simp only [BFGen.ptr_eq addr_IC addr_PC, BFGen.gt_setup_eq addr_PC hdv,
      BFGen.cp_eq addr_TR1 addr_TR3 addr_TR4, BFGen.ptr_eq addr_TR1 addr_TR3,
      BFGen.inot_eq addr_TR3 addr_TR2, BFGen.ptr_eq addr_TR3 addr_TR1,
      BFGen.ptr_eq addr_TR1 addr_PC, BFGen.cp_eq addr_PC addr_TR3 addr_TR5,
      BFGen.ptr_eq addr_PC hdv, BFGen.cp_eq hdv addr_TR4 addr_TR5,
      BFGen.ptr_eq hdv addr_TR4, BFGen.mv_eq addr_TR3 addr_BJR,
      BFGen.ptr_eq addr_TR2 addr_PC, BFGen.cp_eq addr_PC addr_TR4 addr_TR5,
      BFGen.cp_eq hdv addr_TR3 addr_TR5, BFGen.mv_eq addr_TR3 addr_FJR,
      BFGen.ptr_eq addr_TR3 addr_TR2, BFGen.ptr_eq addr_TR2 addr_IC,
      ok_bind, pure_ok, Except.ok.injEq] at hcode
    have hpp : parseBF code = some (brRegP dv) := by
      rw [← hcode]
      exact parseBF_of_scansTo (scansTo_brRegStr dv)
    rw [hprog] at hpp
    simp only [Option.some.injEq] at hpp
    subst hpp
    exact exec_brReg hb1 dv (ureg_address hUr hdv).1 hp rfl h9b rfl hdvb
      rfl h0b rfl h1b hzz

set_option maxRecDepth 16384 in
/-- Witness for C10: the register ADD body (`ADD R1, R2`) and the
register-branch body (`B R3`) both start and finish on IC at base 256. -/
theorem claim_C10_witness :
    (∃ t : BfState, Exec 256 (addRefP 11 10)
        ⟨fun j => if j = 10 then 2 else if j = 11 then 3 else 0, 2, []⟩ t ∧
      t.ptr = 2 ∧ t.out = []) ∧
    (∃ t : BfState, Exec 256 (brRegP 12)
        ⟨fun j => if j = 9 then 1 else if j = 12 then 2 else 0, 2, []⟩ t ∧
      t.ptr = 2 ∧ t.out = []) :=
  ⟨(claim_C10 256 (by omega) [] 0).1
      ⟨"ADD", [⟨"R1", .REFERENCE⟩, ⟨"R2", .REFERENCE⟩]⟩
      "R1" "R2" .REFERENCE 10 11 rfl rfl rfl (by decide) (by decide)
      _ rfl (addRefP 11 10) rfl
      ⟨fun j => if j = 10 then 2 else if j = 11 then 3 else 0, 2, []⟩
      rfl (by decide) (by decide) (by decide),
   (claim_C10 256 (by omega) [] 0).2.2.2.2.2.2
      ⟨"B", [⟨"R3", .REFERENCE⟩]⟩ "R3" .REFERENCE 12 rfl (by decide) rfl
      _ rfl (brRegP 12) rfl
      ⟨fun j => if j = 9 then 1 else if j = 12 then 2 else 0, 2, []⟩
      rfl (by decide) (by decide) (by decide) (by decide)
      (by
        intro i h1 h2
        simp only [BfState.tape_mk]
        rw [if_neg (by omega), if_neg (by omega)])⟩
